import Mathlib

/-!
# Slab and page allocator of `kernel/mm/malloc.c`

A shallow embedding of the allocator (`init_mm`, `malloc`, `free`,
`malloc_usable_size` and their helpers) together with theorems about it.

Modelling conventions.

* Memory is a map from byte addresses to bytes.  Multi-byte fields are read and
  written little-endian (the kernel is x86-64), so the overlay of
  `slab_header.slab_size` and `malloc_region.region_size` at offset 0 and the
  word-wise checksum over the header are represented exactly.
* Addresses and machine integers are natural numbers; wrap-around is written
  explicitly (`% 2 ^ 32`, `% 2 ^ 64`) where the C code computes in a fixed width.
* `koops` never returns: a call ends in `Outcome.fatal`, which carries the state
  at the moment of the halt.  C undefined behaviour (a shift by 64 or more, a
  division by zero) ends in `Outcome.undefined`.
* The page source (`alloc_pages` / `free_pages`), the interrupt nesting counter
  and the interrupt flag are external to `malloc.c`; they appear as an
  environment and as a log of page-source calls.
-/

namespace Malloc

/-! ## Constants and layout -/

/-- Modelled from the spec: `PAGE_SIZE` of the absent `mm.h` (4096-byte pages). -/
def PAGE_SIZE : Nat := 4096

/-- Modelled from the spec: `PAGE_MASK` of the absent `mm.h`, the low twelve bits. -/
def PAGE_MASK : Nat := 4095

/-- Largest `uint32_t`. -/
def UINT32_MAX : Nat := 4294967295

/-- The constant `MAX_SLAB_SIZE`: anything over this gets pages. -/
def MAX_SLAB_SIZE : Nat := 4032

/-- The constant `SLAB_SIZES`. -/
def SLAB_SIZES : Nat := 7

/-- Value of `sizeof(struct slab_header)`: 64 header bytes and 4032 data bytes,
aligned to 4096. -/
def sizeof_slab_header : Nat := 4096

/-- Value of `sizeof(struct malloc_region)`: a `uint32_t` and twelve padding bytes. -/
def sizeof_malloc_region : Nat := 16

/-- The record `struct slab_block_info`. -/
structure slab_block_info where
  slab_size : Nat
  slab_count : Nat
deriving DecidableEq, Repr

/-- The table `slab_info[]`. -/
def slab_info : List slab_block_info :=
  [⟨32, 64⟩, ⟨64, 63⟩, ⟨192, 21⟩, ⟨448, 9⟩, ⟨1008, 4⟩, ⟨2016, 2⟩, ⟨4032, 1⟩]

/-- The entry `slab_info[i]`; an index outside the table reads a zero record. -/
def slab_info_at (i : Nat) : slab_block_info := slab_info.getD i ⟨0, 0⟩

/-- Byte offset of `slab_header.slab_size` (and of `malloc_region.region_size`). -/
def OFF_SLAB_SIZE : Nat := 0
/-- Byte offset of `slab_header.lock`. -/
def OFF_LOCK : Nat := 4
/-- Byte offset of `slab_header.next`. -/
def OFF_NEXT : Nat := 8
/-- Byte offset of `slab_header.malloc_cnt`. -/
def OFF_MALLOC_CNT : Nat := 16
/-- Byte offset of `slab_header.free_cnt`. -/
def OFF_FREE_CNT : Nat := 24
/-- Byte offset of `slab_header.allocation_bm[0]`. -/
def OFF_BM0 : Nat := 32
/-- Byte offset of `slab_header.allocation_bm[1]`. -/
def OFF_BM1 : Nat := 40
/-- Byte offset of `slab_header.signature`. -/
def OFF_SIGNATURE : Nat := 48
/-- Byte offset of `slab_header.checksum`. -/
def OFF_CHECKSUM : Nat := 56
/-- Byte offset of `slab_header.data` (and size of the header proper). -/
def OFF_DATA : Nat := 64

/-! ## Byte-addressed memory -/

/-- Memory: one byte per address. -/
structure Mem where
  byte : Nat → Nat

/-- The byte stored at `a`. -/
def read8 (m : Mem) (a : Nat) : Nat := m.byte a % 256

/-- Little-endian 32-bit load. -/
def read32 (m : Mem) (a : Nat) : Nat :=
  read8 m a + 256 * read8 m (a + 1) + 65536 * read8 m (a + 2) + 16777216 * read8 m (a + 3)

/-- Little-endian 64-bit load. -/
def read64 (m : Mem) (a : Nat) : Nat :=
  read32 m a + 4294967296 * read32 m (a + 4)

/-- Little-endian 32-bit store of `v` (truncated to 32 bits). -/
def write32 (m : Mem) (a v : Nat) : Mem :=
  ⟨fun x => if a ≤ x ∧ x < a + 4 then (v / 256 ^ (x - a)) % 256 else m.byte x⟩

/-- Little-endian 64-bit store of `v` (truncated to 64 bits). -/
def write64 (m : Mem) (a v : Nat) : Mem :=
  ⟨fun x => if a ≤ x ∧ x < a + 8 then (v / 256 ^ (x - a)) % 256 else m.byte x⟩

/-- The library routine `memset(p, c, n)`. -/
def memset (m : Mem) (p c n : Nat) : Mem :=
  ⟨fun x => if p ≤ x ∧ x < p + n then c % 256 else m.byte x⟩

/-- The bytes of the string literal `"MALLOC"` with its terminating NUL. -/
def MALLOC_SIG : List Nat := [77, 65, 76, 76, 79, 67, 0]

/-- The call `strcpy(dst, "MALLOC")`: seven bytes are written, the eighth byte of
the signature field keeps its old content. -/
def strcpy_MALLOC (m : Mem) (dst : Nat) : Mem :=
  ⟨fun x => if dst ≤ x ∧ x < dst + 7 then MALLOC_SIG.getD (x - dst) 0 else m.byte x⟩

/-- Whether `strcmp(s, "MALLOC")` is zero: the seven bytes at `s` spell the
literal including its NUL. -/
def strcmp_MALLOC_eq (m : Mem) (s : Nat) : Bool :=
  decide (read8 m s = 77 ∧ read8 m (s + 1) = 65 ∧ read8 m (s + 2) = 76 ∧
    read8 m (s + 3) = 76 ∧ read8 m (s + 4) = 79 ∧ read8 m (s + 5) = 67 ∧
    read8 m (s + 6) = 0)

/-- Bitwise complement of a 64-bit value. -/
def not64 (x : Nat) : Nat := x ^^^ 0xffffffffffffffff

/-! ## State, environment, outcomes -/

/-- A call made to the external page source. -/
inductive PageEvent where
  | alloc (pages addr : Nat)
  | free (addr pages : Nat)
deriving DecidableEq, Repr

/-- What `malloc.c` consumes from the rest of the kernel: the interrupt nesting
depth returned by `read_int_nest_count()` and the page source `alloc_pages`,
whose answer may depend on the number of pages asked for and on the calls made
to it so far. -/
structure Env where
  int_nest_count : Nat
  alloc_pages : List PageEvent → Nat → Nat

/-- The allocator state: memory, the global `malloc_lock`, the list heads
`slabs[]`, the interrupt flag, and the calls made to the page source so far
(newest first). -/
structure State where
  mem : Mem
  malloc_lock : Int
  slabs : Nat → Nat
  irq_enabled : Bool
  page_log : List PageEvent

/-- The `koops` call sites of `malloc.c`. -/
inductive Fatal where
  | slab_header_size
  | in_interrupt
  | too_large
  | lock_not_zero
  | lock_not_one
  | bad_size
  | not_a_slab
  | invalid_checksum
  | new_slab_full
  | free_offset
  | free_boundary
  | not_allocated
deriving DecidableEq, Repr

/-- Result of an entry point: a normal return, a fatal halt (with the state at
the halt), or C undefined behaviour. -/
inductive Outcome (α : Type) where
  | ok (val : α) (st : State)
  | fatal (err : Fatal) (st : State)
  | undefined

/-- Whether the call halted in `koops`. -/
def Outcome.isFatal {α : Type} : Outcome α → Bool
  | .fatal _ _ => true
  | _ => false

/-- Whether the call returned normally. -/
def Outcome.isOk {α : Type} : Outcome α → Bool
  | .ok _ _ => true
  | _ => false

/-- The returned value, if the call returned. -/
def Outcome.val? {α : Type} : Outcome α → Option α
  | .ok v _ => some v
  | _ => none

/-- The state at return or at the halt. -/
def Outcome.state? {α : Type} : Outcome α → Option State
  | .ok _ s => some s
  | .fatal _ s => some s
  | .undefined => none

/-- Wrap-around of a 32-bit `int`. -/
def int32_wrap (x : Int) : Int := (x + 2147483648) % 4294967296 - 2147483648

/-- The call `atomic_fetch_add(&malloc_lock, 1)`: old value and new state. -/
def atomic_fetch_add_lock (st : State) : Int × State :=
  (st.malloc_lock, { st with malloc_lock := int32_wrap (st.malloc_lock + 1) })

/-- The call `atomic_fetch_sub(&malloc_lock, 1)`: old value and new state. -/
def atomic_fetch_sub_lock (st : State) : Int × State :=
  (st.malloc_lock, { st with malloc_lock := int32_wrap (st.malloc_lock - 1) })

/-- Modelled from the spec: `local_irq_save()` of the absent `klibc.h`, which
disables interrupts and returns the previous flag. -/
def local_irq_save (st : State) : Bool × State :=
  (st.irq_enabled, { st with irq_enabled := false })

/-- Modelled from the spec: `load_eflags(flags)` of the absent `klibc.h`, which
restores the saved interrupt flag. -/
def load_eflags (flags : Bool) (st : State) : State :=
  { st with irq_enabled := flags }

/-- Modelled from the spec: `alloc_pages(n)` of the absent page-frame allocator.
The environment chooses the block; the call is logged. -/
def alloc_pages (env : Env) (st : State) (n : Nat) : Nat × State :=
  let a := env.alloc_pages st.page_log n
  (a, { st with page_log := PageEvent.alloc n a :: st.page_log })

/-- Modelled from the spec: `free_pages(block, n)` of the absent page-frame
allocator.  The call is logged. -/
def free_pages (st : State) (a n : Nat) : State :=
  { st with page_log := PageEvent.free a n :: st.page_log }

/-! ## The allocator -/

/-- The function `compute_checksum`: XOR of the first seven 64-bit words. -/
def compute_checksum (m : Mem) (slab : Nat) : Nat :=
  (List.range 7).foldl (fun checksum i => checksum ^^^ read64 m (slab + 8 * i)) 0

/-- The function `update_checksum`. -/
def update_checksum (m : Mem) (slab : Nat) : Mem :=
  write64 m (slab + OFF_CHECKSUM) (compute_checksum m slab)

/-- The function `add_new_slab`: returns the new slab and the new state. -/
def add_new_slab (env : Env) (st : State) (slab_idx : Nat) : Nat × State :=
  let r := alloc_pages env st 1
  let slab := r.1
  let st1 := r.2
  let m1 := write32 st1.mem (slab + OFF_SLAB_SIZE) (slab_info_at slab_idx).slab_size
  let m2 := write32 m1 (slab + OFF_LOCK) 0
  let m3 := write64 m2 (slab + OFF_BM0) 0
  let m4 := write64 m3 (slab + OFF_BM1) 0
  let m5 := strcpy_MALLOC m4 (slab + OFF_SIGNATURE)
  let m6 := write64 m5 (slab + OFF_NEXT) (st1.slabs slab_idx)
  let m7 := update_checksum m6 slab
  (slab, { st1 with mem := m7, slabs := Function.update st1.slabs slab_idx slab })

/-- The function `init_mm`. -/
def init_mm (env : Env) (st : State) : State :=
  (List.range SLAB_SIZES).foldl (fun s i => (add_new_slab env s i).2)
    { st with malloc_lock := 0 }

/-- The function `validate_is_slab`: `none` when both checks pass, otherwise the
`koops` taken. -/
def validate_is_slab (m : Mem) (slab : Nat) : Option Fatal :=
  if strcmp_MALLOC_eq m (slab + OFF_SIGNATURE) = false then some Fatal.not_a_slab
  else if compute_checksum m slab ≠ read64 m (slab + OFF_CHECKSUM) then
    some Fatal.invalid_checksum
  else none

/-- The function `region_is_slab` (an unsigned comparison). -/
def region_is_slab (m : Mem) (region : Nat) : Bool :=
  decide (read32 m (region + OFF_SLAB_SIZE) ≤ MAX_SLAB_SIZE)

/-- The function `map_size_to_idx`; `none` is the `koops` branch. -/
def map_size_to_idx (size : Nat) : Option Nat :=
  if size ≤ 32 then some 0
  else if size ≤ 64 then some 1
  else if size ≤ 192 then some 2
  else if size ≤ 448 then some 3
  else if size ≤ 1008 then some 4
  else if size ≤ 2016 then some 5
  else if size ≤ 4032 then some 6
  else none

/-- The function `bitmap_mask`, computed in 64 bits. -/
def bitmap_mask (slab_idx : Nat) : Nat :=
  if slab_idx = 0 then 0xffffffffffffffff
  else
    let mask := 1
    let count := (slab_info_at slab_idx).slab_count
    ((mask <<< count) % 2 ^ 64 + 2 ^ 64 - 1) % 2 ^ 64

/-- Search for the lowest set bit of `x` among bits `i, i+1, ..`, at most `fuel`
of them; the answer is one more than the bit index, or 0. -/
def ffsl_from (x : Nat) : Nat → Nat → Nat
  | 0, _ => 0
  | fuel + 1, i => if x.testBit i then i + 1 else ffsl_from x fuel (i + 1)

/-- The compiler builtin `__builtin_ffsl` on a 64-bit argument: one plus the
index of the least significant set bit, or 0 when the argument is 0. -/
def builtin_ffsl (x : Nat) : Nat := ffsl_from x 64 0

/-- The page containing `p`: the expression `p & ~PAGE_MASK`, computed in 64 bits. -/
def page_of (p : Nat) : Nat := p &&& not64 PAGE_MASK

/-- Lines 186-190 of `malloc`: the page-backed branch. -/
def malloc_pages (env : Env) (st : State) (size : Nat) : Nat × State :=
  let pages := ((sizeof_malloc_region + size + PAGE_MASK) % 2 ^ 64) / PAGE_SIZE
  let r := alloc_pages env st pages
  let result := r.1
  let st1 := r.2
  let m := write32 st1.mem (result + OFF_SLAB_SIZE)
    (((pages * PAGE_SIZE) % 2 ^ 64 + 2 ^ 64 - sizeof_malloc_region) % 2 ^ 64)
  (result + sizeof_malloc_region, { st1 with mem := m })

/-- Lines 210-217 of `malloc`: take slot `freebit - 1` of `slab`. -/
def malloc_take (st : State) (slab_idx slab freebit : Nat) : Nat × State :=
  let freebit := freebit - 1
  let offset := (freebit * (slab_info_at slab_idx).slab_size) % 2 ^ 32
  let retval := slab + OFF_DATA + offset
  let free_mask := (1 <<< freebit) % 2 ^ 64
  let m1 := write64 st.mem (slab + OFF_BM0) (read64 st.mem (slab + OFF_BM0) ||| free_mask)
  let m2 := write64 m1 (slab + OFF_MALLOC_CNT) ((read64 m1 (slab + OFF_MALLOC_CNT) + 1) % 2 ^ 64)
  let m3 := update_checksum m2 slab
  (retval, { st with mem := m3 })

/-- Lines 192-217 of `malloc`: the slab branch. -/
def malloc_slab (env : Env) (st : State) (size : Nat) : Outcome Nat :=
  match map_size_to_idx size with
  | none => Outcome.fatal Fatal.bad_size st
  | some slab_idx =>
    let slab := st.slabs slab_idx
    match validate_is_slab st.mem slab with
    | some e => Outcome.fatal e st
    | none =>
      let allocation_mask := bitmap_mask slab_idx
      let free_bits := read64 st.mem (slab + OFF_BM0) ^^^ allocation_mask
      let freebit := builtin_ffsl free_bits
      if freebit = 0 then
        let r := add_new_slab env st slab_idx
        let slab := r.1
        let st1 := r.2
        let free_bits := read64 st1.mem (slab + OFF_BM0) ^^^ allocation_mask
        let freebit := builtin_ffsl free_bits
        if freebit = 0 then Outcome.fatal Fatal.new_slab_full st1
        else
          let t := malloc_take st1 slab_idx slab freebit
          Outcome.ok t.1 t.2
      else
        let t := malloc_take st slab_idx slab freebit
        Outcome.ok t.1 t.2

/-- The function `malloc`. -/
def malloc (env : Env) (st : State) (size : Nat) : Outcome Nat :=
  if sizeof_slab_header ≠ PAGE_SIZE then Outcome.fatal Fatal.slab_header_size st
  else if env.int_nest_count > 0 then Outcome.fatal Fatal.in_interrupt st
  else if size > UINT32_MAX - sizeof_malloc_region then Outcome.fatal Fatal.too_large st
  else
    let fl := local_irq_save st
    let la := atomic_fetch_add_lock fl.2
    if la.1 ≠ 0 then Outcome.fatal Fatal.lock_not_zero la.2
    else
      let body : Outcome Nat :=
        if size > MAX_SLAB_SIZE then
          let r := malloc_pages env la.2 size
          Outcome.ok r.1 r.2
        else malloc_slab env la.2 size
      match body with
      | Outcome.undefined => Outcome.undefined
      | Outcome.fatal e s => Outcome.fatal e s
      | Outcome.ok retval s =>
        let ls := atomic_fetch_sub_lock s
        if ls.1 ≠ 1 then Outcome.fatal Fatal.lock_not_one ls.2
        else Outcome.ok retval (load_eflags fl.1 ls.2)

/-- The slot index `bit_idx` computed by `free` from the page offset. -/
def free_bit_idx (offset slab_size : Nat) : Nat := (offset - 64) / slab_size

/-- Lines 251-276 of `free`: the slab branch.  Two steps of the C code have no
defined result for some inputs and end in `Outcome.undefined` there: the
remainder and quotient by `slab->slab_size` when that field is 0, and the shift
`(uint64_t)1 << bit_idx` when `bit_idx` is 64 or more. -/
def free_slab (st : State) (ptr slab : Nat) : Outcome Unit :=
  match validate_is_slab st.mem slab with
  | some e => Outcome.fatal e st
  | none =>
    let offset := ptr - slab
    if offset < 64 then Outcome.fatal Fatal.free_offset st
    else
      let slab_size := read32 st.mem (slab + OFF_SLAB_SIZE)
      if slab_size = 0 then Outcome.undefined
      else if (offset - 64) % slab_size ≠ 0 then Outcome.fatal Fatal.free_boundary st
      else
        let bit_idx := free_bit_idx offset slab_size
        if 64 ≤ bit_idx then Outcome.undefined
        else
          let bitmap_mask := (1 <<< bit_idx) % 2 ^ 64
          if read64 st.mem (slab + OFF_BM0) &&& bitmap_mask ≠ 0 then
            let m1 := write64 st.mem (slab + OFF_BM0)
              (read64 st.mem (slab + OFF_BM0) &&& not64 bitmap_mask)
            let m2 := write64 m1 (slab + OFF_FREE_CNT)
              ((read64 m1 (slab + OFF_FREE_CNT) + 1) % 2 ^ 64)
            let m3 := memset m2 ptr 0xAA (read32 m2 (slab + OFF_SLAB_SIZE))
            let m4 := update_checksum m3 slab
            Outcome.ok () { st with mem := m4 }
          else Outcome.fatal Fatal.not_allocated st

/-- The function `free`. -/
def free (env : Env) (st : State) (ptr : Nat) : Outcome Unit :=
  if ptr = 0 then Outcome.ok () st
  else if env.int_nest_count > 0 then Outcome.fatal Fatal.in_interrupt st
  else
    let fl := local_irq_save st
    let la := atomic_fetch_add_lock fl.2
    if la.1 ≠ 0 then Outcome.fatal Fatal.lock_not_zero la.2
    else
      let slab := page_of ptr
      let body : Outcome Unit :=
        if region_is_slab la.2.mem slab = false then
          let pages := (read32 la.2.mem (slab + OFF_SLAB_SIZE) + sizeof_malloc_region) / PAGE_SIZE
          Outcome.ok () (free_pages la.2 slab pages)
        else free_slab la.2 ptr slab
      match body with
      | Outcome.undefined => Outcome.undefined
      | Outcome.fatal e s => Outcome.fatal e s
      | Outcome.ok _ s =>
        let ls := atomic_fetch_sub_lock s
        if ls.1 ≠ 1 then Outcome.fatal Fatal.lock_not_one ls.2
        else Outcome.ok () (load_eflags fl.1 ls.2)

/-- The function `malloc_usable_size`. -/
def malloc_usable_size (env : Env) (st : State) (ptr : Nat) : Outcome Nat :=
  if env.int_nest_count > 0 then Outcome.fatal Fatal.in_interrupt st
  else if ptr = 0 then Outcome.ok 0 st
  else
    let fl := local_irq_save st
    let la := atomic_fetch_add_lock fl.2
    if la.1 ≠ 0 then Outcome.fatal Fatal.lock_not_zero la.2
    else
      let slab := page_of ptr
      let body : Outcome Nat :=
        if region_is_slab la.2.mem slab then
          match validate_is_slab la.2.mem slab with
          | some e => Outcome.fatal e la.2
          | none => Outcome.ok (read32 la.2.mem (slab + OFF_SLAB_SIZE)) la.2
        else Outcome.ok (read32 la.2.mem (slab + OFF_SLAB_SIZE)) la.2
      match body with
      | Outcome.undefined => Outcome.undefined
      | Outcome.fatal e s => Outcome.fatal e s
      | Outcome.ok retval s =>
        let ls := atomic_fetch_sub_lock s
        if ls.1 ≠ 1 then Outcome.fatal Fatal.lock_not_one ls.2
        else Outcome.ok retval (load_eflags fl.1 ls.2)

/-! ## Auxiliary notions used in the statements -/

/-- The state with which the critical section of an entry point starts:
interrupts disabled and `malloc_lock` incremented. -/
def critical_enter (st : State) : State :=
  (atomic_fetch_add_lock (local_irq_save st).2).2

/-- The state with which an entry point returns: `malloc_lock` decremented and
the saved interrupt flag restored. -/
def critical_leave (flags : Bool) (st : State) : State :=
  load_eflags flags (atomic_fetch_sub_lock st).2

/-- The size of class `i`. -/
def class_size (i : Nat) : Nat := (slab_info_at i).slab_size

/-- The number of slots of class `i`. -/
def class_count (i : Nat) : Nat := (slab_info_at i).slab_count

/-- Both checks of `validate_is_slab` pass on the header at `a`. -/
def HeaderOK (m : Mem) (a : Nat) : Prop :=
  strcmp_MALLOC_eq m (a + OFF_SIGNATURE) = true ∧
    compute_checksum m a = read64 m (a + OFF_CHECKSUM)

/-- The page at `a` is a well-formed slab of class `i`: page aligned, inside the
64-bit address space, with the class's `slab_size`, a header that validates, and
no bitmap bit set at or above the class's slot count. -/
def SlabOK (m : Mem) (a i : Nat) : Prop :=
  a % PAGE_SIZE = 0 ∧ a + PAGE_SIZE ≤ 2 ^ 64 ∧ i < SLAB_SIZES ∧
    read32 m (a + OFF_SLAB_SIZE) = class_size i ∧ HeaderOK m a ∧
    read64 m (a + OFF_BM0) < 2 ^ class_count i

/-- Flip bit `bit` of the byte at `addr`. -/
def flip_bit (m : Mem) (addr bit : Nat) : Mem :=
  ⟨fun x => if x = addr then (m.byte x % 256) ^^^ 2 ^ bit else m.byte x⟩

/-- The header at `a` has been corrupted within its checksummed bytes 0..55:
either one bit of one of these bytes is flipped, or the signature field (bytes
48..55) holds a different value and nothing else changed. -/
def HeaderCorrupted (m m' : Mem) (a : Nat) : Prop :=
  (∃ j k, j < 56 ∧ k < 8 ∧ m' = flip_bit m (a + j) k) ∨
    ((∀ x, x < a + OFF_SIGNATURE ∨ a + OFF_CHECKSUM ≤ x → m'.byte x = m.byte x) ∧
      read64 m' (a + OFF_SIGNATURE) ≠ read64 m (a + OFF_SIGNATURE))

/-- The blocks handed out by the page source and not given back, according to
the log. -/
def live_blocks : List PageEvent → List (Nat × Nat)
  | [] => []
  | PageEvent.alloc n a :: h => (a, n) :: live_blocks h
  | PageEvent.free a _ :: h => (live_blocks h).filter (fun blk => decide (blk.1 ≠ a))

/-- The block of `n` pages at `b` is a proper answer of the page source after
the calls in `log`: not null, page aligned, inside the address space, and
disjoint from every block that is still handed out. -/
def FreshBlock (log : List PageEvent) (b n : Nat) : Prop :=
  0 < b ∧ b % PAGE_SIZE = 0 ∧ b + n * PAGE_SIZE ≤ 2 ^ 64 ∧
    ∀ blk ∈ live_blocks log, b + n * PAGE_SIZE ≤ blk.1 ∨ blk.1 + blk.2 * PAGE_SIZE ≤ b

/-- The page source answers the next request properly, whatever the number of
pages `malloc` may ask for (at most `2 ^ 20`). -/
def PageSourceOK (env : Env) (log : List PageEvent) : Prop :=
  ∀ n, 0 < n → n ≤ 2 ^ 20 → FreshBlock log (env.alloc_pages log n) n

/-- The first `k` iterations of the loop of `init_mm`. -/
def init_mm_upto (env : Env) (st : State) (k : Nat) : State :=
  (List.range k).foldl (fun s i => (add_new_slab env s i).2) { st with malloc_lock := 0 }

/-- A bump page source standing outside interrupt context: the next block
starts right after all pages handed out so far, the first at 4096. -/
def bump_env : Env :=
  ⟨0, fun log _ => 4096 * (1 + (log.map (fun e =>
    match e with
    | PageEvent.alloc k _ => k
    | PageEvent.free _ _ => 0)).sum)⟩

/-- The bump page source, called from inside an interrupt handler. -/
def bump_env_in_interrupt : Env := { bump_env with int_nest_count := 1 }

/-- A boot state: memory filled with `0xFF`, list heads null, nothing logged. -/
def boot_state : State := ⟨⟨fun _ => 0xFF⟩, 0, fun _ => 0, true, []⟩

/-! ## The allocator invariant -/

/-- A block of the page source is well-formed: not null, page aligned, inside
the address space, of at least one page. -/
def BlockOK (blk : Nat × Nat) : Prop :=
  0 < blk.1 ∧ blk.1 % PAGE_SIZE = 0 ∧ blk.1 + blk.2 * PAGE_SIZE ≤ 2 ^ 64 ∧ 0 < blk.2

/-- Two blocks of the page source do not overlap. -/
def BlocksDisjoint (x y : Nat × Nat) : Prop :=
  x.1 + x.2 * PAGE_SIZE ≤ y.1 ∨ y.1 + y.2 * PAGE_SIZE ≤ x.1

/-- The slab pages in `l` are linked through `next` in this order, the last one
holding a null `next`. -/
def Linked (m : Mem) : List Nat → Prop
  | [] => True
  | [a] => read64 m (a + OFF_NEXT) = 0
  | a :: b :: rest => read64 m (a + OFF_NEXT) = b ∧ Linked m (b :: rest)

/-- The slab pool is well-formed.  `chains i` lists the slab pages of class `i`,
newest first: `slabs[i]` is its first element (or null when there is none yet),
every page is a well-formed slab of its class and a one-page block still held
from the page source, the pages are linked through `next`, and the blocks held
from the page source are well-formed and pairwise disjoint. -/
structure Pool (m : Mem) (slabs : Nat → Nat) (log : List PageEvent)
    (chains : Nat → List Nat) : Prop where
  head : ∀ i, i < 7 → ∀ a rest, chains i = a :: rest → slabs i = a
  null : ∀ i, i < 7 → chains i = [] → slabs i = 0
  slab : ∀ i, i < 7 → ∀ a, a ∈ chains i → SlabOK m a i ∧ (a, 1) ∈ live_blocks log
  link : ∀ i, i < 7 → Linked m (chains i)
  blocks : ∀ blk, blk ∈ live_blocks log → BlockOK blk
  disjoint : (live_blocks log).Pairwise BlocksDisjoint

/-- The pointer `p` is an allocated slot of a slab of the pool: slot `k` of a
page `a` of class `i`, with bit `k` set in the bitmap of `a`. -/
def LiveSlot (m : Mem) (chains : Nat → List Nat) (p : Nat) : Prop :=
  ∃ i a k, i < 7 ∧ a ∈ chains i ∧ k < class_count i ∧
    p = a + OFF_DATA + k * class_size i ∧ (read64 m (a + OFF_BM0)).testBit k = true

/-- The pointer `p` is the data of a page-backed region: 16 bytes past a block
of `n` pages still held from the page source, whose header holds the region
size `n * 4096 - 16`. -/
def LiveRegion (m : Mem) (log : List PageEvent) (p : Nat) : Prop :=
  ∃ b n, p = b + sizeof_malloc_region ∧ (b, n) ∈ live_blocks log ∧ n ≤ 2 ^ 20 ∧
    read32 m (b + OFF_SLAB_SIZE) = n * PAGE_SIZE - sizeof_malloc_region

/-- The part of the invariant that does not mention the lock: the pool is
well-formed for the chains `chains` and every pointer of `L` is live. -/
def PoolInv (st : State) (L : List Nat) (chains : Nat → List Nat) : Prop :=
  Pool st.mem st.slabs st.page_log chains ∧
    ∀ p, p ∈ L → LiveSlot st.mem chains p ∨ LiveRegion st.mem st.page_log p

/-- The allocator invariant for a state and the list `L` of live pointers
(returned by `malloc` and not passed to `free` since): the lock is free, the
pool is well-formed with every class initialised, and every live pointer is an
allocated slot or a page-backed region. -/
def Inv (st : State) (L : List Nat) : Prop :=
  st.malloc_lock = 0 ∧
    ∃ chains, PoolInv st L chains ∧ ∀ i, i < 7 → chains i ≠ []

/-- During `init_mm` the page source answers each of the seven requests
properly. -/
def InitPagesOK (env : Env) (s0 : State) : Prop :=
  ∀ k, k < 7 → FreshBlock (init_mm_upto env s0 k).page_log
    (env.alloc_pages (init_mm_upto env s0 k).page_log 1) 1

/-- The states reachable from `init_mm` by calls that return, each with the list
of live pointers.  `init_mm` runs on a boot state (list heads null, as C
zero-initialises `slabs[]`, and nothing yet taken from the page source);
`free` is called on null or on a live pointer; the page source answers every
request properly. -/
inductive Reach (env : Env) : State → List Nat → Prop where
  | init (s0 : State) (hslabs : ∀ i, i < 7 → s0.slabs i = 0) (hlog : s0.page_log = [])
      (hsrc : InitPagesOK env s0) : Reach env (init_mm env s0) []
  | malloc (st : State) (L : List Nat) (size p : Nat) (st' : State)
      (h : Reach env st L) (hsrc : PageSourceOK env st.page_log)
      (hcall : malloc env st size = Outcome.ok p st') : Reach env st' (p :: L)
  | free (st : State) (L : List Nat) (p : Nat) (st' : State)
      (h : Reach env st L) (hp : p = 0 ∨ p ∈ L)
      (hcall : free env st p = Outcome.ok () st') :
      Reach env st' (L.filter (fun q => decide (q ≠ p)))
  | usable_size (st : State) (L : List Nat) (p v : Nat) (st' : State)
      (h : Reach env st L)
      (hcall : malloc_usable_size env st p = Outcome.ok v st') : Reach env st' L

/-- Freshness of a block can be checked by computation. -/
instance FreshBlock.decidable (log : List PageEvent) (b n : Nat) :
    Decidable (FreshBlock log b n) := by
  unfold FreshBlock; infer_instance

/-- Well-formedness of a slab can be checked by computation. -/
instance SlabOK.decidable (m : Mem) (a i : Nat) : Decidable (SlabOK m a i) := by
  unfold SlabOK HeaderOK; infer_instance

/-- The state in which a call ended, or `d` after undefined behaviour. -/
def Outcome.stateD {α : Type} (o : Outcome α) (d : State) : State :=
  match o with
  | Outcome.ok _ s => s
  | Outcome.fatal _ s => s
  | Outcome.undefined => d

/-- The state after `init_mm` on the boot state with the bump page source. -/
def booted_state : State := init_mm bump_env boot_state

/-- The state after `init_mm` and one `malloc(4032)`: the only slot of the head
slab of class 6 is taken. -/
def booted_full_state : State := (malloc bump_env booted_state 4032).stateD boot_state

/-- The booted state in which bit 12 of the `slab_size` field of the head slab
of class 0 (at page 4096) has been flipped: bit 4 of the byte at 4097. -/
def corrupted_state : State := { booted_state with mem := flip_bit booted_state.mem 4097 4 }

/-- Consecutive `malloc` calls, one per size in the list; the pointers returned,
in call order, and the final state.  The sequence stops at the first call that
does not return. -/
def malloc_seq (env : Env) (st : State) : List Nat → Outcome (List Nat)
  | [] => Outcome.ok [] st
  | s :: rest =>
    match malloc env st s with
    | Outcome.undefined => Outcome.undefined
    | Outcome.fatal e s1 => Outcome.fatal e s1
    | Outcome.ok p s1 =>
      match malloc_seq env s1 rest with
      | Outcome.undefined => Outcome.undefined
      | Outcome.fatal e s2 => Outcome.fatal e s2
      | Outcome.ok ps s2 => Outcome.ok (p :: ps) s2

/-- The byte ranges of `size` bytes at `x` and at `y` do not overlap. -/
def RangesDisjoint (size x y : Nat) : Prop := x + size ≤ y ∨ y + size ≤ x

/-- The `koops` call site at which a call halted, if it did. -/
def Outcome.err? {α : Type} : Outcome α → Option Fatal
  | Outcome.fatal e _ => some e
  | _ => none

/-- Whether the call ran into C undefined behaviour. -/
def Outcome.isUndefined {α : Type} : Outcome α → Bool
  | Outcome.undefined => true
  | _ => false

/-- The slab headers met when following `next` from `head` until a null pointer,
at most `fuel` of them. -/
def slab_list (m : Mem) : Nat → Nat → List Nat
  | 0, _ => []
  | fuel + 1, head =>
    if head = 0 then [] else head :: slab_list m fuel (read64 m (head + OFF_NEXT))

/-- The boot state with `malloc_lock` held. -/
def locked_state : State := { boot_state with malloc_lock := 1 }

/-- The state after a second `malloc(4032)`: the head slab of class 6 was full,
so the class has two slabs now, both full. -/
def booted_grown_state : State := (malloc bump_env booted_full_state 4032).stateD boot_state

/-- The state after the first of the two 4032-byte objects is freed again: the
head slab of class 6 is full and the slab behind it has its slot free. -/
def deep_free_state : State := (free bump_env booted_grown_state 28736).stateD boot_state

/-- The state after `init_mm` and one `malloc(32)`: slot 0 of the class-0 slab
at 4096 is allocated. -/
def booted_small_state : State := (malloc bump_env booted_state 32).stateD boot_state

/-! ## Memory lemmas -/

theorem read8_lt (m : Mem) (a : Nat) : read8 m a < 256 := by
  unfold read8; omega

theorem read32_lt (m : Mem) (a : Nat) : read32 m a < 4294967296 := by
  have h0 := read8_lt m a
  have h1 := read8_lt m (a + 1)
  have h2 := read8_lt m (a + 2)
  have h3 := read8_lt m (a + 3)
  unfold read32; omega

theorem read64_lt (m : Mem) (a : Nat) : read64 m a < 18446744073709551616 := by
  have h0 := read32_lt m a
  have h1 := read32_lt m (a + 4)
  unfold read64; omega

theorem read32_congr {m m' : Mem} {a : Nat}
    (h : ∀ x, a ≤ x → x < a + 4 → m'.byte x = m.byte x) : read32 m' a = read32 m a := by
  unfold read32 read8
  rw [h a (by omega) (by omega), h (a + 1) (by omega) (by omega),
    h (a + 2) (by omega) (by omega), h (a + 3) (by omega) (by omega)]

theorem read64_congr {m m' : Mem} {a : Nat}
    (h : ∀ x, a ≤ x → x < a + 8 → m'.byte x = m.byte x) : read64 m' a = read64 m a := by
  unfold read64
  rw [@read32_congr m m' a (fun x h1 h2 => h x h1 (by omega)),
    @read32_congr m m' (a + 4) (fun x h1 h2 => h x (by omega) (by omega))]

theorem write32_byte (m : Mem) (a v x : Nat) :
    (write32 m a v).byte x = if a ≤ x ∧ x < a + 4 then (v / 256 ^ (x - a)) % 256 else m.byte x := rfl

theorem write64_byte (m : Mem) (a v x : Nat) :
    (write64 m a v).byte x = if a ≤ x ∧ x < a + 8 then (v / 256 ^ (x - a)) % 256 else m.byte x := rfl

theorem memset_byte (m : Mem) (p c n x : Nat) :
    (memset m p c n).byte x = if p ≤ x ∧ x < p + n then c % 256 else m.byte x := rfl

theorem strcpy_MALLOC_byte (m : Mem) (dst x : Nat) :
    (strcpy_MALLOC m dst).byte x =
      if dst ≤ x ∧ x < dst + 7 then MALLOC_SIG.getD (x - dst) 0 else m.byte x := rfl

theorem write32_byte_out (m : Mem) (a v x : Nat) (h : x < a ∨ a + 4 ≤ x) :
    (write32 m a v).byte x = m.byte x := by
  rw [write32_byte, if_neg (by omega)]

theorem write64_byte_out (m : Mem) (a v x : Nat) (h : x < a ∨ a + 8 ≤ x) :
    (write64 m a v).byte x = m.byte x := by
  rw [write64_byte, if_neg (by omega)]

theorem memset_byte_out (m : Mem) (p c n x : Nat) (h : x < p ∨ p + n ≤ x) :
    (memset m p c n).byte x = m.byte x := by
  rw [memset_byte, if_neg (by omega)]

theorem strcpy_MALLOC_byte_out (m : Mem) (dst x : Nat) (h : x < dst ∨ dst + 7 ≤ x) :
    (strcpy_MALLOC m dst).byte x = m.byte x := by
  rw [strcpy_MALLOC_byte, if_neg (by omega)]

theorem write32_byte_in (m : Mem) (a v j : Nat) (h : j < 4) :
    (write32 m a v).byte (a + j) = (v / 256 ^ j) % 256 := by
  rw [write32_byte, if_pos (by omega), Nat.add_sub_cancel_left]

theorem write64_byte_in (m : Mem) (a v j : Nat) (h : j < 8) :
    (write64 m a v).byte (a + j) = (v / 256 ^ j) % 256 := by
  rw [write64_byte, if_pos (by omega), Nat.add_sub_cancel_left]

theorem read32_write32_same (m : Mem) (a v : Nat) :
    read32 (write32 m a v) a = v % 4294967296 := by
  have h0 := write32_byte_in m a v 0 (by omega)
  have h1 := write32_byte_in m a v 1 (by omega)
  have h2 := write32_byte_in m a v 2 (by omega)
  have h3 := write32_byte_in m a v 3 (by omega)
  simp only [Nat.add_zero] at h0
  unfold read32 read8
  rw [h0, h1, h2, h3]
  norm_num
  omega

theorem read64_write64_same (m : Mem) (a v : Nat) :
    read64 (write64 m a v) a = v % 18446744073709551616 := by
  have h0 := write64_byte_in m a v 0 (by omega)
  have h1 := write64_byte_in m a v 1 (by omega)
  have h2 := write64_byte_in m a v 2 (by omega)
  have h3 := write64_byte_in m a v 3 (by omega)
  have h4 := write64_byte_in m a v 4 (by omega)
  have h5 := write64_byte_in m a v 5 (by omega)
  have h6 := write64_byte_in m a v 6 (by omega)
  have h7 := write64_byte_in m a v 7 (by omega)
  simp only [Nat.add_zero] at h0
  unfold read64 read32 read8
  simp only [Nat.add_assoc] 
  norm_num
  rw [h0, h1, h2, h3, h4, h5, h6, h7]
  norm_num
  omega

/-! ## Page arithmetic -/

theorem not64_PAGE_MASK : not64 PAGE_MASK = (2 ^ 52 - 1) <<< 12 := by decide

theorem page_of_eq (p : Nat) (hp : p < 2 ^ 64) : page_of p = p - p % 4096 := by
  have h1 : p - p % 4096 = (p >>> 12) <<< 12 := by
    rw [Nat.shiftLeft_eq, Nat.shiftRight_eq_div_pow]
    norm_num
    omega
  rw [h1, page_of, not64_PAGE_MASK]
  apply Nat.eq_of_testBit_eq
  intro i
  rw [Nat.testBit_land, Nat.testBit_shiftLeft, Nat.testBit_shiftLeft, Nat.testBit_shiftRight,
    Nat.testBit_two_pow_sub_one]
  by_cases hi : 12 ≤ i
  · have e : 12 + (i - 12) = i := by omega
    rw [e]
    by_cases h52 : i - 12 < 52
    · simp [hi, h52]
    · have hlt : p < 2 ^ i := by
        calc p < 2 ^ 64 := hp
          _ ≤ 2 ^ i := Nat.pow_le_pow_right (by norm_num) (by omega)
      simp [hi, h52, Nat.testBit_lt_two_pow hlt]
  · simp [hi]

theorem page_of_le (p : Nat) : page_of p ≤ p := Nat.and_le_left

theorem page_of_add (a off : Nat) (ha : a % 4096 = 0) (hoff : off < 4096)
    (hlt : a + off < 2 ^ 64) : page_of (a + off) = a := by
  rw [page_of_eq _ hlt]
  omega

/-! ## Entry and exit of the critical section -/

theorem int32_wrap_one : int32_wrap (0 + 1) = 1 := by decide
theorem int32_wrap_zero : int32_wrap (1 - 1) = 0 := by decide

@[simp] theorem critical_enter_mem (st : State) : (critical_enter st).mem = st.mem := rfl
@[simp] theorem critical_enter_slabs (st : State) : (critical_enter st).slabs = st.slabs := rfl
@[simp] theorem critical_enter_page_log (st : State) :
    (critical_enter st).page_log = st.page_log := rfl
@[simp] theorem critical_enter_irq (st : State) : (critical_enter st).irq_enabled = false := rfl
theorem critical_enter_lock (st : State) (h : st.malloc_lock = 0) :
    (critical_enter st).malloc_lock = 1 := by
  show int32_wrap (st.malloc_lock + 1) = 1
  rw [h]; decide

@[simp] theorem critical_leave_mem (f : Bool) (st : State) : (critical_leave f st).mem = st.mem := rfl
@[simp] theorem critical_leave_slabs (f : Bool) (st : State) :
    (critical_leave f st).slabs = st.slabs := rfl
@[simp] theorem critical_leave_page_log (f : Bool) (st : State) :
    (critical_leave f st).page_log = st.page_log := rfl
@[simp] theorem critical_leave_irq (f : Bool) (st : State) :
    (critical_leave f st).irq_enabled = f := rfl
theorem critical_leave_lock (f : Bool) (st : State) (h : st.malloc_lock = 1) :
    (critical_leave f st).malloc_lock = 0 := by
  show int32_wrap (st.malloc_lock - 1) = 0
  rw [h]; decide

/-- Leaving right after entering gives back the state, when the lock was free. -/
theorem critical_leave_enter (st : State) (h : st.malloc_lock = 0) :
    critical_leave st.irq_enabled (critical_enter st) = st := by
  cases st with
  | mk mem lock slabs irq log =>
    simp only at h
    subst h
    simp [critical_leave, critical_enter, load_eflags, atomic_fetch_sub_lock,
      atomic_fetch_add_lock, local_irq_save]
    decide

/-- The body of `malloc` between taking and releasing the lock. -/
theorem malloc_eq (env : Env) (st : State) (size : Nat) (hn : env.int_nest_count = 0)
    (hl : st.malloc_lock = 0) (hs : size ≤ UINT32_MAX - sizeof_malloc_region) :
    malloc env st size =
      match (if size > MAX_SLAB_SIZE then
          Outcome.ok (malloc_pages env (critical_enter st) size).1
            (malloc_pages env (critical_enter st) size).2
        else malloc_slab env (critical_enter st) size) with
      | Outcome.undefined => Outcome.undefined
      | Outcome.fatal e s => Outcome.fatal e s
      | Outcome.ok retval s =>
        if s.malloc_lock ≠ 1 then Outcome.fatal Fatal.lock_not_one (atomic_fetch_sub_lock s).2
        else Outcome.ok retval (critical_leave st.irq_enabled s) := by
  unfold malloc
  rw [if_neg (by decide), if_neg (by omega), if_neg (by omega)]
  have : (atomic_fetch_add_lock (local_irq_save st).2).1 = 0 := hl
  simp only [this]
  rfl

theorem malloc_in_interrupt (env : Env) (st : State) (size : Nat) (hn : 0 < env.int_nest_count) :
    malloc env st size = Outcome.fatal Fatal.in_interrupt st := by
  unfold malloc
  rw [if_neg (by decide), if_pos (by omega)]

theorem free_eq (env : Env) (st : State) (ptr : Nat) (hp : ptr ≠ 0)
    (hn : env.int_nest_count = 0) (hl : st.malloc_lock = 0) :
    free env st ptr =
      match (if region_is_slab st.mem (page_of ptr) = false then
          Outcome.ok () (free_pages (critical_enter st) (page_of ptr)
            ((read32 st.mem (page_of ptr + OFF_SLAB_SIZE) + sizeof_malloc_region) / PAGE_SIZE))
        else free_slab (critical_enter st) ptr (page_of ptr)) with
      | Outcome.undefined => Outcome.undefined
      | Outcome.fatal e s => Outcome.fatal e s
      | Outcome.ok _ s =>
        if s.malloc_lock ≠ 1 then Outcome.fatal Fatal.lock_not_one (atomic_fetch_sub_lock s).2
        else Outcome.ok () (critical_leave st.irq_enabled s) := by
  unfold free
  rw [if_neg hp, if_neg (by omega)]
  have : (atomic_fetch_add_lock (local_irq_save st).2).1 = 0 := hl
  simp only [this]
  rfl

theorem malloc_usable_size_eq (env : Env) (st : State) (ptr : Nat) (hp : ptr ≠ 0)
    (hn : env.int_nest_count = 0) (hl : st.malloc_lock = 0) :
    malloc_usable_size env st ptr =
      if region_is_slab st.mem (page_of ptr) = true then
        match validate_is_slab st.mem (page_of ptr) with
        | some e => Outcome.fatal e (critical_enter st)
        | none => Outcome.ok (read32 st.mem (page_of ptr + OFF_SLAB_SIZE)) st
      else Outcome.ok (read32 st.mem (page_of ptr + OFF_SLAB_SIZE)) st := by
  have hl1 := critical_enter_lock st hl
  have hle := critical_leave_enter st hl
  unfold malloc_usable_size
  rw [if_neg (by omega), if_neg hp]
  have : (atomic_fetch_add_lock (local_irq_save st).2).1 = 0 := hl
  simp only [this]
  change (match (if region_is_slab (critical_enter st).mem (page_of ptr) = true then
          match validate_is_slab (critical_enter st).mem (page_of ptr) with
          | some e => Outcome.fatal e (critical_enter st)
          | none => Outcome.ok (read32 (critical_enter st).mem (page_of ptr + OFF_SLAB_SIZE))
              (critical_enter st)
        else Outcome.ok (read32 (critical_enter st).mem (page_of ptr + OFF_SLAB_SIZE))
          (critical_enter st) : Outcome Nat) with
      | Outcome.undefined => Outcome.undefined
      | Outcome.fatal e s => Outcome.fatal e s
      | Outcome.ok retval s =>
        if (atomic_fetch_sub_lock s).1 ≠ 1 then
          Outcome.fatal Fatal.lock_not_one (atomic_fetch_sub_lock s).2
        else Outcome.ok retval (critical_leave st.irq_enabled s)) = _
  simp only [critical_enter_mem]
  have h1 : (atomic_fetch_sub_lock (critical_enter st)).1 = 1 := hl1
  split_ifs with h
  · cases hv : validate_is_slab st.mem (page_of ptr) with
    | none => simp only [h1, hle]; simp
    | some e => simp
  · simp only [h1, hle]; simp

/-! ## Page-backed allocation -/

/-- The number of pages requested for a page-backed allocation of `size` bytes. -/
theorem malloc_pages_fst (env : Env) (st : State) (size : Nat) :
    (malloc_pages env st size).1 =
      env.alloc_pages st.page_log
        (((sizeof_malloc_region + size + PAGE_MASK) % 2 ^ 64) / PAGE_SIZE) +
        sizeof_malloc_region := rfl

/-- Page-backed allocation: the request, the returned pointer and the state. -/
theorem malloc_large_spec (env : Env) (st : State) (s : Nat)
    (hn : env.int_nest_count = 0) (hl : st.malloc_lock = 0)
    (h1 : 4032 < s) (h2 : s ≤ UINT32_MAX - 16) :
    ∃ st', malloc env st s =
        Outcome.ok (env.alloc_pages st.page_log ((16 + s + 4095) / 4096) + 16) st' ∧
      st'.page_log = PageEvent.alloc ((16 + s + 4095) / 4096)
        (env.alloc_pages st.page_log ((16 + s + 4095) / 4096)) :: st.page_log ∧
      st'.mem = write32 st.mem (env.alloc_pages st.page_log ((16 + s + 4095) / 4096))
        ((16 + s + 4095) / 4096 * 4096 - 16) ∧
      st'.slabs = st.slabs ∧ st'.malloc_lock = 0 ∧ st'.irq_enabled = st.irq_enabled := by
  have hs : s ≤ UINT32_MAX - sizeof_malloc_region := h2
  have hU : UINT32_MAX = 4294967295 := rfl
  rw [malloc_eq env st s hn hl hs, if_pos (show s > MAX_SLAB_SIZE from h1)]
  have hl1 := critical_enter_lock st hl
  have hpages : ((sizeof_malloc_region + s + PAGE_MASK) % 2 ^ 64) / PAGE_SIZE
      = (16 + s + 4095) / 4096 := by
    simp only [sizeof_malloc_region, PAGE_MASK, PAGE_SIZE]
    rw [Nat.mod_eq_of_lt (by omega)]
  have hsize : (((16 + s + 4095) / 4096 * PAGE_SIZE) % 2 ^ 64 + 2 ^ 64 - sizeof_malloc_region)
      % 2 ^ 64 = (16 + s + 4095) / 4096 * 4096 - 16 := by
    simp only [sizeof_malloc_region, PAGE_SIZE]
    omega
  have hst : (malloc_pages env (critical_enter st) s).2.malloc_lock = 1 := hl1
  simp only [hst, ne_eq, not_true_eq_false, if_false]
  refine ⟨critical_leave st.irq_enabled (malloc_pages env (critical_enter st) s).2,
    ?_, ?_, ?_, rfl, ?_, rfl⟩
  · rw [malloc_pages_fst, hpages]; rfl
  · show PageEvent.alloc _ _ :: _ = _
    rw [hpages]; rfl
  · show write32 _ _ _ = _
    simp only [alloc_pages, critical_enter_page_log, critical_enter_mem, OFF_SLAB_SIZE,
      Nat.add_zero, hpages, hsize]
  · exact critical_leave_lock _ _ hst

/-! ## Slab headers -/

theorem compute_checksum_eq (m : Mem) (a : Nat) :
    compute_checksum m a =
      ((((((0 ^^^ read64 m (a + 0)) ^^^ read64 m (a + 8)) ^^^ read64 m (a + 16)) ^^^
        read64 m (a + 24)) ^^^ read64 m (a + 32)) ^^^ read64 m (a + 40)) ^^^
        read64 m (a + 48) := by
  simp [compute_checksum, List.range, List.range.loop]

theorem read8_congr {m m' : Mem} {a : Nat} (h : m'.byte a = m.byte a) :
    read8 m' a = read8 m a := by
  unfold read8; rw [h]

theorem strcmp_MALLOC_eq_congr {m m' : Mem} {s : Nat}
    (h : ∀ x, s ≤ x → x < s + 7 → m'.byte x = m.byte x) :
    strcmp_MALLOC_eq m' s = strcmp_MALLOC_eq m s := by
  unfold strcmp_MALLOC_eq
  rw [read8_congr (h s (by omega) (by omega)), read8_congr (h (s + 1) (by omega) (by omega)),
    read8_congr (h (s + 2) (by omega) (by omega)), read8_congr (h (s + 3) (by omega) (by omega)),
    read8_congr (h (s + 4) (by omega) (by omega)), read8_congr (h (s + 5) (by omega) (by omega)),
    read8_congr (h (s + 6) (by omega) (by omega))]

theorem compute_checksum_congr {m m' : Mem} {a : Nat}
    (h : ∀ x, a ≤ x → x < a + 56 → m'.byte x = m.byte x) :
    compute_checksum m' a = compute_checksum m a := by
  rw [compute_checksum_eq, compute_checksum_eq,
    @read64_congr m m' (a + 0) (fun x h1 h2 => h x (by omega) (by omega)),
    @read64_congr m m' (a + 8) (fun x h1 h2 => h x (by omega) (by omega)),
    @read64_congr m m' (a + 16) (fun x h1 h2 => h x (by omega) (by omega)),
    @read64_congr m m' (a + 24) (fun x h1 h2 => h x (by omega) (by omega)),
    @read64_congr m m' (a + 32) (fun x h1 h2 => h x (by omega) (by omega)),
    @read64_congr m m' (a + 40) (fun x h1 h2 => h x (by omega) (by omega)),
    @read64_congr m m' (a + 48) (fun x h1 h2 => h x (by omega) (by omega))]

theorem HeaderOK_congr {m m' : Mem} {a : Nat}
    (h : ∀ x, a ≤ x → x < a + 64 → m'.byte x = m.byte x) (hok : HeaderOK m a) :
    HeaderOK m' a := by
  unfold HeaderOK at *
  simp only [OFF_SIGNATURE, OFF_CHECKSUM] at *
  rw [@strcmp_MALLOC_eq_congr m m' (a + 48) (fun x h1 h2 => h x (by omega) (by omega)),
    @compute_checksum_congr m m' a (fun x h1 h2 => h x (by omega) (by omega)),
    @read64_congr m m' (a + 56) (fun x h1 h2 => h x (by omega) (by omega))]
  exact hok

theorem SlabOK_congr {m m' : Mem} {a i : Nat}
    (h : ∀ x, a ≤ x → x < a + 64 → m'.byte x = m.byte x) (hok : SlabOK m a i) :
    SlabOK m' a i := by
  obtain ⟨h1, h2, h3, h4, h5, h6⟩ := hok
  refine ⟨h1, h2, h3, ?_, HeaderOK_congr h h5, ?_⟩
  · rw [← h4]
    exact read32_congr (fun x hx1 hx2 => h x (by simp only [OFF_SLAB_SIZE] at hx1; omega)
      (by simp only [OFF_SLAB_SIZE] at hx2; omega))
  · rw [@read64_congr m m' (a + OFF_BM0) (fun x hx1 hx2 => h x
      (by simp only [OFF_BM0] at hx1; omega) (by simp only [OFF_BM0] at hx2; omega))]
    exact h6

theorem validate_is_slab_eq_none {m : Mem} {a : Nat} :
    validate_is_slab m a = none ↔ HeaderOK m a := by
  unfold validate_is_slab HeaderOK
  by_cases h1 : strcmp_MALLOC_eq m (a + OFF_SIGNATURE) = true
  · by_cases h2 : compute_checksum m a = read64 m (a + OFF_CHECKSUM)
    · simp [h1, h2]
    · simp [h1, h2]
  · simp [h1]

theorem update_checksum_byte_out (m : Mem) (a x : Nat) (h : x < a + 56 ∨ a + 64 ≤ x) :
    (update_checksum m a).byte x = m.byte x := by
  unfold update_checksum
  exact write64_byte_out _ _ _ _ (by simp only [OFF_CHECKSUM]; omega)

theorem HeaderOK_update_checksum (m : Mem) (a : Nat)
    (h : strcmp_MALLOC_eq m (a + OFF_SIGNATURE) = true) : HeaderOK (update_checksum m a) a := by
  constructor
  · rw [@strcmp_MALLOC_eq_congr m (update_checksum m a) (a + OFF_SIGNATURE)
      (fun x h1 h2 => update_checksum_byte_out m a x
        (by simp only [OFF_SIGNATURE] at h2; omega))]
    exact h
  · rw [@compute_checksum_congr m (update_checksum m a) a
      (fun x h1 h2 => update_checksum_byte_out m a x (by omega))]
    unfold update_checksum
    rw [read64_write64_same, Nat.mod_eq_of_lt]
    rw [compute_checksum_eq]
    have := read64_lt m (a + 0)
    have := read64_lt m (a + 8)
    have := read64_lt m (a + 16)
    have := read64_lt m (a + 24)
    have := read64_lt m (a + 32)
    have := read64_lt m (a + 40)
    have := read64_lt m (a + 48)
    have e : (18446744073709551616 : Nat) = 2 ^ 64 := by norm_num
    rw [e] at *
    repeat (first | apply Nat.xor_lt_two_pow | assumption | exact Nat.pos_pow_of_pos _ (by norm_num))

/-! ## Bitmaps -/

theorem ffsl_from_zero_iff (x : Nat) : ∀ fuel i,
    ffsl_from x fuel i = 0 ↔ ∀ j, i ≤ j → j < i + fuel → x.testBit j = false := by
  intro fuel
  induction fuel with
  | zero =>
    intro i
    simp only [ffsl_from, true_iff]
    intro j h1 h2
    omega
  | succ f ih =>
    intro i
    unfold ffsl_from
    by_cases hb : x.testBit i = true
    · rw [if_pos hb]
      constructor
      · intro h; omega
      · intro h
        have := h i (le_refl _) (by omega)
        rw [hb] at this
        exact absurd this (by decide)
    · rw [if_neg hb, ih (i + 1)]
      constructor
      · intro h j h1 h2
        by_cases e : j = i
        · subst e; simpa using hb
        · exact h j (by omega) (by omega)
      · intro h j h1 h2
        exact h j (by omega) (by omega)

theorem ffsl_from_succ (x : Nat) : ∀ fuel i k,
    ffsl_from x fuel i = k + 1 →
      i ≤ k ∧ k < i + fuel ∧ x.testBit k = true ∧ ∀ j, i ≤ j → j < k → x.testBit j = false := by
  intro fuel
  induction fuel with
  | zero =>
    intro i k h
    simp [ffsl_from] at h
  | succ f ih =>
    intro i k h
    unfold ffsl_from at h
    by_cases hb : x.testBit i = true
    · rw [if_pos hb] at h
      have e : k = i := by omega
      subst e
      exact ⟨le_refl _, by omega, hb, fun j h1 h2 => by omega⟩
    · rw [if_neg hb] at h
      obtain ⟨h1, h2, h3, h4⟩ := ih (i + 1) k h
      refine ⟨by omega, by omega, h3, ?_⟩
      intro j hj1 hj2
      by_cases e : j = i
      · subst e; simpa using hb
      · exact h4 j (by omega) hj2

theorem builtin_ffsl_zero_iff (x : Nat) :
    builtin_ffsl x = 0 ↔ ∀ j, j < 64 → x.testBit j = false := by
  unfold builtin_ffsl
  rw [ffsl_from_zero_iff]
  constructor
  · intro h j hj; exact h j (Nat.zero_le _) (by omega)
  · intro h j _ hj; exact h j (by omega)

theorem builtin_ffsl_succ (x k : Nat) (h : builtin_ffsl x = k + 1) :
    k < 64 ∧ x.testBit k = true ∧ ∀ j, j < k → x.testBit j = false := by
  obtain ⟨_, h2, h3, h4⟩ := ffsl_from_succ x 64 0 k h
  exact ⟨by omega, h3, fun j hj => h4 j (Nat.zero_le _) hj⟩

theorem class_count_le (i : Nat) (hi : i < 7) : 0 < class_count i ∧ class_count i ≤ 64 := by
  interval_cases i <;> decide

theorem class_size_pos (i : Nat) (hi : i < 7) : 0 < class_size i ∧ class_size i ≤ 4032 := by
  interval_cases i <;> decide

theorem class_fits_page (i : Nat) (hi : i < 7) :
    class_size i * class_count i + 64 ≤ 4096 := by
  interval_cases i <;> decide

theorem class_size_mod16 (i : Nat) (hi : i < 7) : class_size i % 16 = 0 := by
  interval_cases i <;> decide

theorem bitmap_mask_eq (i : Nat) (hi : i < 7) : bitmap_mask i = 2 ^ class_count i - 1 := by
  interval_cases i <;> decide

theorem testBit_of_lt_two_pow {x n j : Nat} (hx : x < 2 ^ n) (hj : n ≤ j) :
    x.testBit j = false := by
  apply Nat.testBit_lt_two_pow
  calc x < 2 ^ n := hx
    _ ≤ 2 ^ j := Nat.pow_le_pow_right (by norm_num) hj

/-- Bits of `free_bits` in `malloc`: bit `j` is set exactly for the unallocated
slots below the slot count. -/
theorem free_bits_testBit (i bm j : Nat) (hi : i < 7) (hbm : bm < 2 ^ class_count i) :
    (bm ^^^ bitmap_mask i).testBit j = (decide (j < class_count i) && !bm.testBit j) := by
  rw [bitmap_mask_eq i hi, Nat.testBit_xor, Nat.testBit_two_pow_sub_one]
  by_cases hj : j < class_count i
  · simp [hj]
  · rw [testBit_of_lt_two_pow hbm (by omega)]
    simp [hj]

theorem one_shiftLeft_mod (k : Nat) (hk : k < 64) : (1 <<< k) % 2 ^ 64 = 2 ^ k := by
  rw [Nat.one_shiftLeft]
  exact Nat.mod_eq_of_lt (Nat.pow_lt_pow_right (by norm_num) hk)

theorem or_bit_lt (bm k n : Nat) (hbm : bm < 2 ^ n) (hk : k < n) : bm ||| 2 ^ k < 2 ^ n :=
  Nat.or_lt_two_pow hbm (Nat.pow_lt_pow_right (by norm_num) hk)

theorem testBit_or_bit (bm k j : Nat) :
    (bm ||| 2 ^ k).testBit j = (bm.testBit j || decide (k = j)) := by
  rw [Nat.testBit_or, Nat.testBit_two_pow]

theorem not64_testBit (x j : Nat) :
    (not64 x).testBit j = (Bool.xor (x.testBit j) (decide (j < 64))) := by
  unfold not64
  have e : (0xffffffffffffffff : Nat) = 2 ^ 64 - 1 := by norm_num
  rw [e, Nat.testBit_xor, Nat.testBit_two_pow_sub_one]

theorem testBit_and_not_bit (bm k j : Nat) (hbm : bm < 2 ^ 64) :
    (bm &&& not64 (2 ^ k)).testBit j = (bm.testBit j && !decide (k = j)) := by
  rw [Nat.testBit_and, not64_testBit, Nat.testBit_two_pow]
  by_cases hj : j < 64
  · by_cases e : k = j <;> simp [hj, e]
  · rw [testBit_of_lt_two_pow hbm (by omega)]
    simp

theorem and_bit_ne_zero_iff (bm k : Nat) : bm &&& 2 ^ k ≠ 0 ↔ bm.testBit k = true := by
  constructor
  · intro h
    by_contra hb
    apply h
    apply Nat.eq_of_testBit_eq
    intro j
    rw [Nat.testBit_and, Nat.testBit_two_pow, Nat.zero_testBit]
    by_cases e : k = j
    · subst e; simp at hb; simp [hb]
    · simp [e]
  · intro hb h
    have := congrArg (fun x => Nat.testBit x k) h
    simp only [Nat.testBit_and, Nat.testBit_two_pow, Nat.zero_testBit, hb] at this
    simp at this

theorem and_not_bit_lt (bm k n : Nat) (hbm : bm < 2 ^ n) : bm &&& not64 (2 ^ k) < 2 ^ n :=
  lt_of_le_of_lt Nat.and_le_left hbm

/-- Setting a clear bit and clearing it again gives back the bitmap. -/
theorem or_bit_and_not_bit (bm k : Nat) (hbm : bm < 2 ^ 64) (hk : k < 64)
    (hb : bm.testBit k = false) : (bm ||| 2 ^ k) &&& not64 (2 ^ k) = bm := by
  apply Nat.eq_of_testBit_eq
  intro j
  rw [testBit_and_not_bit _ _ _ (or_bit_lt bm k 64 hbm hk), testBit_or_bit]
  by_cases e : k = j
  · subst e; simp [hb]
  · simp [e]

/-! ## Reads after writes, and taking a slot -/

theorem read32_write32_ne (m : Mem) (a v b : Nat) (h : b + 4 ≤ a ∨ a + 4 ≤ b) :
    read32 (write32 m a v) b = read32 m b :=
  read32_congr (fun x h1 h2 => write32_byte_out m a v x (by omega))

theorem read32_write64_ne (m : Mem) (a v b : Nat) (h : b + 4 ≤ a ∨ a + 8 ≤ b) :
    read32 (write64 m a v) b = read32 m b :=
  read32_congr (fun x h1 h2 => write64_byte_out m a v x (by omega))

theorem read32_memset_ne (m : Mem) (p c n b : Nat) (h : b + 4 ≤ p ∨ p + n ≤ b) :
    read32 (memset m p c n) b = read32 m b :=
  read32_congr (fun x h1 h2 => memset_byte_out m p c n x (by omega))

theorem read32_strcpy_ne (m : Mem) (d b : Nat) (h : b + 4 ≤ d ∨ d + 7 ≤ b) :
    read32 (strcpy_MALLOC m d) b = read32 m b :=
  read32_congr (fun x h1 h2 => strcpy_MALLOC_byte_out m d x (by omega))

theorem read32_update_checksum_ne (m : Mem) (a b : Nat) (h : b + 4 ≤ a + 56 ∨ a + 64 ≤ b) :
    read32 (update_checksum m a) b = read32 m b :=
  read32_congr (fun x h1 h2 => update_checksum_byte_out m a x (by omega))

theorem read64_write32_ne (m : Mem) (a v b : Nat) (h : b + 8 ≤ a ∨ a + 4 ≤ b) :
    read64 (write32 m a v) b = read64 m b :=
  read64_congr (fun x h1 h2 => write32_byte_out m a v x (by omega))

theorem read64_write64_ne (m : Mem) (a v b : Nat) (h : b + 8 ≤ a ∨ a + 8 ≤ b) :
    read64 (write64 m a v) b = read64 m b :=
  read64_congr (fun x h1 h2 => write64_byte_out m a v x (by omega))

theorem read64_memset_ne (m : Mem) (p c n b : Nat) (h : b + 8 ≤ p ∨ p + n ≤ b) :
    read64 (memset m p c n) b = read64 m b :=
  read64_congr (fun x h1 h2 => memset_byte_out m p c n x (by omega))

theorem read64_strcpy_ne (m : Mem) (d b : Nat) (h : b + 8 ≤ d ∨ d + 7 ≤ b) :
    read64 (strcpy_MALLOC m d) b = read64 m b :=
  read64_congr (fun x h1 h2 => strcpy_MALLOC_byte_out m d x (by omega))

theorem read64_update_checksum_ne (m : Mem) (a b : Nat) (h : b + 8 ≤ a + 56 ∨ a + 64 ≤ b) :
    read64 (update_checksum m a) b = read64 m b :=
  read64_congr (fun x h1 h2 => update_checksum_byte_out m a x (by omega))

theorem strcmp_write32_ne (m : Mem) (a v s : Nat) (h : s + 7 ≤ a ∨ a + 4 ≤ s) :
    strcmp_MALLOC_eq (write32 m a v) s = strcmp_MALLOC_eq m s :=
  strcmp_MALLOC_eq_congr (fun x h1 h2 => write32_byte_out m a v x (by omega))

theorem strcmp_write64_ne (m : Mem) (a v s : Nat) (h : s + 7 ≤ a ∨ a + 8 ≤ s) :
    strcmp_MALLOC_eq (write64 m a v) s = strcmp_MALLOC_eq m s :=
  strcmp_MALLOC_eq_congr (fun x h1 h2 => write64_byte_out m a v x (by omega))

theorem strcmp_memset_ne (m : Mem) (p c n s : Nat) (h : s + 7 ≤ p ∨ p + n ≤ s) :
    strcmp_MALLOC_eq (memset m p c n) s = strcmp_MALLOC_eq m s :=
  strcmp_MALLOC_eq_congr (fun x h1 h2 => memset_byte_out m p c n x (by omega))

theorem strcmp_strcpy_same (m : Mem) (d : Nat) :
    strcmp_MALLOC_eq (strcpy_MALLOC m d) d = true := by
  have b : ∀ j, j < 7 → read8 (strcpy_MALLOC m d) (d + j) = MALLOC_SIG.getD j 0 := by
    intro j hj
    unfold read8
    rw [strcpy_MALLOC_byte, if_pos (by omega), Nat.add_sub_cancel_left]
    interval_cases j <;> rfl
  have b0 := b 0 (by omega)
  simp only [Nat.add_zero] at b0
  unfold strcmp_MALLOC_eq
  rw [b0, b 1 (by omega), b 2 (by omega), b 3 (by omega), b 4 (by omega), b 5 (by omega),
    b 6 (by omega)]
  decide

/-- What `malloc_take` does to a well-formed slab with slot `k` free. -/
theorem malloc_take_spec (st : State) (i a k : Nat) (hok : SlabOK st.mem a i)
    (hk : k < class_count i) :
    (malloc_take st i a (k + 1)).1 = a + 64 + k * class_size i ∧
    (malloc_take st i a (k + 1)).2.slabs = st.slabs ∧
    (malloc_take st i a (k + 1)).2.page_log = st.page_log ∧
    (malloc_take st i a (k + 1)).2.malloc_lock = st.malloc_lock ∧
    (malloc_take st i a (k + 1)).2.irq_enabled = st.irq_enabled ∧
    (∀ x, x < a + 16 ∨ (a + 24 ≤ x ∧ x < a + 32) ∨ (a + 40 ≤ x ∧ x < a + 56) ∨ a + 64 ≤ x →
      (malloc_take st i a (k + 1)).2.mem.byte x = st.mem.byte x) ∧
    read64 (malloc_take st i a (k + 1)).2.mem (a + 32) = read64 st.mem (a + 32) ||| 2 ^ k ∧
    read64 (malloc_take st i a (k + 1)).2.mem (a + 16) =
      (read64 st.mem (a + 16) + 1) % 2 ^ 64 ∧
    SlabOK (malloc_take st i a (k + 1)).2.mem a i := by
  obtain ⟨h1, h2, h3, h4, h5, h6⟩ := hok
  have hi : i < 7 := h3
  have hc := class_count_le i hi
  have hs := class_size_pos i hi
  have hk64 : k < 64 := by omega
  have hbm64 : read64 st.mem (a + 32) ||| 2 ^ k < 2 ^ 64 :=
    or_bit_lt _ _ _ (by have := read64_lt st.mem (a + 32); norm_num; omega) hk64
  have hframe : ∀ x,
      x < a + 16 ∨ (a + 24 ≤ x ∧ x < a + 32) ∨ (a + 40 ≤ x ∧ x < a + 56) ∨ a + 64 ≤ x →
      (malloc_take st i a (k + 1)).2.mem.byte x = st.mem.byte x := by
    intro x hx
    simp only [malloc_take, OFF_BM0, OFF_MALLOC_CNT]
    rw [update_checksum_byte_out _ _ _ (by omega), write64_byte_out _ _ _ _ (by omega),
      write64_byte_out _ _ _ _ (by omega)]
  have hbm : read64 (malloc_take st i a (k + 1)).2.mem (a + 32) =
      read64 st.mem (a + 32) ||| 2 ^ k := by
    simp only [malloc_take, OFF_BM0, OFF_MALLOC_CNT, Nat.add_sub_cancel]
    rw [read64_update_checksum_ne _ _ _ (by omega), read64_write64_ne _ _ _ _ (by omega),
      read64_write64_same, one_shiftLeft_mod k hk64]
    exact Nat.mod_eq_of_lt (by norm_num at hbm64 ⊢; exact hbm64)
  refine ⟨?_, rfl, rfl, rfl, rfl, hframe, hbm, ?_, h1, h2, h3, ?_, ?_, ?_⟩
  · simp only [malloc_take, OFF_DATA, Nat.add_sub_cancel]
    have : k * (slab_info_at i).slab_size < 2 ^ 32 := by
      have : k * class_size i ≤ 63 * 4032 := Nat.mul_le_mul (by omega) hs.2
      unfold class_size at this
      omega
    rw [Nat.mod_eq_of_lt this]
    rfl
  · simp only [malloc_take, OFF_BM0, OFF_MALLOC_CNT, Nat.add_sub_cancel]
    rw [read64_update_checksum_ne _ _ _ (by omega), read64_write64_same,
      read64_write64_ne _ _ _ _ (by omega)]
    norm_num
  · rw [← h4]
    exact read32_congr (fun x hx1 hx2 => hframe x (by simp only [OFF_SLAB_SIZE] at hx2; omega))
  · simp only [malloc_take]
    apply HeaderOK_update_checksum
    simp only [OFF_BM0, OFF_MALLOC_CNT, OFF_SIGNATURE]
    rw [strcmp_write64_ne _ _ _ _ (by omega), strcmp_write64_ne _ _ _ _ (by omega)]
    exact h5.1
  · show read64 (malloc_take st i a (k + 1)).2.mem (a + 32) < 2 ^ class_count i
    rw [hbm]
    exact or_bit_lt _ _ _ h6 hk

/-! ## Creating a slab, freeing a slot -/

/-- What `add_new_slab` does, given a page-aligned page inside the address space. -/
theorem add_new_slab_spec (env : Env) (st : State) (i : Nat) (hi : i < 7)
    (hal : env.alloc_pages st.page_log 1 % PAGE_SIZE = 0)
    (hin : env.alloc_pages st.page_log 1 + PAGE_SIZE ≤ 2 ^ 64) :
    (add_new_slab env st i).1 = env.alloc_pages st.page_log 1 ∧
    (add_new_slab env st i).2.slabs =
      Function.update st.slabs i (env.alloc_pages st.page_log 1) ∧
    (add_new_slab env st i).2.page_log =
      PageEvent.alloc 1 (env.alloc_pages st.page_log 1) :: st.page_log ∧
    (add_new_slab env st i).2.malloc_lock = st.malloc_lock ∧
    (add_new_slab env st i).2.irq_enabled = st.irq_enabled ∧
    (∀ x, x < env.alloc_pages st.page_log 1 ∨
        (env.alloc_pages st.page_log 1 + 16 ≤ x ∧ x < env.alloc_pages st.page_log 1 + 32) ∨
        env.alloc_pages st.page_log 1 + 64 ≤ x →
      (add_new_slab env st i).2.mem.byte x = st.mem.byte x) ∧
    read64 (add_new_slab env st i).2.mem (env.alloc_pages st.page_log 1 + 32) = 0 ∧
    read64 (add_new_slab env st i).2.mem (env.alloc_pages st.page_log 1 + 8) =
      st.slabs i % 2 ^ 64 ∧
    SlabOK (add_new_slab env st i).2.mem (env.alloc_pages st.page_log 1) i := by
  generalize hP : env.alloc_pages st.page_log 1 = P at *
  have hm : (add_new_slab env st i).2.mem =
      update_checksum (write64 (strcpy_MALLOC (write64 (write64 (write32 (write32 st.mem
        (P + 0) (slab_info_at i).slab_size) (P + 4) 0) (P + 32) 0) (P + 40) 0) (P + 48))
        (P + 8) (st.slabs i)) P := by
    simp only [add_new_slab, alloc_pages, hP, OFF_SLAB_SIZE, OFF_LOCK, OFF_BM0, OFF_BM1,
      OFF_SIGNATURE, OFF_NEXT]
  have hframe : ∀ x, x < P ∨ (P + 16 ≤ x ∧ x < P + 32) ∨ P + 64 ≤ x →
      (add_new_slab env st i).2.mem.byte x = st.mem.byte x := by
    intro x hx
    rw [hm, update_checksum_byte_out _ _ _ (by omega), write64_byte_out _ _ _ _ (by omega),
      strcpy_MALLOC_byte_out _ _ _ (by omega), write64_byte_out _ _ _ _ (by omega),
      write64_byte_out _ _ _ _ (by omega), write32_byte_out _ _ _ _ (by omega),
      write32_byte_out _ _ _ _ (by omega)]
  have hbm : read64 (add_new_slab env st i).2.mem (P + 32) = 0 := by
    rw [hm, read64_update_checksum_ne _ _ _ (by omega), read64_write64_ne _ _ _ _ (by omega),
      read64_strcpy_ne _ _ _ (by omega), read64_write64_ne _ _ _ _ (by omega),
      read64_write64_same]
  refine ⟨?_, ?_, ?_, rfl, rfl, hframe, hbm, ?_, hal, hin, hi, ?_, ?_, ?_⟩
  · simp only [add_new_slab, alloc_pages, hP]
  · simp only [add_new_slab, alloc_pages, hP]
  · simp only [add_new_slab, alloc_pages, hP]
  · rw [hm, read64_update_checksum_ne _ _ _ (by omega), read64_write64_same]
    norm_num
  · have hs := class_size_pos i hi
    simp only [OFF_SLAB_SIZE]
    rw [hm, read32_update_checksum_ne _ _ _ (by omega), read32_write64_ne _ _ _ _ (by omega),
      read32_strcpy_ne _ _ _ (by omega), read32_write64_ne _ _ _ _ (by omega),
      read32_write64_ne _ _ _ _ (by omega), read32_write32_ne _ _ _ _ (by omega),
      read32_write32_same]
    unfold class_size at *
    omega
  · rw [hm]
    apply HeaderOK_update_checksum
    simp only [OFF_SIGNATURE]
    rw [strcmp_write64_ne _ _ _ _ (by omega)]
    exact strcmp_strcpy_same _ _
  · simp only [OFF_BM0]
    rw [hbm]
    exact Nat.pos_pow_of_pos _ (by norm_num)

/-- What the slab branch of `free` does to an allocated slot of a well-formed slab. -/
theorem free_slab_spec (st : State) (i a k : Nat) (hok : SlabOK st.mem a i)
    (hk : k < class_count i) (hb : (read64 st.mem (a + 32)).testBit k = true) :
    ∃ m', free_slab st (a + 64 + k * class_size i) a = Outcome.ok () { st with mem := m' } ∧
    (∀ x, x < a + 24 ∨ (a + 40 ≤ x ∧ x < a + 56) ∨
        (a + 64 ≤ x ∧ x < a + 64 + k * class_size i) ∨
        a + 64 + (k + 1) * class_size i ≤ x → m'.byte x = st.mem.byte x) ∧
    read64 m' (a + 32) = read64 st.mem (a + 32) &&& not64 (2 ^ k) ∧
    read64 m' (a + 24) = (read64 st.mem (a + 24) + 1) % 2 ^ 64 ∧
    SlabOK m' a i := by
  obtain ⟨h1, h2, h3, h4, h5, h6⟩ := hok
  have hi : i < 7 := h3
  have hc := class_count_le i hi
  have hs := class_size_pos i hi
  have hk64 : k < 64 := by omega
  have hfit := class_fits_page i hi
  have hbm64 : read64 st.mem (a + 32) < 2 ^ 64 := by
    have := read64_lt st.mem (a + 32); norm_num; omega
  have hoff : a + 64 + k * class_size i - a = 64 + k * class_size i := by omega
  have hsz : read32 st.mem (a + 0) = class_size i := h4
  have hmul : (k + 1) * class_size i = k * class_size i + class_size i := by ring
  have hv : validate_is_slab st.mem a = none := validate_is_slab_eq_none.mpr h5
  have hidx : free_bit_idx (64 + k * class_size i) (class_size i) = k := by
    unfold free_bit_idx
    rw [Nat.add_sub_cancel_left]
    exact Nat.mul_div_cancel k hs.1
  have hmask : read64 st.mem (a + 32) &&& 2 ^ k ≠ 0 := (and_bit_ne_zero_iff _ _).mpr hb
  have hsz2 : read32 (write64 (write64 st.mem (a + 32)
      (read64 st.mem (a + 32) &&& not64 (2 ^ k))) (a + 24)
      ((read64 (write64 st.mem (a + 32) (read64 st.mem (a + 32) &&& not64 (2 ^ k)))
        (a + 24) + 1) % 2 ^ 64)) (a + 0) = class_size i := by
    rw [read32_write64_ne _ _ _ _ (by omega), read32_write64_ne _ _ _ _ (by omega), hsz]
  refine ⟨update_checksum (memset (write64 (write64 st.mem (a + 32)
      (read64 st.mem (a + 32) &&& not64 (2 ^ k))) (a + 24)
      ((read64 (write64 st.mem (a + 32) (read64 st.mem (a + 32) &&& not64 (2 ^ k)))
        (a + 24) + 1) % 2 ^ 64)) (a + 64 + k * class_size i) 0xAA (class_size i)) a,
    ?_, ?_, ?_, ?_, ⟨h1, h2, h3, ?_, ?_, ?_⟩⟩
  · unfold free_slab
    simp only [hv, hoff, OFF_SLAB_SIZE, OFF_BM0, OFF_FREE_CNT, hsz, hidx,
      one_shiftLeft_mod k hk64]
    rw [if_neg (by omega), if_neg (by omega), Nat.add_sub_cancel_left,
      Nat.mul_mod_left, if_neg (by simp), if_neg (by omega), if_pos hmask, hsz2]
  · intro x hx
    rw [update_checksum_byte_out _ _ _ (by omega),
      memset_byte_out _ _ _ _ _ (by omega), write64_byte_out _ _ _ _ (by omega),
      write64_byte_out _ _ _ _ (by omega)]
  · rw [read64_update_checksum_ne _ _ _ (by omega),
      read64_memset_ne _ _ _ _ _ (by omega), read64_write64_ne _ _ _ _ (by omega),
      read64_write64_same]
    exact Nat.mod_eq_of_lt (by
      have := and_not_bit_lt _ k 64 hbm64; norm_num at this ⊢; exact this)
  · rw [read64_update_checksum_ne _ _ _ (by omega),
      read64_memset_ne _ _ _ _ _ (by omega), read64_write64_same,
      read64_write64_ne _ _ _ _ (by omega)]
    norm_num
  · simp only [OFF_SLAB_SIZE]
    rw [read32_update_checksum_ne _ _ _ (by omega),
      read32_memset_ne _ _ _ _ _ (by omega), read32_write64_ne _ _ _ _ (by omega),
      read32_write64_ne _ _ _ _ (by omega), hsz]
  · apply HeaderOK_update_checksum
    simp only [OFF_SIGNATURE]
    rw [strcmp_memset_ne _ _ _ _ _ (by omega), strcmp_write64_ne _ _ _ _ (by omega),
      strcmp_write64_ne _ _ _ _ (by omega)]
    exact h5.1
  · simp only [OFF_BM0]
    rw [read64_update_checksum_ne _ _ _ (by omega),
      read64_memset_ne _ _ _ _ _ (by omega), read64_write64_ne _ _ _ _ (by omega),
      read64_write64_same]
    rw [Nat.mod_eq_of_lt (by
      have := and_not_bit_lt _ k 64 hbm64; norm_num at this ⊢; exact this)]
    exact and_not_bit_lt _ _ _ h6

/-! ## The slab branch of `malloc` -/

theorem map_size_to_idx_lt (s i : Nat) (h : map_size_to_idx s = some i) : i < 7 ∧ s ≤ 4032 := by
  unfold map_size_to_idx at h
  split_ifs at h <;> simp at h <;> omega

theorem map_size_to_idx_le (s i : Nat) (h : map_size_to_idx s = some i) : s ≤ class_size i := by
  unfold map_size_to_idx at h
  split_ifs at h <;> simp at h <;> subst h <;> simp [class_size, slab_info_at, slab_info] <;>
    omega

theorem map_size_to_idx_some (s : Nat) (h : s ≤ 4032) : ∃ i, map_size_to_idx s = some i := by
  unfold map_size_to_idx
  split_ifs <;> exact ⟨_, rfl⟩

theorem ffsl_new_slab (i : Nat) (hi : i < 7) : builtin_ffsl (0 ^^^ bitmap_mask i) = 1 := by
  interval_cases i <;> decide

/-- The lowest free slot found by `malloc` in a well-formed slab. -/
theorem ffsl_free_bits (i bm k : Nat) (hi : i < 7) (hbm : bm < 2 ^ class_count i)
    (hf : builtin_ffsl (bm ^^^ bitmap_mask i) = k + 1) :
    k < class_count i ∧ bm.testBit k = false ∧ ∀ j, j < k → bm.testBit j = true := by
  obtain ⟨h1, h2, h3⟩ := builtin_ffsl_succ _ _ hf
  rw [free_bits_testBit i bm k hi hbm] at h2
  simp only [Bool.and_eq_true, decide_eq_true_eq, Bool.not_eq_true'] at h2
  refine ⟨h2.1, h2.2, ?_⟩
  intro j hj
  have := h3 j hj
  rw [free_bits_testBit i bm j hi hbm] at this
  have hjc : j < class_count i := by omega
  simpa [hjc] using this

/-- A well-formed slab in which `malloc` finds no free bit is full. -/
theorem ffsl_free_bits_zero (i bm : Nat) (hi : i < 7) (hbm : bm < 2 ^ class_count i)
    (hf : builtin_ffsl (bm ^^^ bitmap_mask i) = 0) :
    ∀ j, j < class_count i → bm.testBit j = true := by
  intro j hj
  have hc := class_count_le i hi
  have := (builtin_ffsl_zero_iff _).mp hf j (by omega)
  rw [free_bits_testBit i bm j hi hbm] at this
  simpa [hj] using this

/-- The slab branch of `malloc` when the head slab has a free slot. -/
theorem malloc_slab_head (env : Env) (st : State) (s i k : Nat)
    (hmap : map_size_to_idx s = some i) (hok : SlabOK st.mem (st.slabs i) i)
    (hf : builtin_ffsl (read64 st.mem (st.slabs i + 32) ^^^ bitmap_mask i) = k + 1) :
    malloc_slab env st s =
      Outcome.ok (malloc_take st i (st.slabs i) (k + 1)).1
        (malloc_take st i (st.slabs i) (k + 1)).2 := by
  have hv : validate_is_slab st.mem (st.slabs i) = none := validate_is_slab_eq_none.mpr hok.2.2.2.2.1
  unfold malloc_slab
  simp only [hmap, hv, OFF_BM0, hf]
  rw [if_neg (by omega)]

/-- The slab branch of `malloc` when the head slab is full. -/
theorem malloc_slab_new (env : Env) (st : State) (s i : Nat)
    (hmap : map_size_to_idx s = some i) (hok : SlabOK st.mem (st.slabs i) i)
    (hf : builtin_ffsl (read64 st.mem (st.slabs i + 32) ^^^ bitmap_mask i) = 0)
    (hal : env.alloc_pages st.page_log 1 % PAGE_SIZE = 0)
    (hin : env.alloc_pages st.page_log 1 + PAGE_SIZE ≤ 2 ^ 64) :
    malloc_slab env st s =
      Outcome.ok (malloc_take (add_new_slab env st i).2 i (env.alloc_pages st.page_log 1) 1).1
        (malloc_take (add_new_slab env st i).2 i (env.alloc_pages st.page_log 1) 1).2 := by
  have hi := (map_size_to_idx_lt s i hmap).1
  have hv : validate_is_slab st.mem (st.slabs i) = none := validate_is_slab_eq_none.mpr hok.2.2.2.2.1
  obtain ⟨e1, _, _, _, _, _, e7, _, _⟩ := add_new_slab_spec env st i hi hal hin
  unfold malloc_slab
  simp only [hmap, hv, OFF_BM0, hf, if_true, e1, e7, ffsl_new_slab i hi]
  rw [if_neg (by omega)]

/-! ## Preservation of the pool -/

theorem class_size_inj (i j : Nat) (hi : i < 7) (hj : j < 7)
    (h : class_size i = class_size j) : i = j := by
  interval_cases i <;> interval_cases j <;> first | rfl | (exact absurd h (by decide))

theorem SlabOK_class_unique {m : Mem} {a i j : Nat} (h1 : SlabOK m a i) (h2 : SlabOK m a j) :
    i = j :=
  class_size_inj i j h1.2.2.1 h2.2.2.1 (h1.2.2.2.1.symm.trans h2.2.2.2.1)

theorem Linked_congr {m m' : Mem} : ∀ (l : List Nat),
    (∀ a, a ∈ l → read64 m' (a + OFF_NEXT) = read64 m (a + OFF_NEXT)) →
    Linked m l → Linked m' l
  | [], _, _ => trivial
  | [a], h, hl => by
    show read64 m' (a + OFF_NEXT) = 0
    rw [h a (List.mem_singleton.mpr rfl)]
    exact hl
  | a :: b :: rest, h, hl => by
    refine ⟨?_, Linked_congr (b :: rest) (fun x hx => h x (List.mem_cons_of_mem _ hx)) hl.2⟩
    rw [h a (List.mem_cons_self _ _)]
    exact hl.1

theorem Linked_cons {m : Mem} (a : Nat) (l : List Nat) (v : Nat)
    (hv : read64 m (a + OFF_NEXT) = v)
    (h0 : l = [] → v = 0) (h1 : ∀ b rest, l = b :: rest → v = b) (hl : Linked m l) :
    Linked m (a :: l) := by
  cases l with
  | nil => show read64 m (a + OFF_NEXT) = 0; rw [hv]; exact h0 rfl
  | cons b rest => exact ⟨by rw [hv]; exact h1 b rest rfl, hl⟩

/-- A block that is still held and holds a region size is not a slab page. -/
theorem region_ne_slab {m : Mem} {a i b n : Nat} (hs : SlabOK m a i) (hn : 0 < n)
    (hr : read32 m (b + OFF_SLAB_SIZE) = n * PAGE_SIZE - sizeof_malloc_region) : b ≠ a := by
  intro e
  subst e
  have h4 := hs.2.2.2.1
  have hc := class_size_pos i hs.2.2.1
  rw [h4] at hr
  simp only [PAGE_SIZE, sizeof_malloc_region] at hr
  omega

/-- The pool survives a change confined to one of its pages that keeps the page
a well-formed slab with the same `next`. -/
theorem Pool_update_page {m m' : Mem} {slabs : Nat → Nat} {log : List PageEvent}
    {chains : Nat → List Nat} (hP : Pool m slabs log chains) (a0 i0 : Nat)
    (hok0 : SlabOK m a0 i0)
    (hframe : ∀ x, x < a0 ∨ a0 + 4096 ≤ x → m'.byte x = m.byte x)
    (hok : SlabOK m' a0 i0)
    (hnext : read64 m' (a0 + OFF_NEXT) = read64 m (a0 + OFF_NEXT)) :
    Pool m' slabs log chains := by
  have hother : ∀ i, i < 7 → ∀ a, a ∈ chains i → a ≠ a0 →
      ∀ x, a ≤ x → x < a + 64 → m'.byte x = m.byte x := by
    intro i hi a ha hne x hx1 hx2
    have h1 := (hP.slab i hi a ha).1.1
    have h2 := hok0.1
    simp only [PAGE_SIZE] at h1 h2
    exact hframe x (by omega)
  refine ⟨hP.head, hP.null, ?_, ?_, hP.blocks, hP.disjoint⟩
  · intro i hi a ha
    refine ⟨?_, (hP.slab i hi a ha).2⟩
    by_cases e : a = a0
    · subst e
      have := SlabOK_class_unique (hP.slab i hi a ha).1 hok0
      subst this
      exact hok
    · exact SlabOK_congr (hother i hi a ha e) (hP.slab i hi a ha).1
  · intro i hi
    apply Linked_congr (chains i) _ (hP.link i hi)
    intro a ha
    by_cases e : a = a0
    · subst e; exact hnext
    · exact read64_congr (fun x hx1 hx2 => hother i hi a ha e x
        (by simp only [OFF_NEXT] at hx1; omega) (by simp only [OFF_NEXT] at hx2; omega))

/-- A live region survives a change confined to a slab page. -/
theorem LiveRegion_update_page {m m' : Mem} {slabs : Nat → Nat} {log : List PageEvent}
    {chains : Nat → List Nat} (hP : Pool m slabs log chains) (a0 i0 : Nat)
    (hok0 : SlabOK m a0 i0)
    (hframe : ∀ x, x < a0 ∨ a0 + 4096 ≤ x → m'.byte x = m.byte x)
    (p : Nat) (hr : LiveRegion m log p) : LiveRegion m' log p := by
  obtain ⟨b, n, hp, hmem, hn, hrd⟩ := hr
  have hb := hP.blocks _ hmem
  have hne : b ≠ a0 := region_ne_slab hok0 hb.2.2.2 hrd
  refine ⟨b, n, hp, hmem, hn, ?_⟩
  rw [← hrd]
  have h1 := hb.2.1
  have h2 := hok0.1
  simp only [PAGE_SIZE] at h1 h2
  exact read32_congr (fun x hx1 hx2 => hframe x (by
    simp only [OFF_SLAB_SIZE] at hx1 hx2; omega))

/-- A live slot survives a change confined to a slab page, provided its own bit
stays set when it lies in that page. -/
theorem LiveSlot_update_page {m m' : Mem} {slabs : Nat → Nat} {log : List PageEvent}
    {chains : Nat → List Nat} (hP : Pool m slabs log chains) (a0 i0 : Nat)
    (hok0 : SlabOK m a0 i0)
    (hframe : ∀ x, x < a0 ∨ a0 + 4096 ≤ x → m'.byte x = m.byte x)
    (p : Nat)
    (hbit : ∀ k, k < class_count i0 → p = a0 + OFF_DATA + k * class_size i0 →
      (read64 m (a0 + OFF_BM0)).testBit k = true →
      (read64 m' (a0 + OFF_BM0)).testBit k = true)
    (hs : LiveSlot m chains p) : LiveSlot m' chains p := by
  obtain ⟨i, a, k, hi, ha, hk, hp, hb⟩ := hs
  refine ⟨i, a, k, hi, ha, hk, hp, ?_⟩
  by_cases e : a = a0
  · subst e
    have := SlabOK_class_unique (hP.slab i hi a ha).1 hok0
    subst this
    exact hbit k hk hp hb
  · rw [← hb]
    have h1 := (hP.slab i hi a ha).1.1
    have h2 := hok0.1
    simp only [PAGE_SIZE] at h1 h2
    congr 1
    exact read64_congr (fun x hx1 hx2 => hframe x (by
      simp only [OFF_BM0] at hx1 hx2; omega))

/-! ## Fresh blocks -/

theorem live_blocks_alloc (log : List PageEvent) (n b : Nat) :
    live_blocks (PageEvent.alloc n b :: log) = (b, n) :: live_blocks log := rfl

theorem live_blocks_free (log : List PageEvent) (b n : Nat) :
    live_blocks (PageEvent.free b n :: log) =
      (live_blocks log).filter (fun blk => decide (blk.1 ≠ b)) := rfl

/-- The pool survives the arrival of a fresh block whose first page alone is
written. -/
theorem Pool_fresh_frame {m m' : Mem} {slabs : Nat → Nat} {log : List PageEvent}
    {chains : Nat → List Nat} (hP : Pool m slabs log chains) (b n : Nat)
    (hfresh : FreshBlock log b n) (hn : 0 < n)
    (hframe : ∀ x, x < b ∨ b + 4096 ≤ x → m'.byte x = m.byte x) :
    Pool m' slabs (PageEvent.alloc n b :: log) chains := by
  obtain ⟨f1, f2, f3, f4⟩ := hfresh
  have hother : ∀ i, i < 7 → ∀ a, a ∈ chains i →
      ∀ x, a ≤ x → x < a + 64 → m'.byte x = m.byte x := by
    intro i hi a ha x hx1 hx2
    have h1 := hP.slab i hi a ha
    have h2 := f4 _ h1.2
    simp only [PAGE_SIZE] at h2
    exact hframe x (by omega)
  refine ⟨hP.head, hP.null, ?_, ?_, ?_, ?_⟩
  · intro i hi a ha
    refine ⟨SlabOK_congr (hother i hi a ha) (hP.slab i hi a ha).1, ?_⟩
    rw [live_blocks_alloc]
    exact List.mem_cons_of_mem _ (hP.slab i hi a ha).2
  · intro i hi
    apply Linked_congr (chains i) _ (hP.link i hi)
    intro a ha
    exact read64_congr (fun x hx1 hx2 => hother i hi a ha x
      (by simp only [OFF_NEXT] at hx1; omega) (by simp only [OFF_NEXT] at hx2; omega))
  · intro blk hblk
    rw [live_blocks_alloc, List.mem_cons] at hblk
    rcases hblk with e | h
    · subst e; exact ⟨f1, f2, f3, hn⟩
    · exact hP.blocks blk h
  · rw [live_blocks_alloc, List.pairwise_cons]
    exact ⟨fun blk hblk => f4 blk hblk, hP.disjoint⟩

theorem LiveRegion_fresh_frame {m m' : Mem} {slabs : Nat → Nat} {log : List PageEvent}
    {chains : Nat → List Nat} (hP : Pool m slabs log chains) (b n : Nat)
    (hfresh : FreshBlock log b n) (hn : 0 < n)
    (hframe : ∀ x, x < b ∨ b + 4096 ≤ x → m'.byte x = m.byte x)
    (p : Nat) (hr : LiveRegion m log p) : LiveRegion m' (PageEvent.alloc n b :: log) p := by
  obtain ⟨b1, n1, hp, hmem, hn1, hrd⟩ := hr
  have hb := hP.blocks _ hmem
  have hd := hfresh.2.2.2 _ hmem
  refine ⟨b1, n1, hp, List.mem_cons_of_mem _ hmem, hn1, ?_⟩
  rw [← hrd]
  have h4 := hb.2.2.2
  simp only [PAGE_SIZE] at hd
  exact read32_congr (fun x hx1 hx2 => hframe x (by
    simp only [OFF_SLAB_SIZE] at hx1 hx2; omega))

theorem LiveSlot_fresh_frame {m m' : Mem} {slabs : Nat → Nat} {log : List PageEvent}
    {chains : Nat → List Nat} (hP : Pool m slabs log chains) (b n : Nat)
    (hfresh : FreshBlock log b n) (hn : 0 < n)
    (hframe : ∀ x, x < b ∨ b + 4096 ≤ x → m'.byte x = m.byte x)
    (p : Nat) (hs : LiveSlot m chains p) : LiveSlot m' chains p := by
  obtain ⟨i, a, k, hi, ha, hk, hp, hb⟩ := hs
  refine ⟨i, a, k, hi, ha, hk, hp, ?_⟩
  rw [← hb]
  have h1 := hP.slab i hi a ha
  have h2 := hfresh.2.2.2 _ h1.2
  simp only [PAGE_SIZE] at h2
  congr 1
  exact read64_congr (fun x hx1 hx2 => hframe x (by
    simp only [OFF_BM0] at hx1 hx2; omega))

theorem LiveSlot_chains_mono {m : Mem} {chains chains' : Nat → List Nat}
    (h : ∀ i a, a ∈ chains i → a ∈ chains' i) (p : Nat) (hs : LiveSlot m chains p) :
    LiveSlot m chains' p := by
  obtain ⟨i, a, k, hi, ha, hk, hp, hb⟩ := hs
  exact ⟨i, a, k, hi, h i a ha, hk, hp, hb⟩

theorem mem_update_chain {chains : Nat → List Nat} {i P : Nat} (j a : Nat)
    (h : a ∈ chains j) : a ∈ Function.update chains i (P :: chains i) j := by
  by_cases e : j = i
  · subst e; rw [Function.update_same]; exact List.mem_cons_of_mem _ h
  · rw [Function.update_noteq e]; exact h

/-- The pool after `add_new_slab` on a fresh page. -/
theorem Pool_add_new_slab (env : Env) (st : State) (i : Nat) (hi : i < 7)
    {chains : Nat → List Nat} (hP : Pool st.mem st.slabs st.page_log chains)
    (hfresh : FreshBlock st.page_log (env.alloc_pages st.page_log 1) 1) :
    Pool (add_new_slab env st i).2.mem (add_new_slab env st i).2.slabs
      (add_new_slab env st i).2.page_log
      (Function.update chains i (env.alloc_pages st.page_log 1 :: chains i)) := by
  have hal := hfresh.2.1
  have hin : env.alloc_pages st.page_log 1 + PAGE_SIZE ≤ 2 ^ 64 := by
    have := hfresh.2.2.1; omega
  obtain ⟨e1, e2, e3, e4, e5, e6, e7, e8, e9⟩ := add_new_slab_spec env st i hi hal hin
  generalize hPdef : env.alloc_pages st.page_log 1 = P at *
  have hP1 := Pool_fresh_frame hP P 1 hfresh (by omega)
    (fun x hx => e6 x (by omega))
  rw [e2, e3]
  have hslabs_lt : st.slabs i < 2 ^ 64 := by
    cases hc : chains i with
    | nil => rw [hP.null i hi hc]; norm_num
    | cons a rest =>
      rw [hP.head i hi a rest hc]
      have := (hP.slab i hi a (by rw [hc]; exact List.mem_cons_self _ _)).1.2.1
      simp only [PAGE_SIZE] at this
      omega
  refine ⟨?_, ?_, ?_, ?_, hP1.blocks, hP1.disjoint⟩
  · intro j hj a rest hc
    by_cases e : j = i
    · subst e
      rw [Function.update_same] at hc ⊢
      exact (List.cons.inj hc).1
    · rw [Function.update_noteq e] at hc ⊢
      exact hP1.head j hj a rest hc
  · intro j hj hc
    by_cases e : j = i
    · subst e
      rw [Function.update_same] at hc
      exact absurd hc (List.cons_ne_nil _ _)
    · rw [Function.update_noteq e] at hc ⊢
      exact hP1.null j hj hc
  · intro j hj a ha
    by_cases e : j = i
    · subst e
      rw [Function.update_same, List.mem_cons] at ha
      rcases ha with ha | ha
      · subst ha
        exact ⟨e9, by rw [live_blocks_alloc]; exact List.mem_cons_self _ _⟩
      · exact hP1.slab j hj a ha
    · rw [Function.update_noteq e] at ha
      exact hP1.slab j hj a ha
  · intro j hj
    by_cases e : j = i
    · subst e
      rw [Function.update_same]
      apply Linked_cons P (chains j) (st.slabs j) _ _ _ (hP1.link j hj)
      · simp only [OFF_NEXT]; rw [e8]; exact Nat.mod_eq_of_lt hslabs_lt
      · intro hc; exact hP.null j hj hc
      · intro b rest hc; exact hP.head j hj b rest hc
    · rw [Function.update_noteq e]
      exact hP1.link j hj

/-! ## Preservation of the invariant by the allocation steps -/

theorem PoolInv_congr {st st' : State} {L : List Nat} {chains : Nat → List Nat}
    (h1 : st'.mem = st.mem) (h2 : st'.slabs = st.slabs) (h3 : st'.page_log = st.page_log)
    (h : PoolInv st L chains) : PoolInv st' L chains := by
  unfold PoolInv at *
  rw [h1, h2, h3]
  exact h

/-- Taking a free slot of a pool page keeps the pool and makes the slot live. -/
theorem take_PoolInv (st : State) (L : List Nat) (chains : Nat → List Nat) (i a k : Nat)
    (h : PoolInv st L chains) (hi : i < 7) (ha : a ∈ chains i) (hk : k < class_count i) :
    PoolInv (malloc_take st i a (k + 1)).2 ((a + 64 + k * class_size i) :: L) chains := by
  obtain ⟨hP, hL⟩ := h
  have hok := (hP.slab i hi a ha).1
  obtain ⟨t1, t2, t3, t4, t5, t6, t7, t8, t9⟩ := malloc_take_spec st i a k hok hk
  have hframe : ∀ x, x < a ∨ a + 4096 ≤ x →
      (malloc_take st i a (k + 1)).2.mem.byte x = st.mem.byte x :=
    fun x hx => t6 x (by omega)
  have hnext : read64 (malloc_take st i a (k + 1)).2.mem (a + OFF_NEXT) =
      read64 st.mem (a + OFF_NEXT) :=
    read64_congr (fun x hx1 hx2 => t6 x (by simp only [OFF_NEXT] at hx1 hx2; omega))
  have hP' := Pool_update_page hP a i hok hframe t9 hnext
  refine ⟨by rw [t2, t3]; exact hP', ?_⟩
  intro p hp
  rw [List.mem_cons] at hp
  rcases hp with e | hp
  · left
    refine ⟨i, a, k, hi, ha, hk, by rw [e]; rfl, ?_⟩
    simp only [OFF_BM0]
    rw [t7, testBit_or_bit]
    simp
  · rcases hL p hp with hs | hr
    · left
      apply LiveSlot_update_page hP a i hok hframe p _ hs
      intro k' _ _ hb
      simp only [OFF_BM0] at hb ⊢
      rw [t7, testBit_or_bit, hb]
      rfl
    · right
      rw [t3]
      exact LiveRegion_update_page hP a i hok hframe p hr

/-- Creating a slab on a fresh page keeps the pool and the live pointers. -/
theorem add_new_slab_PoolInv (env : Env) (st : State) (L : List Nat)
    (chains : Nat → List Nat) (i : Nat) (h : PoolInv st L chains) (hi : i < 7)
    (hfresh : FreshBlock st.page_log (env.alloc_pages st.page_log 1) 1) :
    PoolInv (add_new_slab env st i).2 L
      (Function.update chains i (env.alloc_pages st.page_log 1 :: chains i)) := by
  obtain ⟨hP, hL⟩ := h
  have hal := hfresh.2.1
  have hin : env.alloc_pages st.page_log 1 + PAGE_SIZE ≤ 2 ^ 64 := by
    have := hfresh.2.2.1; omega
  obtain ⟨e1, e2, e3, e4, e5, e6, e7, e8, e9⟩ := add_new_slab_spec env st i hi hal hin
  refine ⟨Pool_add_new_slab env st i hi hP hfresh, ?_⟩
  intro p hp
  rcases hL p hp with hs | hr
  · left
    apply LiveSlot_chains_mono (fun j a ha => mem_update_chain j a ha)
    exact LiveSlot_fresh_frame hP _ 1 hfresh (by omega) (fun x hx => e6 x (by omega)) p hs
  · right
    rw [e3]
    exact LiveRegion_fresh_frame hP _ 1 hfresh (by omega) (fun x hx => e6 x (by omega)) p hr

/-- A page-backed allocation on a fresh block keeps the pool and makes the
returned pointer live. -/
theorem malloc_pages_PoolInv (env : Env) (st : State) (L : List Nat)
    (chains : Nat → List Nat) (s : Nat) (h : PoolInv st L chains)
    (h1 : 4032 < s) (h2 : s ≤ UINT32_MAX - 16)
    (hsrc : PageSourceOK env st.page_log) :
    PoolInv (malloc_pages env st s).2 ((malloc_pages env st s).1 :: L) chains := by
  obtain ⟨hP, hL⟩ := h
  have hU : UINT32_MAX = 4294967295 := rfl
  have hpages : ((sizeof_malloc_region + s + PAGE_MASK) % 2 ^ 64) / PAGE_SIZE
      = (16 + s + 4095) / 4096 := by
    simp only [sizeof_malloc_region, PAGE_MASK, PAGE_SIZE]
    rw [Nat.mod_eq_of_lt (by omega)]
  have hsize : (((16 + s + 4095) / 4096 * PAGE_SIZE) % 2 ^ 64 + 2 ^ 64 - sizeof_malloc_region)
      % 2 ^ 64 = (16 + s + 4095) / 4096 * 4096 - 16 := by
    simp only [sizeof_malloc_region, PAGE_SIZE]
    omega
  have hn0 : 0 < (16 + s + 4095) / 4096 := by omega
  have hn1 : (16 + s + 4095) / 4096 ≤ 2 ^ 20 := by norm_num; omega
  have hfresh := hsrc _ hn0 hn1
  have e1 : (malloc_pages env st s).1 =
      env.alloc_pages st.page_log ((16 + s + 4095) / 4096) + 16 := by
    rw [malloc_pages_fst, hpages]; rfl
  have e2 : (malloc_pages env st s).2.page_log = PageEvent.alloc ((16 + s + 4095) / 4096)
      (env.alloc_pages st.page_log ((16 + s + 4095) / 4096)) :: st.page_log := by
    show PageEvent.alloc _ _ :: _ = _
    rw [hpages]
  have e3 : (malloc_pages env st s).2.mem =
      write32 st.mem (env.alloc_pages st.page_log ((16 + s + 4095) / 4096))
        ((16 + s + 4095) / 4096 * 4096 - 16) := by
    show write32 _ _ _ = _
    simp only [alloc_pages, OFF_SLAB_SIZE, Nat.add_zero, hpages, hsize]
  have e4 : (malloc_pages env st s).2.slabs = st.slabs := rfl
  generalize hb : env.alloc_pages st.page_log ((16 + s + 4095) / 4096) = b at *
  generalize hn : (16 + s + 4095) / 4096 = n at *
  have hframe : ∀ x, x < b ∨ b + 4096 ≤ x →
      (malloc_pages env st s).2.mem.byte x = st.mem.byte x := by
    intro x hx
    rw [e3, write32_byte_out _ _ _ _ (by omega)]
  refine ⟨by rw [e2, e4]; exact Pool_fresh_frame hP b n hfresh hn0 hframe, ?_⟩
  intro p hp
  rw [List.mem_cons] at hp
  rcases hp with e | hp
  · right
    refine ⟨b, n, by rw [e, e1]; rfl, by rw [e2]; exact List.mem_cons_self _ _, hn1, ?_⟩
    simp only [OFF_SLAB_SIZE, Nat.add_zero, PAGE_SIZE, sizeof_malloc_region]
    rw [e3, read32_write32_same]
    exact Nat.mod_eq_of_lt (by norm_num at hn1; omega)
  · rcases hL p hp with hs | hr
    · left
      exact LiveSlot_fresh_frame hP b n hfresh hn0 hframe p hs
    · right
      rw [e2]
      exact LiveRegion_fresh_frame hP b n hfresh hn0 hframe p hr

/-! ## Preservation of the invariant by the release steps -/

/-- A live slot lies in its page: the page of the pointer is the slab. -/
theorem slot_page_of {m : Mem} {a i k : Nat} (hok : SlabOK m a i) (hk : k < class_count i) :
    page_of (a + 64 + k * class_size i) = a ∧ a + 64 + k * class_size i ≠ 0 ∧
      64 + (k + 1) * class_size i ≤ 4096 := by
  have hi := hok.2.2.1
  have hfit := class_fits_page i hi
  have h1 := hok.1
  have h2 := hok.2.1
  simp only [PAGE_SIZE] at h1 h2
  have hmul : (k + 1) * class_size i ≤ class_count i * class_size i :=
    Nat.mul_le_mul_right _ (by omega)
  have hmul2 : (k + 1) * class_size i = k * class_size i + class_size i := by ring
  have hs := class_size_pos i hi
  have hcomm : class_count i * class_size i = class_size i * class_count i := Nat.mul_comm _ _
  refine ⟨?_, by omega, by omega⟩
  rw [Nat.add_assoc]
  exact page_of_add a _ h1 (by omega) (by omega)

/-- Freeing a live slot keeps the pool and the other live pointers. -/
theorem free_slab_PoolInv (st : State) (L : List Nat) (chains : Nat → List Nat) (i a k : Nat)
    (h : PoolInv st L chains) (hi : i < 7) (ha : a ∈ chains i) (hk : k < class_count i)
    (hb : (read64 st.mem (a + 32)).testBit k = true) :
    ∃ m', free_slab st (a + 64 + k * class_size i) a = Outcome.ok () { st with mem := m' } ∧
      PoolInv { st with mem := m' }
        (L.filter (fun q => decide (q ≠ a + 64 + k * class_size i))) chains ∧
      SlabOK m' a i ∧
      read64 m' (a + 32) = read64 st.mem (a + 32) &&& not64 (2 ^ k) ∧
      read64 m' (a + 24) = (read64 st.mem (a + 24) + 1) % 2 ^ 64 := by
  obtain ⟨hP, hL⟩ := h
  have hok := (hP.slab i hi a ha).1
  obtain ⟨m', f1, f2, f3, f4, f5⟩ := free_slab_spec st i a k hok hk hb
  obtain ⟨_, _, hfit⟩ := slot_page_of hok hk
  have hframe : ∀ x, x < a ∨ a + 4096 ≤ x → m'.byte x = st.mem.byte x :=
    fun x hx => f2 x (by omega)
  have hnext : read64 m' (a + OFF_NEXT) = read64 st.mem (a + OFF_NEXT) :=
    read64_congr (fun x hx1 hx2 => f2 x (by simp only [OFF_NEXT] at hx1 hx2; omega))
  have hbm64 : read64 st.mem (a + 32) < 2 ^ 64 := by
    have := read64_lt st.mem (a + 32); norm_num; omega
  refine ⟨m', f1, ⟨Pool_update_page hP a i hok hframe f5 hnext, ?_⟩, f5, f3, f4⟩
  intro p hp
  rw [List.mem_filter] at hp
  obtain ⟨hpL, hne⟩ := hp
  simp only [ne_eq, decide_not, Bool.not_eq_true', decide_eq_false_iff_not] at hne
  rcases hL p hpL with hs | hr
  · left
    apply LiveSlot_update_page hP a i hok hframe p _ hs
    intro k' _ hpk hb'
    simp only [OFF_BM0, OFF_DATA] at hb' hpk ⊢
    rw [f3, testBit_and_not_bit _ _ _ hbm64, hb']
    have : k ≠ k' := by
      intro e; subst e; exact hne hpk
    simp [this]
  · right
    exact LiveRegion_update_page hP a i hok hframe p hr

/-- Giving back the block of a live region keeps the pool and the other live
pointers. -/
theorem free_pages_PoolInv (st : State) (L : List Nat) (chains : Nat → List Nat) (b n : Nat)
    (h : PoolInv st L chains) (hmem : (b, n) ∈ live_blocks st.page_log)
    (hrd : read32 st.mem (b + OFF_SLAB_SIZE) = n * PAGE_SIZE - sizeof_malloc_region) :
    PoolInv (free_pages st b n)
      (L.filter (fun q => decide (q ≠ b + sizeof_malloc_region))) chains := by
  obtain ⟨hP, hL⟩ := h
  have hb := hP.blocks _ hmem
  have hlog : (free_pages st b n).page_log = PageEvent.free b n :: st.page_log := rfl
  have hkeep : ∀ blk, blk ∈ live_blocks st.page_log → blk.1 ≠ b →
      blk ∈ live_blocks (free_pages st b n).page_log := by
    intro blk hblk hne
    rw [hlog, live_blocks_free, List.mem_filter]
    exact ⟨hblk, by simpa using hne⟩
  have hsub : ∀ blk, blk ∈ live_blocks (free_pages st b n).page_log →
      blk ∈ live_blocks st.page_log := by
    intro blk hblk
    rw [hlog, live_blocks_free, List.mem_filter] at hblk
    exact hblk.1
  refine ⟨⟨hP.head, hP.null, ?_, hP.link, fun blk hblk => hP.blocks blk (hsub blk hblk), ?_⟩, ?_⟩
  · intro i hi a ha
    have hs := hP.slab i hi a ha
    refine ⟨hs.1, hkeep _ hs.2 ?_⟩
    exact fun e => region_ne_slab hs.1 hb.2.2.2 hrd e.symm
  · rw [hlog, live_blocks_free]
    exact List.Pairwise.filter _ hP.disjoint
  · intro p hp
    rw [List.mem_filter] at hp
    obtain ⟨hpL, hne⟩ := hp
    simp only [ne_eq, decide_not, Bool.not_eq_true', decide_eq_false_iff_not] at hne
    rcases hL p hpL with hs | hr
    · left; exact hs
    · right
      obtain ⟨b1, n1, hp1, hmem1, hn1, hrd1⟩ := hr
      refine ⟨b1, n1, hp1, hkeep _ hmem1 ?_, hn1, hrd1⟩
      intro e
      simp only at e
      subst e
      exact hne hp1

/-! ## The entry points on well-formed states -/

theorem int32_wrap_lit_one : int32_wrap 1 = 1 := by decide
theorem int32_wrap_lit_zero : int32_wrap 0 = 0 := by decide

/-- Leaving after entering and changing memory and log gives the state with
these two changed, when the lock was free. -/
theorem critical_leave_enter_with (st : State) (h : st.malloc_lock = 0) {m : Mem}
    {log : List PageEvent} :
    critical_leave st.irq_enabled { critical_enter st with mem := m, page_log := log } =
      { st with mem := m, page_log := log } := by
  cases st with
  | mk mem lock slabs irq log0 =>
    simp only at h
    subst h
    simp [critical_leave, critical_enter, load_eflags, atomic_fetch_sub_lock,
      atomic_fetch_add_lock, local_irq_save, int32_wrap_lit_one, int32_wrap_lit_zero]

theorem malloc_ok_inv (env : Env) (st : State) (s p : Nat) (st' : State)
    (h : malloc env st s = Outcome.ok p st') :
    env.int_nest_count = 0 ∧ s ≤ UINT32_MAX - 16 ∧ st.malloc_lock = 0 := by
  unfold malloc at h
  rw [if_neg (by decide)] at h
  by_cases hn : env.int_nest_count > 0
  · rw [if_pos hn] at h; cases h
  · rw [if_neg hn] at h
    by_cases hs : s > UINT32_MAX - sizeof_malloc_region
    · rw [if_pos hs] at h; cases h
    · rw [if_neg hs] at h
      by_cases hl : (atomic_fetch_add_lock (local_irq_save st).2).1 ≠ 0
      · simp only [hl, ne_eq, not_false_eq_true, if_true] at h; cases h
      · refine ⟨by omega, by simp only [sizeof_malloc_region] at hs; omega, ?_⟩
        simpa using hl

theorem free_ok_inv (env : Env) (st : State) (p : Nat) (st' : State) (hp : p ≠ 0)
    (h : free env st p = Outcome.ok () st') :
    env.int_nest_count = 0 ∧ st.malloc_lock = 0 := by
  unfold free at h
  rw [if_neg hp] at h
  by_cases hn : env.int_nest_count > 0
  · rw [if_pos hn] at h; cases h
  · rw [if_neg hn] at h
    by_cases hl : (atomic_fetch_add_lock (local_irq_save st).2).1 ≠ 0
    · simp only [hl, ne_eq, not_false_eq_true, if_true] at h; cases h
    · refine ⟨by omega, ?_⟩
      simpa using hl

theorem malloc_usable_size_ok_inv (env : Env) (st : State) (p v : Nat) (st' : State)
    (hl : st.malloc_lock = 0)
    (h : malloc_usable_size env st p = Outcome.ok v st') : st' = st := by
  by_cases hn : env.int_nest_count > 0
  · unfold malloc_usable_size at h
    rw [if_pos hn] at h; cases h
  · by_cases hp : p = 0
    · subst hp
      unfold malloc_usable_size at h
      rw [if_neg hn, if_pos rfl] at h
      cases h; rfl
    · rw [malloc_usable_size_eq env st p hp (by omega) hl] at h
      split_ifs at h
      · cases hv : validate_is_slab st.mem (page_of p) with
        | none => rw [hv] at h; cases h; rfl
        | some e => rw [hv] at h; cases h
      · cases h; rfl

/-- The call `malloc` when the head slab of the class has a free slot. -/
theorem malloc_head_eq (env : Env) (st : State) (s i k : Nat)
    (hn : env.int_nest_count = 0) (hl : st.malloc_lock = 0)
    (hmap : map_size_to_idx s = some i) (hok : SlabOK st.mem (st.slabs i) i)
    (hf : builtin_ffsl (read64 st.mem (st.slabs i + 32) ^^^ bitmap_mask i) = k + 1) :
    malloc env st s =
      Outcome.ok (malloc_take (critical_enter st) i (st.slabs i) (k + 1)).1
        (critical_leave st.irq_enabled
          (malloc_take (critical_enter st) i (st.slabs i) (k + 1)).2) := by
  have hs := (map_size_to_idx_lt s i hmap).2
  have hU : UINT32_MAX = 4294967295 := rfl
  rw [malloc_eq env st s hn hl (by simp only [sizeof_malloc_region]; omega),
    if_neg (by simp only [MAX_SLAB_SIZE]; omega),
    malloc_slab_head env (critical_enter st) s i k hmap hok hf]
  have hl1 : (malloc_take (critical_enter st) i (st.slabs i) (k + 1)).2.malloc_lock = 1 :=
    critical_enter_lock st hl
  simp only [critical_enter_slabs, hl1, ne_eq, not_true_eq_false, if_false]

/-- The call `malloc` when the head slab of the class is full. -/
theorem malloc_new_eq (env : Env) (st : State) (s i : Nat)
    (hn : env.int_nest_count = 0) (hl : st.malloc_lock = 0)
    (hmap : map_size_to_idx s = some i) (hok : SlabOK st.mem (st.slabs i) i)
    (hf : builtin_ffsl (read64 st.mem (st.slabs i + 32) ^^^ bitmap_mask i) = 0)
    (hal : env.alloc_pages st.page_log 1 % PAGE_SIZE = 0)
    (hin : env.alloc_pages st.page_log 1 + PAGE_SIZE ≤ 2 ^ 64) :
    malloc env st s =
      Outcome.ok
        (malloc_take (add_new_slab env (critical_enter st) i).2 i
          (env.alloc_pages st.page_log 1) 1).1
        (critical_leave st.irq_enabled
          (malloc_take (add_new_slab env (critical_enter st) i).2 i
            (env.alloc_pages st.page_log 1) 1).2) := by
  have hs := (map_size_to_idx_lt s i hmap).2
  have hU : UINT32_MAX = 4294967295 := rfl
  rw [malloc_eq env st s hn hl (by simp only [sizeof_malloc_region]; omega),
    if_neg (by simp only [MAX_SLAB_SIZE]; omega),
    malloc_slab_new env (critical_enter st) s i hmap hok hf hal hin]
  have hl1 : (malloc_take (add_new_slab env (critical_enter st) i).2 i
      (env.alloc_pages st.page_log 1) 1).2.malloc_lock = 1 :=
    critical_enter_lock st hl
  simp only [critical_enter_page_log, hl1, ne_eq, not_true_eq_false, if_false]

/-- The call `free` on an allocated slot of a well-formed slab. -/
theorem free_slot_eq (env : Env) (st : State) (i a k : Nat)
    (hn : env.int_nest_count = 0) (hl : st.malloc_lock = 0)
    (hok : SlabOK st.mem a i) (hk : k < class_count i) (m' : Mem)
    (hfs : free_slab (critical_enter st) (a + 64 + k * class_size i) a =
      Outcome.ok () { critical_enter st with mem := m' }) :
    free env st (a + 64 + k * class_size i) = Outcome.ok () { st with mem := m' } := by
  obtain ⟨hpo, hne, _⟩ := slot_page_of hok hk
  have hris : region_is_slab st.mem a = true := by
    have hs := class_size_pos i hok.2.2.1
    simp only [region_is_slab, hok.2.2.2.1, MAX_SLAB_SIZE, decide_eq_true_eq]
    exact hs.2
  rw [free_eq env st _ hne hn hl, hpo, if_neg (by rw [hris]; decide), hfs]
  show (if (critical_enter st).malloc_lock ≠ 1 then _ else _) = _
  rw [if_neg (by rw [critical_enter_lock st hl]; simp), critical_leave_enter_with st hl]
  rfl

/-- The call `free` on the data pointer of a page-backed region. -/
theorem free_region_eq (env : Env) (st : State) (b n : Nat)
    (hn : env.int_nest_count = 0) (hl : st.malloc_lock = 0)
    (hb : BlockOK (b, n)) (hn20 : n ≤ 2 ^ 20)
    (hrd : read32 st.mem (b + OFF_SLAB_SIZE) = n * PAGE_SIZE - sizeof_malloc_region) :
    free env st (b + sizeof_malloc_region) = Outcome.ok () (free_pages st b n) := by
  obtain ⟨b1, b2, b3, b4⟩ := hb
  simp only [PAGE_SIZE, sizeof_malloc_region, OFF_SLAB_SIZE, Nat.add_zero] at *
  have hpo : page_of (b + 16) = b := page_of_add b 16 b2 (by omega) (by omega)
  have hris : region_is_slab st.mem b = false := by
    simp only [region_is_slab, OFF_SLAB_SIZE, Nat.add_zero, hrd, MAX_SLAB_SIZE,
      decide_eq_false_iff_not]
    omega
  rw [free_eq env st _ (by omega) hn hl, hpo, if_pos hris]
  have hpg : (read32 st.mem (b + OFF_SLAB_SIZE) + sizeof_malloc_region) / PAGE_SIZE = n := by
    simp only [OFF_SLAB_SIZE, Nat.add_zero, hrd, sizeof_malloc_region, PAGE_SIZE]
    omega
  rw [hpg]
  show (if (critical_enter st).malloc_lock ≠ 1 then _ else _) = _
  rw [if_neg (by rw [critical_enter_lock st hl]; simp)]
  congr 1
  show critical_leave st.irq_enabled
    { critical_enter st with page_log := PageEvent.free b n :: st.page_log } = _
  rw [critical_leave_enter_with st hl]
  rfl

/-! ## Reachable states satisfy the invariant -/

/-- The call `malloc` for a page-backed size. -/
theorem malloc_large_eq (env : Env) (st : State) (s : Nat)
    (hn : env.int_nest_count = 0) (hl : st.malloc_lock = 0)
    (h1 : 4032 < s) (h2 : s ≤ UINT32_MAX - 16) :
    malloc env st s =
      Outcome.ok (malloc_pages env (critical_enter st) s).1
        (critical_leave st.irq_enabled (malloc_pages env (critical_enter st) s).2) := by
  rw [malloc_eq env st s hn hl h2, if_pos (show s > MAX_SLAB_SIZE from h1)]
  show (if (critical_enter st).malloc_lock ≠ 1 then _ else _) = _
  rw [if_neg (by rw [critical_enter_lock st hl]; simp)]

theorem init_mm_upto_succ (env : Env) (st : State) (k : Nat) :
    init_mm_upto env st (k + 1) = (add_new_slab env (init_mm_upto env st k) k).2 := by
  unfold init_mm_upto
  rw [List.range_succ, List.foldl_append]
  rfl

theorem init_mm_eq_upto (env : Env) (st : State) : init_mm env st = init_mm_upto env st 7 := rfl

theorem add_new_slab_lock (env : Env) (st : State) (i : Nat) :
    (add_new_slab env st i).2.malloc_lock = st.malloc_lock := rfl

theorem init_mm_upto_inv (env : Env) (s0 : State) (hslabs : ∀ i, i < 7 → s0.slabs i = 0)
    (hlog : s0.page_log = []) (hsrc : InitPagesOK env s0) :
    ∀ k, k ≤ 7 → (init_mm_upto env s0 k).malloc_lock = 0 ∧
      ∃ chains, PoolInv (init_mm_upto env s0 k) [] chains ∧ ∀ i, i < k → chains i ≠ [] := by
  intro k
  induction k with
  | zero =>
    intro _
    refine ⟨rfl, fun _ => [], ⟨⟨?_, ?_, ?_, ?_, ?_, ?_⟩, ?_⟩, ?_⟩
    · intro i _ a rest h; cases h
    · intro i hi _; exact hslabs i hi
    · intro i _ a ha; cases ha
    · intro i _; trivial
    · intro blk hblk
      have : (init_mm_upto env s0 0).page_log = [] := hlog
      rw [this] at hblk
      cases hblk
    · have : (init_mm_upto env s0 0).page_log = [] := hlog
      rw [this]
      exact List.Pairwise.nil
    · intro p hp; cases hp
    · intro i hi; omega
  | succ k ih =>
    intro hk
    obtain ⟨hl, chains, hPI, hne⟩ := ih (by omega)
    rw [init_mm_upto_succ]
    refine ⟨by rw [add_new_slab_lock]; exact hl, _,
      add_new_slab_PoolInv env _ [] chains k hPI (by omega) (hsrc k (by omega)), ?_⟩
    intro i hi
    by_cases e : i = k
    · subst e
      rw [Function.update_same]
      exact List.cons_ne_nil _ _
    · rw [Function.update_noteq e]
      exact hne i (by omega)

/-- The invariant holds after `init_mm`. -/
theorem inv_init (env : Env) (s0 : State) (hslabs : ∀ i, i < 7 → s0.slabs i = 0)
    (hlog : s0.page_log = []) (hsrc : InitPagesOK env s0) : Inv (init_mm env s0) [] := by
  rw [init_mm_eq_upto]
  obtain ⟨hl, chains, hPI, hne⟩ := init_mm_upto_inv env s0 hslabs hlog hsrc 7 (le_refl _)
  exact ⟨hl, chains, hPI, hne⟩

/-- The invariant is kept by a `malloc` that returns. -/
theorem inv_malloc (env : Env) (st : State) (L : List Nat) (s p : Nat) (st' : State)
    (hI : Inv st L) (hsrc : PageSourceOK env st.page_log)
    (hcall : malloc env st s = Outcome.ok p st') : Inv st' (p :: L) := by
  obtain ⟨hl, chains, hPI, hne⟩ := hI
  obtain ⟨hn, hs, _⟩ := malloc_ok_inv env st s p st' hcall
  have hPI1 : PoolInv (critical_enter st) L chains := PoolInv_congr rfl rfl rfl hPI
  by_cases h1 : 4032 < s
  · rw [malloc_large_eq env st s hn hl h1 hs] at hcall
    injection hcall with hp hst
    subst hp hst
    refine ⟨critical_leave_lock _ _ (critical_enter_lock st hl), chains, ?_, hne⟩
    exact PoolInv_congr rfl rfl rfl (malloc_pages_PoolInv env (critical_enter st) L chains s
      hPI1 h1 hs hsrc)
  · obtain ⟨i, hmap⟩ := map_size_to_idx_some s (by omega)
    have hi := (map_size_to_idx_lt s i hmap).1
    obtain ⟨a, rest, hc⟩ := List.exists_cons_of_ne_nil (hne i hi)
    have hhead := hPI.1.head i hi a rest hc
    have ha : a ∈ chains i := by rw [hc]; exact List.mem_cons_self _ _
    have hok : SlabOK st.mem (st.slabs i) i := by rw [hhead]; exact (hPI.1.slab i hi a ha).1
    cases hf : builtin_ffsl (read64 st.mem (st.slabs i + 32) ^^^ bitmap_mask i) with
    | succ k =>
      rw [malloc_head_eq env st s i k hn hl hmap hok hf] at hcall
      injection hcall with hp hst
      obtain ⟨hk, _, _⟩ := ffsl_free_bits i _ k hi hok.2.2.2.2.2 hf
      have hPI2 := take_PoolInv (critical_enter st) L chains i a k hPI1 hi ha hk
      have hfst := (malloc_take_spec (critical_enter st) i a k (hPI1.1.slab i hi a ha).1 hk).1
      rw [hhead] at hp hst
      rw [hfst] at hp
      subst hp hst
      exact ⟨critical_leave_lock _ _ (critical_enter_lock st hl), chains,
        PoolInv_congr rfl rfl rfl hPI2, hne⟩
    | zero =>
      have hfresh := hsrc 1 (by omega) (by norm_num)
      have hal := hfresh.2.1
      have hin : env.alloc_pages st.page_log 1 + PAGE_SIZE ≤ 2 ^ 64 := by
        have := hfresh.2.2.1; omega
      rw [malloc_new_eq env st s i hn hl hmap hok hf hal hin] at hcall
      injection hcall with hp hst
      have hPI2 := add_new_slab_PoolInv env (critical_enter st) L chains i hPI1 hi hfresh
      have hmemP : env.alloc_pages st.page_log 1 ∈
          Function.update chains i (env.alloc_pages st.page_log 1 :: chains i) i := by
        rw [Function.update_same]; exact List.mem_cons_self _ _
      have hc0 := (class_count_le i hi).1
      have hPI3 := take_PoolInv _ L _ i (env.alloc_pages st.page_log 1) 0 hPI2 hi hmemP hc0
      have hfst := (malloc_take_spec (add_new_slab env (critical_enter st) i).2 i
        (env.alloc_pages st.page_log 1) 0 (hPI2.1.slab i hi _ hmemP).1 hc0).1
      rw [hfst] at hp
      subst hp hst
      refine ⟨critical_leave_lock _ _ (critical_enter_lock st hl), _,
        PoolInv_congr rfl rfl rfl hPI3, ?_⟩
      intro j hj
      by_cases e : j = i
      · subst e
        rw [Function.update_same]
        exact List.cons_ne_nil _ _
      · rw [Function.update_noteq e]
        exact hne j hj

theorem PoolInv_sublist {st : State} {L L' : List Nat} {chains : Nat → List Nat}
    (h : ∀ p, p ∈ L' → p ∈ L) (hPI : PoolInv st L chains) : PoolInv st L' chains :=
  ⟨hPI.1, fun p hp => hPI.2 p (h p hp)⟩

/-- The invariant is kept by a `free` of null or of a live pointer that returns. -/
theorem inv_free (env : Env) (st : State) (L : List Nat) (p : Nat) (st' : State)
    (hI : Inv st L) (hp : p = 0 ∨ p ∈ L)
    (hcall : free env st p = Outcome.ok () st') :
    Inv st' (L.filter (fun q => decide (q ≠ p))) := by
  obtain ⟨hl, chains, hPI, hne⟩ := hI
  by_cases h0 : p = 0
  · subst h0
    have : free env st 0 = Outcome.ok () st := by unfold free; rw [if_pos rfl]
    rw [this] at hcall
    injection hcall with _ hst
    subst hst
    exact ⟨hl, chains, PoolInv_sublist (fun q hq => (List.mem_filter.mp hq).1) hPI, hne⟩
  · have hpL : p ∈ L := by
      rcases hp with h | h
      · exact absurd h h0
      · exact h
    obtain ⟨hn, _⟩ := free_ok_inv env st p st' h0 hcall
    have hPI1 : PoolInv (critical_enter st) L chains := PoolInv_congr rfl rfl rfl hPI
    rcases hPI.2 p hpL with hs | hr
    · obtain ⟨i, a, k, hi, ha, hk, hpe, hb⟩ := hs
      simp only [OFF_DATA, OFF_BM0] at hpe hb
      subst hpe
      obtain ⟨m', f1, f2, _⟩ := free_slab_PoolInv (critical_enter st) L chains i a k hPI1 hi ha
        hk hb
      rw [free_slot_eq env st i a k hn hl (hPI.1.slab i hi a ha).1 hk m' f1] at hcall
      injection hcall with _ hst
      subst hst
      exact ⟨hl, chains, PoolInv_congr rfl rfl rfl f2, hne⟩
    · obtain ⟨b, n, hpe, hmem, hn20, hrd⟩ := hr
      subst hpe
      rw [free_region_eq env st b n hn hl (hPI.1.blocks _ hmem) hn20 hrd] at hcall
      injection hcall with _ hst
      subst hst
      exact ⟨hl, chains, free_pages_PoolInv st L chains b n hPI hmem hrd, hne⟩

/-- Every reachable state satisfies the invariant. -/
theorem reach_inv (env : Env) (st : State) (L : List Nat) (h : Reach env st L) : Inv st L := by
  induction h with
  | init s0 hslabs hlog hsrc => exact inv_init env s0 hslabs hlog hsrc
  | malloc st L size p st' _ hsrc hcall ih => exact inv_malloc env st L size p st' ih hsrc hcall
  | free st L p st' _ hp hcall ih => exact inv_free env st L p st' ih hp hcall
  | usable_size st L p v st' _ hcall ih =>
    rw [malloc_usable_size_ok_inv env st p v st' ih.1 hcall]
    exact ih

/-! ## Slab-backed `malloc` and `malloc_usable_size` in detail -/

/-- In a state that satisfies the invariant the head slab of every class is
well-formed. -/
theorem inv_head_ok {st : State} {L : List Nat} (hI : Inv st L) (i : Nat) (hi : i < 7) :
    SlabOK st.mem (st.slabs i) i := by
  obtain ⟨_, chains, hPI, hne⟩ := hI
  obtain ⟨a, rest, hc⟩ := List.exists_cons_of_ne_nil (hne i hi)
  rw [hPI.1.head i hi a rest hc]
  exact (hPI.1.slab i hi a (by rw [hc]; exact List.mem_cons_self _ _)).1

/-- A `malloc` served by the head slab: the slot taken, and the state after. -/
theorem malloc_small_head (env : Env) (st : State) (s i k : Nat)
    (hn : env.int_nest_count = 0) (hl : st.malloc_lock = 0)
    (hmap : map_size_to_idx s = some i) (hok : SlabOK st.mem (st.slabs i) i)
    (hf : builtin_ffsl (read64 st.mem (st.slabs i + 32) ^^^ bitmap_mask i) = k + 1) :
    ∃ st1, malloc env st s = Outcome.ok (st.slabs i + 64 + k * class_size i) st1 ∧
      st1.slabs = st.slabs ∧ st1.page_log = st.page_log ∧ st1.malloc_lock = 0 ∧
      st1.irq_enabled = st.irq_enabled ∧
      k < class_count i ∧ (read64 st.mem (st.slabs i + 32)).testBit k = false ∧
      (∀ j, j < k → (read64 st.mem (st.slabs i + 32)).testBit j = true) ∧
      (∀ x, x < st.slabs i + 16 ∨ (st.slabs i + 24 ≤ x ∧ x < st.slabs i + 32) ∨
          (st.slabs i + 40 ≤ x ∧ x < st.slabs i + 56) ∨ st.slabs i + 64 ≤ x →
        st1.mem.byte x = st.mem.byte x) ∧
      read64 st1.mem (st.slabs i + 32) = read64 st.mem (st.slabs i + 32) ||| 2 ^ k ∧
      read64 st1.mem (st.slabs i + 16) = (read64 st.mem (st.slabs i + 16) + 1) % 2 ^ 64 ∧
      SlabOK st1.mem (st.slabs i) i := by
  have hi := (map_size_to_idx_lt s i hmap).1
  obtain ⟨hk, hb, hlow⟩ := ffsl_free_bits i _ k hi hok.2.2.2.2.2 hf
  obtain ⟨t1, t2, t3, t4, t5, t6, t7, t8, t9⟩ :=
    malloc_take_spec (critical_enter st) i (st.slabs i) k hok hk
  refine ⟨critical_leave st.irq_enabled (malloc_take (critical_enter st) i (st.slabs i) (k + 1)).2,
    ?_, t2, t3, ?_, rfl, hk, hb, hlow, t6, t7, t8, t9⟩
  · rw [malloc_head_eq env st s i k hn hl hmap hok hf, t1]
  · exact critical_leave_lock _ _ (critical_enter_lock st hl)

/-- A `malloc` that finds the head slab full: the slab created, the slot taken,
and the state after. -/
theorem malloc_small_new (env : Env) (st : State) (s i : Nat)
    (hn : env.int_nest_count = 0) (hl : st.malloc_lock = 0)
    (hmap : map_size_to_idx s = some i) (hok : SlabOK st.mem (st.slabs i) i)
    (hf : builtin_ffsl (read64 st.mem (st.slabs i + 32) ^^^ bitmap_mask i) = 0)
    (hal : env.alloc_pages st.page_log 1 % PAGE_SIZE = 0)
    (hin : env.alloc_pages st.page_log 1 + PAGE_SIZE ≤ 2 ^ 64) :
    ∃ st1, malloc env st s = Outcome.ok (env.alloc_pages st.page_log 1 + 64) st1 ∧
      st1.slabs = Function.update st.slabs i (env.alloc_pages st.page_log 1) ∧
      st1.page_log = PageEvent.alloc 1 (env.alloc_pages st.page_log 1) :: st.page_log ∧
      st1.malloc_lock = 0 ∧ st1.irq_enabled = st.irq_enabled ∧
      (∀ x, x < env.alloc_pages st.page_log 1 ∨
          (env.alloc_pages st.page_log 1 + 24 ≤ x ∧ x < env.alloc_pages st.page_log 1 + 32) ∨
          env.alloc_pages st.page_log 1 + 64 ≤ x →
        st1.mem.byte x = st.mem.byte x) ∧
      read64 st1.mem (env.alloc_pages st.page_log 1 + 32) = 1 ∧
      read64 st1.mem (env.alloc_pages st.page_log 1 + 16) =
        (read64 st.mem (env.alloc_pages st.page_log 1 + 16) + 1) % 2 ^ 64 ∧
      read64 st1.mem (env.alloc_pages st.page_log 1 + 8) = st.slabs i % 2 ^ 64 ∧
      SlabOK st1.mem (env.alloc_pages st.page_log 1) i := by
  have hi := (map_size_to_idx_lt s i hmap).1
  have hc0 := (class_count_le i hi).1
  obtain ⟨e1, e2, e3, e4, e5, e6, e7, e8, e9⟩ :=
    add_new_slab_spec env (critical_enter st) i hi hal hin
  simp only [critical_enter_page_log, critical_enter_slabs, critical_enter_mem] at e1 e2 e3 e6 e7 e8 e9
  obtain ⟨t1, t2, t3, t4, t5, t6, t7, t8, t9⟩ :=
    malloc_take_spec (add_new_slab env (critical_enter st) i).2 i
      (env.alloc_pages st.page_log 1) 0 e9 hc0
  have hmeq := malloc_new_eq env st s i hn hl hmap hok hf hal hin
  rw [t1] at hmeq
  generalize hPdef : env.alloc_pages st.page_log 1 = P at *
  refine ⟨critical_leave st.irq_enabled
      (malloc_take (add_new_slab env (critical_enter st) i).2 i P 1).2,
    ?_, ?_, ?_, ?_, rfl, ?_, ?_, ?_, ?_, t9⟩
  · rw [hmeq]
    simp
  · show (malloc_take (add_new_slab env (critical_enter st) i).2 i P 1).2.slabs = _
    rw [t2, e2]
  · show (malloc_take (add_new_slab env (critical_enter st) i).2 i P 1).2.page_log = _
    rw [t3, e3]
  · exact critical_leave_lock _ _ (critical_enter_lock st hl)
  · intro x hx
    show (malloc_take (add_new_slab env (critical_enter st) i).2 i P 1).2.mem.byte x = _
    rw [t6 x (by omega), e6 x (by omega)]
  · show read64 (malloc_take (add_new_slab env (critical_enter st) i).2 i P 1).2.mem _ = _
    rw [t7, e7]
    rfl
  · show read64 (malloc_take (add_new_slab env (critical_enter st) i).2 i P 1).2.mem _ = _
    rw [t8]
    congr 2
    exact read64_congr (fun x hx1 hx2 => e6 x (by omega))
  · show read64 (malloc_take (add_new_slab env (critical_enter st) i).2 i P 1).2.mem _ = _
    rw [← e8]
    exact read64_congr (fun x hx1 hx2 => t6 x (by omega))

/-- The call `malloc_usable_size` on a slot of a well-formed slab returns the
class size and leaves the state as it was. -/
theorem usable_size_slot (env : Env) (st : State) (i a k : Nat)
    (hn : env.int_nest_count = 0) (hl : st.malloc_lock = 0)
    (hok : SlabOK st.mem a i) (hk : k < class_count i) :
    malloc_usable_size env st (a + 64 + k * class_size i) = Outcome.ok (class_size i) st := by
  obtain ⟨hpo, hne, _⟩ := slot_page_of hok hk
  have hris : region_is_slab st.mem a = true := by
    have hs := class_size_pos i hok.2.2.1
    simp only [region_is_slab, hok.2.2.2.1, MAX_SLAB_SIZE, decide_eq_true_eq]
    exact hs.2
  rw [malloc_usable_size_eq env st _ hne hn hl, hpo, if_pos hris,
    validate_is_slab_eq_none.mpr hok.2.2.2.2.1, hok.2.2.2.1]

/-- The call `malloc_usable_size` on the data pointer of a page-backed region
returns the stored region size and leaves the state as it was. -/
theorem usable_size_region (env : Env) (st : State) (b v : Nat)
    (hn : env.int_nest_count = 0) (hl : st.malloc_lock = 0)
    (hb : b % PAGE_SIZE = 0) (hb2 : b + 16 < 2 ^ 64)
    (hrd : read32 st.mem (b + OFF_SLAB_SIZE) = v) (hv : 4032 < v) :
    malloc_usable_size env st (b + 16) = Outcome.ok v st := by
  have hpo : page_of (b + 16) = b := page_of_add b 16 hb (by omega) hb2
  have hris : ¬ region_is_slab st.mem b = true := by
    simp only [region_is_slab, hrd, MAX_SLAB_SIZE, decide_eq_true_eq]
    omega
  rw [malloc_usable_size_eq env st _ (by omega) hn hl, hpo, if_neg hris, hrd]

/-! ## The bump page source -/

theorem bump_init_pages_ok : InitPagesOK bump_env boot_state := by
  intro k hk
  interval_cases k <;> decide

theorem bump_init_log : (init_mm bump_env boot_state).page_log =
    [PageEvent.alloc 1 28672, PageEvent.alloc 1 24576, PageEvent.alloc 1 20480,
      PageEvent.alloc 1 16384, PageEvent.alloc 1 12288, PageEvent.alloc 1 8192,
      PageEvent.alloc 1 4096] := by decide

theorem bump_reach_init : Reach bump_env (init_mm bump_env boot_state) [] :=
  Reach.init boot_state (fun _ _ => rfl) rfl bump_init_pages_ok

theorem bump_source_ok_init : PageSourceOK bump_env (init_mm bump_env boot_state).page_log := by
  intro n h1 h2
  rw [bump_init_log]
  norm_num at h2
  refine ⟨by simp [bump_env], by simp [bump_env, PAGE_SIZE], by simp [bump_env, PAGE_SIZE]; omega, ?_⟩
  intro blk hblk
  simp only [live_blocks, List.mem_cons, List.mem_singleton, List.not_mem_nil, or_false] at hblk
  right
  rcases hblk with h | h | h | h | h | h | h <;> subst h <;> simp [bump_env, PAGE_SIZE]

theorem booted_full_facts :
    ∃ st_b, malloc bump_env booted_state 4032 = Outcome.ok 28736 st_b ∧
      booted_full_state = st_b ∧ st_b.slabs = booted_state.slabs ∧
      st_b.page_log = booted_state.page_log ∧ st_b.malloc_lock = 0 ∧
      (∀ x, 28672 + 64 ≤ x → st_b.mem.byte x = booted_state.mem.byte x) ∧
      read64 st_b.mem (28672 + 32) = 1 ∧ SlabOK st_b.mem 28672 6 := by
  have hI := reach_inv bump_env booted_state [] bump_reach_init
  have hok := inv_head_ok hI 6 (by decide)
  have hslab6 : booted_state.slabs 6 = 28672 := by decide
  have hf : builtin_ffsl (read64 booted_state.mem (booted_state.slabs 6 + 32) ^^^
      bitmap_mask 6) = 0 + 1 := by decide
  obtain ⟨st_b, hm1, hsl, hlog, hlock, _, _, _, _, hfr, hbm, _, hok1⟩ :=
    malloc_small_head bump_env booted_state 4032 6 0 rfl hI.1 (by decide) hok hf
  rw [hslab6] at hm1 hfr hbm hok1
  have hbm0 : read64 booted_state.mem (28672 + 32) = 0 := by decide
  refine ⟨st_b, hm1, ?_, hsl, hlog, hlock, fun x hx => hfr x (by omega), ?_, hok1⟩
  · unfold booted_full_state
    rw [hm1]
    rfl
  · rw [hbm, hbm0]; decide

/-! ## The fatal branches of `free` -/

/-- The three `koops` branches of the slab part of `free`. -/
theorem free_slab_fatal (st : State) (p slab : Nat)
    (hv : validate_is_slab st.mem slab = none) :
    (p - slab < 64 → free_slab st p slab = Outcome.fatal Fatal.free_offset st) ∧
    (64 ≤ p - slab → 0 < read32 st.mem (slab + OFF_SLAB_SIZE) →
      (p - slab - 64) % read32 st.mem (slab + OFF_SLAB_SIZE) ≠ 0 →
      free_slab st p slab = Outcome.fatal Fatal.free_boundary st) ∧
    (64 ≤ p - slab → 0 < read32 st.mem (slab + OFF_SLAB_SIZE) →
      (p - slab - 64) % read32 st.mem (slab + OFF_SLAB_SIZE) = 0 →
      free_bit_idx (p - slab) (read32 st.mem (slab + OFF_SLAB_SIZE)) < 64 →
      (read64 st.mem (slab + OFF_BM0)).testBit
        (free_bit_idx (p - slab) (read32 st.mem (slab + OFF_SLAB_SIZE))) = false →
      free_slab st p slab = Outcome.fatal Fatal.not_allocated st) := by
  refine ⟨?_, ?_, ?_⟩
  · intro h
    unfold free_slab
    simp only [hv]
    rw [if_pos h]
  · intro h1 h2 h3
    unfold free_slab
    simp only [hv]
    rw [if_neg (by omega), if_neg (by omega), if_pos h3]
  · intro h1 h2 h3 h4 h5
    unfold free_slab
    simp only [hv]
    rw [if_neg (by omega), if_neg (by omega), if_neg (by simpa using h3), if_neg (by omega),
      one_shiftLeft_mod _ h4, if_neg]
    intro hne
    rw [(and_bit_ne_zero_iff _ _).mp hne] at h5
    exact absurd h5 (by decide)

/-- What a successful slab `free` went through, and the memory it leaves. -/
theorem free_slab_ok_inv (st : State) (p slab : Nat) (s1 : State)
    (h : free_slab st p slab = Outcome.ok () s1) :
    HeaderOK st.mem slab ∧ 64 ≤ p - slab ∧ 0 < read32 st.mem (slab + OFF_SLAB_SIZE) ∧
      free_bit_idx (p - slab) (read32 st.mem (slab + OFF_SLAB_SIZE)) < 64 ∧
      s1.malloc_lock = st.malloc_lock ∧ s1.slabs = st.slabs ∧ s1.page_log = st.page_log ∧
      s1.mem = update_checksum (memset (write64 (write64 st.mem (slab + 32)
        (read64 st.mem (slab + 32) &&& not64 (2 ^ free_bit_idx (p - slab)
          (read32 st.mem (slab + OFF_SLAB_SIZE))))) (slab + 24)
        ((read64 (write64 st.mem (slab + 32)
          (read64 st.mem (slab + 32) &&& not64 (2 ^ free_bit_idx (p - slab)
            (read32 st.mem (slab + OFF_SLAB_SIZE))))) (slab + 24) + 1) % 2 ^ 64))
        p 0xAA (read32 st.mem (slab + OFF_SLAB_SIZE))) slab := by
  unfold free_slab at h
  cases hv : validate_is_slab st.mem slab with
  | some e => rw [hv] at h; cases h
  | none =>
    rw [hv] at h
    simp only at h
    by_cases h1 : p - slab < 64
    · rw [if_pos h1] at h; cases h
    · rw [if_neg h1] at h
      by_cases h2 : read32 st.mem (slab + OFF_SLAB_SIZE) = 0
      · rw [if_pos h2] at h; cases h
      · rw [if_neg h2] at h
        by_cases h3 : (p - slab - 64) % read32 st.mem (slab + OFF_SLAB_SIZE) ≠ 0
        · rw [if_pos h3] at h; cases h
        · rw [if_neg h3] at h
          by_cases h4 : 64 ≤ free_bit_idx (p - slab) (read32 st.mem (slab + OFF_SLAB_SIZE))
          · rw [if_pos h4] at h; cases h
          · rw [if_neg h4] at h
            rw [one_shiftLeft_mod _ (by omega)] at h
            split_ifs at h with h5
            injection h with _ hs
            subst hs
            refine ⟨validate_is_slab_eq_none.mp hv, by omega, by omega, by omega, rfl, rfl, rfl,
              ?_⟩
            simp only [OFF_BM0, OFF_FREE_CNT, OFF_SLAB_SIZE, Nat.add_zero]
            rw [read32_write64_ne _ _ _ _ (by omega), read32_write64_ne _ _ _ _ (by omega)]

/-- After a successful slab `free` of `p` the header still validates, holds the
same `slab_size`, and the bit of `p` is clear. -/
theorem free_slab_ok_after (st : State) (p slab : Nat) (s1 : State) (hle : slab ≤ p)
    (h : free_slab st p slab = Outcome.ok () s1) :
    HeaderOK s1.mem slab ∧
      read32 s1.mem (slab + OFF_SLAB_SIZE) = read32 st.mem (slab + OFF_SLAB_SIZE) ∧
      (read64 s1.mem (slab + OFF_BM0)).testBit
        (free_bit_idx (p - slab) (read32 st.mem (slab + OFF_SLAB_SIZE))) = false := by
  obtain ⟨hok, h1, h2, h3, _, _, _, hm⟩ := free_slab_ok_inv st p slab s1 h
  have hbm64 : read64 st.mem (slab + 32) < 2 ^ 64 := by
    have := read64_lt st.mem (slab + 32); norm_num; omega
  rw [hm]
  refine ⟨?_, ?_, ?_⟩
  · apply HeaderOK_update_checksum
    simp only [OFF_SIGNATURE]
    rw [strcmp_memset_ne _ _ _ _ _ (by omega), strcmp_write64_ne _ _ _ _ (by omega),
      strcmp_write64_ne _ _ _ _ (by omega)]
    exact hok.1
  · simp only [OFF_SLAB_SIZE, Nat.add_zero]
    rw [read32_update_checksum_ne _ _ _ (by omega), read32_memset_ne _ _ _ _ _ (by omega),
      read32_write64_ne _ _ _ _ (by omega), read32_write64_ne _ _ _ _ (by omega)]
  · simp only [OFF_BM0]
    rw [read64_update_checksum_ne _ _ _ (by omega), read64_memset_ne _ _ _ _ _ (by omega),
      read64_write64_ne _ _ _ _ (by omega), read64_write64_same,
      Nat.mod_eq_of_lt (by
        have := and_not_bit_lt (read64 st.mem (slab + 32))
          (free_bit_idx (p - slab) (read32 st.mem (slab + OFF_SLAB_SIZE))) 64 hbm64
        norm_num at this ⊢; exact this),
      testBit_and_not_bit _ _ _ hbm64]
    simp

/-- A `koops` in the slab part of `free` is a `koops` of `free`, with memory,
list heads and page log as they were at the call. -/
theorem free_fatal_of_slab (env : Env) (st : State) (p : Nat) (e : Fatal) (hp : p ≠ 0)
    (hslab : region_is_slab st.mem (page_of p) = true)
    (h : free_slab (critical_enter st) p (page_of p) = Outcome.fatal e (critical_enter st)) :
    ∃ e' st', free env st p = Outcome.fatal e' st' ∧ st'.mem = st.mem ∧
      st'.slabs = st.slabs ∧ st'.page_log = st.page_log := by
  unfold free
  rw [if_neg hp]
  by_cases hn : env.int_nest_count > 0
  · rw [if_pos hn]
    exact ⟨_, _, rfl, rfl, rfl, rfl⟩
  · rw [if_neg hn]
    by_cases hl : (atomic_fetch_add_lock (local_irq_save st).2).1 ≠ 0
    · simp only [hl, ne_eq, not_false_eq_true, if_true]
      exact ⟨_, _, rfl, rfl, rfl, rfl⟩
    · simp only [hl, ne_eq, if_false]
      have hs : region_is_slab (atomic_fetch_add_lock (local_irq_save st).2).2.mem (page_of p)
          = true := hslab
      have hf : free_slab (atomic_fetch_add_lock (local_irq_save st).2).2 p (page_of p) =
          Outcome.fatal e (critical_enter st) := h
      simp only [hs, hf]
      exact ⟨_, _, rfl, rfl, rfl, rfl⟩

/-! ## Detection of header corruption -/

theorem read64_bytes_inj {m m' : Mem} {a : Nat} (h : read64 m a = read64 m' a) :
    ∀ t, t < 8 → read8 m (a + t) = read8 m' (a + t) := by
  unfold read64 read32 at h
  simp only [Nat.add_assoc, Nat.reduceAdd] at h
  have b0 := read8_lt m a
  have b1 := read8_lt m (a + 1)
  have b2 := read8_lt m (a + 2)
  have b3 := read8_lt m (a + 3)
  have b4 := read8_lt m (a + 4)
  have b5 := read8_lt m (a + 5)
  have b6 := read8_lt m (a + 6)
  have b7 := read8_lt m (a + 7)
  have c0 := read8_lt m' a
  have c1 := read8_lt m' (a + 1)
  have c2 := read8_lt m' (a + 2)
  have c3 := read8_lt m' (a + 3)
  have c4 := read8_lt m' (a + 4)
  have c5 := read8_lt m' (a + 5)
  have c6 := read8_lt m' (a + 6)
  have c7 := read8_lt m' (a + 7)
  intro t ht
  interval_cases t
  · show read8 m a = read8 m' a
    omega
  all_goals omega

theorem flip_bit_byte_ne (m : Mem) (addr k x : Nat) (h : x ≠ addr) :
    (flip_bit m addr k).byte x = m.byte x := by
  show (if x = addr then _ else _) = _
  rw [if_neg h]

theorem flip_bit_read8 (m : Mem) (addr k : Nat) (hk : k < 8) :
    read8 (flip_bit m addr k) addr ≠ read8 m addr := by
  unfold read8
  show (if addr = addr then (m.byte addr % 256) ^^^ 2 ^ k else _) % 256 ≠ _
  rw [if_pos rfl]
  have h1 : m.byte addr % 256 < 2 ^ 8 := by norm_num; omega
  have h2 : 2 ^ k < 2 ^ 8 := Nat.pow_lt_pow_right (by norm_num) hk
  have h3 := Nat.xor_lt_two_pow h1 h2
  rw [Nat.mod_eq_of_lt (by norm_num at h3 ⊢; exact h3)]
  intro h
  have h4 : m.byte addr % 256 ^^^ 2 ^ k = m.byte addr % 256 ^^^ 0 := by
    rw [h, Nat.xor_zero]
  have h5 := Nat.xor_right_inj.mp h4
  have : 0 < 2 ^ k := Nat.pos_pow_of_pos _ (by norm_num)
  omega

/-- The checksum changes when exactly one of the seven words changes. -/
theorem checksum_word_change (m m' : Mem) (a w : Nat) (hw : w < 7)
    (hne : read64 m' (a + 8 * w) ≠ read64 m (a + 8 * w))
    (hsame : ∀ v, v < 7 → v ≠ w → read64 m' (a + 8 * v) = read64 m (a + 8 * v)) :
    compute_checksum m' a ≠ compute_checksum m a := by
  rw [compute_checksum_eq, compute_checksum_eq]
  have e0 : 0 ≠ w → read64 m' (a + 0) = read64 m (a + 0) := fun h => hsame 0 (by omega) h
  have e1 : 1 ≠ w → read64 m' (a + 8) = read64 m (a + 8) := fun h => hsame 1 (by omega) h
  have e2 : 2 ≠ w → read64 m' (a + 16) = read64 m (a + 16) := fun h => hsame 2 (by omega) h
  have e3 : 3 ≠ w → read64 m' (a + 24) = read64 m (a + 24) := fun h => hsame 3 (by omega) h
  have e4 : 4 ≠ w → read64 m' (a + 32) = read64 m (a + 32) := fun h => hsame 4 (by omega) h
  have e5 : 5 ≠ w → read64 m' (a + 40) = read64 m (a + 40) := fun h => hsame 5 (by omega) h
  have e6 : 6 ≠ w → read64 m' (a + 48) = read64 m (a + 48) := fun h => hsame 6 (by omega) h
  intro h
  interval_cases w
  · rw [e1 (by omega), e2 (by omega), e3 (by omega), e4 (by omega), e5 (by omega),
      e6 (by omega)] at h
    simp only [Nat.xor_left_inj, Nat.xor_right_inj] at h
    exact hne h
  · rw [e0 (by omega), e2 (by omega), e3 (by omega), e4 (by omega), e5 (by omega),
      e6 (by omega)] at h
    simp only [Nat.xor_left_inj, Nat.xor_right_inj] at h
    exact hne h
  · rw [e0 (by omega), e1 (by omega), e3 (by omega), e4 (by omega), e5 (by omega),
      e6 (by omega)] at h
    simp only [Nat.xor_left_inj, Nat.xor_right_inj] at h
    exact hne h
  · rw [e0 (by omega), e1 (by omega), e2 (by omega), e4 (by omega), e5 (by omega),
      e6 (by omega)] at h
    simp only [Nat.xor_left_inj, Nat.xor_right_inj] at h
    exact hne h
  · rw [e0 (by omega), e1 (by omega), e2 (by omega), e3 (by omega), e5 (by omega),
      e6 (by omega)] at h
    simp only [Nat.xor_left_inj, Nat.xor_right_inj] at h
    exact hne h
  · rw [e0 (by omega), e1 (by omega), e2 (by omega), e3 (by omega), e4 (by omega),
      e6 (by omega)] at h
    simp only [Nat.xor_left_inj, Nat.xor_right_inj] at h
    exact hne h
  · rw [e0 (by omega), e1 (by omega), e2 (by omega), e3 (by omega), e4 (by omega),
      e5 (by omega)] at h
    simp only [Nat.xor_left_inj, Nat.xor_right_inj] at h
    exact hne h

/-- A corrupted header does not validate. -/
theorem corrupted_not_valid (m m' : Mem) (a : Nat) (hok : HeaderOK m a)
    (hc : HeaderCorrupted m m' a) : validate_is_slab m' a ≠ none := by
  intro hv
  have hok' := validate_is_slab_eq_none.mp hv
  have hcs : compute_checksum m' a = compute_checksum m a → False := by
    rcases hc with ⟨j, k, hj, hk, hm⟩ | ⟨hfr, hne⟩
    · apply checksum_word_change m m' a (j / 8) (by omega)
      · intro h
        have := read64_bytes_inj h (j % 8) (Nat.mod_lt _ (by norm_num))
        have e : a + 8 * (j / 8) + j % 8 = a + j := by omega
        rw [e, hm] at this
        exact flip_bit_read8 m (a + j) k hk this
      · intro v hv hvw
        rw [hm]
        exact read64_congr (fun x hx1 hx2 => flip_bit_byte_ne m _ k x (by omega))
    · apply checksum_word_change m m' a 6 (by omega)
      · exact hne
      · intro v hv hvw
        exact read64_congr (fun x hx1 hx2 => hfr x (by simp only [OFF_SIGNATURE]; omega))
  have hstored : read64 m' (a + OFF_CHECKSUM) = read64 m (a + OFF_CHECKSUM) := by
    rcases hc with ⟨j, k, hj, hk, hm⟩ | ⟨hfr, hne⟩
    · rw [hm]
      exact read64_congr (fun x hx1 hx2 => flip_bit_byte_ne m _ k x (by
        simp only [OFF_CHECKSUM] at hx1; omega))
    · exact read64_congr (fun x hx1 hx2 => hfr x (Or.inr hx1))
  apply hcs
  rw [hok'.2, hstored, hok.2]

theorem malloc_fatal_of_invalid (env : Env) (st : State) (s i : Nat)
    (hmap : map_size_to_idx s = some i)
    (hv : validate_is_slab st.mem (st.slabs i) ≠ none) :
    ∃ e st', malloc env st s = Outcome.fatal e st' := by
  have hs := (map_size_to_idx_lt s i hmap).2
  have hU : UINT32_MAX = 4294967295 := rfl
  unfold malloc
  rw [if_neg (by decide)]
  by_cases hn : env.int_nest_count > 0
  · rw [if_pos hn]; exact ⟨_, _, rfl⟩
  · rw [if_neg hn, if_neg (by simp only [sizeof_malloc_region]; omega)]
    by_cases hl : (atomic_fetch_add_lock (local_irq_save st).2).1 ≠ 0
    · simp only [hl, ne_eq, not_false_eq_true, if_true]; exact ⟨_, _, rfl⟩
    · simp only [hl, ne_eq, if_false]
      rw [if_neg (by simp only [MAX_SLAB_SIZE]; omega)]
      cases hve : validate_is_slab st.mem (st.slabs i) with
      | none => exact absurd hve hv
      | some e =>
        have : malloc_slab env (atomic_fetch_add_lock (local_irq_save st).2).2 s =
            Outcome.fatal e (atomic_fetch_add_lock (local_irq_save st).2).2 := by
          unfold malloc_slab
          simp only [hmap]
          have hve' : validate_is_slab (atomic_fetch_add_lock (local_irq_save st).2).2.mem
            ((atomic_fetch_add_lock (local_irq_save st).2).2.slabs i) = some e := hve
          simp only [hve']
        rw [this]
        exact ⟨_, _, rfl⟩

theorem free_fatal_of_invalid (env : Env) (st : State) (p : Nat) (hp : p ≠ 0)
    (hslab : region_is_slab st.mem (page_of p) = true)
    (hv : validate_is_slab st.mem (page_of p) ≠ none) :
    ∃ e st', free env st p = Outcome.fatal e st' := by
  cases hve : validate_is_slab st.mem (page_of p) with
  | none => exact absurd hve hv
  | some e =>
    have : free_slab (critical_enter st) p (page_of p) = Outcome.fatal e (critical_enter st) := by
      unfold free_slab
      have hve' : validate_is_slab (critical_enter st).mem (page_of p) = some e := hve
      simp only [hve']
    obtain ⟨e', st', h, _⟩ := free_fatal_of_slab env st p e hp hslab this
    exact ⟨e', st', h⟩

theorem usable_size_fatal_of_invalid (env : Env) (st : State) (p : Nat) (hp : p ≠ 0)
    (hslab : region_is_slab st.mem (page_of p) = true)
    (hv : validate_is_slab st.mem (page_of p) ≠ none) :
    ∃ e st', malloc_usable_size env st p = Outcome.fatal e st' := by
  unfold malloc_usable_size
  by_cases hn : env.int_nest_count > 0
  · rw [if_pos hn]; exact ⟨_, _, rfl⟩
  · rw [if_neg hn, if_neg hp]
    by_cases hl : (atomic_fetch_add_lock (local_irq_save st).2).1 ≠ 0
    · simp only [hl, ne_eq, not_false_eq_true, if_true]; exact ⟨_, _, rfl⟩
    · simp only [hl, ne_eq, if_false]
      have hs : region_is_slab (atomic_fetch_add_lock (local_irq_save st).2).2.mem (page_of p)
          = true := hslab
      cases hve : validate_is_slab st.mem (page_of p) with
      | none => exact absurd hve hv
      | some e =>
        have hve' : validate_is_slab (atomic_fetch_add_lock (local_irq_save st).2).2.mem
            (page_of p) = some e := hve
        simp only [hs, hve', if_true]
        exact ⟨_, _, rfl⟩

/-! ## Filling a slab -/

theorem builtin_ffsl_eq (x k : Nat) (hk : k < 64) (hb : x.testBit k = true)
    (hlow : ∀ j, j < k → x.testBit j = false) : builtin_ffsl x = k + 1 := by
  cases h : builtin_ffsl x with
  | zero =>
    have := (builtin_ffsl_zero_iff x).mp h k hk
    rw [hb] at this
    exact absurd this (by decide)
  | succ k' =>
    obtain ⟨_, h2, h3⟩ := builtin_ffsl_succ x k' h
    have : k' = k := by
      rcases Nat.lt_trichotomy k' k with hlt | heq | hgt
      · have := hlow k' hlt
        rw [h2] at this
        exact absurd this (by decide)
      · exact heq
      · have := h3 k hgt
        rw [hb] at this
        exact absurd this (by decide)
    rw [this]

/-- In a slab whose first `k` slots are taken and no other, `malloc` finds slot
`k`, or nothing when `k` is the slot count. -/
theorem ffsl_filled (i k : Nat) (hi : i < 7) (hk : k ≤ class_count i) :
    builtin_ffsl ((2 ^ k - 1) ^^^ bitmap_mask i) = if k = class_count i then 0 else k + 1 := by
  have hc := class_count_le i hi
  have hlt : 2 ^ k - 1 < 2 ^ class_count i := by
    have h1 : 2 ^ k ≤ 2 ^ class_count i := Nat.pow_le_pow_right (by norm_num) hk
    have h2 : 0 < 2 ^ k := Nat.pos_pow_of_pos _ (by norm_num)
    omega
  have hbit : ∀ j, ((2 ^ k - 1) ^^^ bitmap_mask i).testBit j =
      (decide (j < class_count i) && !decide (j < k)) := by
    intro j
    rw [free_bits_testBit i _ j hi hlt, Nat.testBit_two_pow_sub_one]
  by_cases e : k = class_count i
  · rw [if_pos e, builtin_ffsl_zero_iff]
    intro j _
    rw [hbit]
    by_cases hj : j < k
    · simp [hj]
    · have : ¬ j < class_count i := by omega
      simp [this]
  · rw [if_neg e]
    apply builtin_ffsl_eq _ k (by omega)
    · rw [hbit]
      have : k < class_count i := by omega
      simp [this]
    · intro j hj
      rw [hbit]
      simp [hj]

theorem filled_succ (k : Nat) : (2 ^ k - 1) ||| 2 ^ k = 2 ^ (k + 1) - 1 := by
  apply Nat.eq_of_testBit_eq
  intro j
  rw [testBit_or_bit, Nat.testBit_two_pow_sub_one, Nat.testBit_two_pow_sub_one]
  by_cases h1 : j < k
  · have : j < k + 1 := by omega
    have : ¬ k = j := by omega
    simp [*]
  · by_cases h2 : k = j
    · subst h2; simp
    · have : ¬ j < k + 1 := by omega
      simp [*]

theorem malloc_seq_nil (env : Env) (st : State) : malloc_seq env st [] = Outcome.ok [] st := rfl

theorem malloc_seq_cons (env : Env) (st : State) (s : Nat) (rest : List Nat) (p : Nat)
    (s1 : State) (ps : List Nat) (s2 : State) (h1 : malloc env st s = Outcome.ok p s1)
    (h2 : malloc_seq env s1 rest = Outcome.ok ps s2) :
    malloc_seq env st (s :: rest) = Outcome.ok (p :: ps) s2 := by
  show (match malloc env st s with
    | Outcome.undefined => Outcome.undefined
    | Outcome.fatal e s1 => Outcome.fatal e s1
    | Outcome.ok p s1 =>
      match malloc_seq env s1 rest with
      | Outcome.undefined => Outcome.undefined
      | Outcome.fatal e s2 => Outcome.fatal e s2
      | Outcome.ok ps s2 => Outcome.ok (p :: ps) s2) = _
  rw [h1]
  simp only [h2]

theorem malloc_seq_append (env : Env) : ∀ (l1 : List Nat) (st : State) (l2 : List Nat)
    (ps1 : List Nat) (s1 : State) (ps2 : List Nat) (s2 : State),
    malloc_seq env st l1 = Outcome.ok ps1 s1 → malloc_seq env s1 l2 = Outcome.ok ps2 s2 →
    malloc_seq env st (l1 ++ l2) = Outcome.ok (ps1 ++ ps2) s2
  | [], st, l2, ps1, s1, ps2, s2, h1, h2 => by
    rw [malloc_seq_nil] at h1
    injection h1 with e1 e2
    subst e1 e2
    exact h2
  | s :: rest, st, l2, ps1, s1, ps2, s2, h1, h2 => by
    have hs : malloc_seq env st (s :: rest) = (match malloc env st s with
      | Outcome.undefined => Outcome.undefined
      | Outcome.fatal e s1 => Outcome.fatal e s1
      | Outcome.ok p s1 =>
        match malloc_seq env s1 rest with
        | Outcome.undefined => Outcome.undefined
        | Outcome.fatal e s2 => Outcome.fatal e s2
        | Outcome.ok ps s2 => Outcome.ok (p :: ps) s2) := rfl
    rw [hs] at h1
    cases hm : malloc env st s with
    | undefined => rw [hm] at h1; cases h1
    | fatal e s' => rw [hm] at h1; cases h1
    | ok p s' =>
      rw [hm] at h1
      simp only at h1
      cases hr : malloc_seq env s' rest with
      | undefined => rw [hr] at h1; cases h1
      | fatal e s'' => rw [hr] at h1; cases h1
      | ok ps s'' =>
        rw [hr] at h1
        injection h1 with e1 e2
        subst e1 e2
        have := malloc_seq_append env rest s' l2 ps s'' ps2 s2 hr h2
        exact malloc_seq_cons env st s (rest ++ l2) p s' (ps ++ ps2) s2 hm this

/-- Consecutive `malloc` calls of one class on a head slab whose first `k` slots
are taken fill the next slots in order, without touching the page source. -/
theorem fill_slab (env : Env) (i a : Nat) (hn : env.int_nest_count = 0) :
    ∀ (sizes : List Nat) (st : State) (k : Nat),
    (∀ s, s ∈ sizes → map_size_to_idx s = some i) →
    k + sizes.length ≤ class_count i → st.malloc_lock = 0 → st.slabs i = a →
    SlabOK st.mem a i → read64 st.mem (a + 32) = 2 ^ k - 1 →
    ∃ st', malloc_seq env st sizes =
        Outcome.ok ((List.range sizes.length).map (fun j => a + 64 + (k + j) * class_size i))
          st' ∧
      st'.malloc_lock = 0 ∧ st'.slabs = st.slabs ∧ st'.page_log = st.page_log ∧
      SlabOK st'.mem a i ∧ read64 st'.mem (a + 32) = 2 ^ (k + sizes.length) - 1 ∧
      (∀ x, x < a ∨ a + 64 ≤ x → st'.mem.byte x = st.mem.byte x)
  | [], st, k, _, _, hl, _, hok, hbm => ⟨st, rfl, hl, rfl, rfl, hok, hbm, fun _ _ => rfl⟩
  | s :: rest, st, k, hmap, hlen, hl, hsl, hok, hbm => by
    have hmap_s := hmap s (List.mem_cons_self _ _)
    have hi := (map_size_to_idx_lt s i hmap_s).1
    simp only [List.length_cons] at hlen
    have hf : builtin_ffsl (read64 st.mem (st.slabs i + 32) ^^^ bitmap_mask i) = k + 1 := by
      rw [hsl, hbm, ffsl_filled i k hi (by omega), if_neg (by omega)]
    obtain ⟨st1, hm, hsl1, hlog1, hlock1, _, _, _, _, hfr1, hbm1, _, hok1⟩ :=
      malloc_small_head env st s i k hn hl hmap_s (by rw [hsl]; exact hok) hf
    rw [hsl] at hm hfr1 hbm1 hok1
    rw [hbm, filled_succ] at hbm1
    obtain ⟨st', hseq, hl', hsl', hlog', hok', hbm', hfr'⟩ :=
      fill_slab env i a hn rest st1 (k + 1)
        (fun t ht => hmap t (List.mem_cons_of_mem _ ht)) (by omega) hlock1
        (by rw [hsl1]; exact hsl) hok1 hbm1
    refine ⟨st', ?_, hl', by rw [hsl', hsl1], by rw [hlog', hlog1], hok', ?_, ?_⟩
    · rw [malloc_seq_cons env st s rest _ st1 _ st' hm hseq]
      simp only [List.length_cons, List.range_succ_eq_map, List.map_cons, List.map_map,
        Nat.add_zero]
      congr 2
      apply List.map_congr_left
      intro j _
      simp only [Function.comp_apply]
      congr 2
      omega
    · rw [hbm']
      simp only [List.length_cons]
      congr 2
      omega
    · intro x hx
      rw [hfr' x hx, hfr1 x (by omega)]

/-- After `init_mm` the head slab of every class is well-formed, still held
from the page source, and empty. -/
theorem init_heads (env : Env) (s0 : State) (hslabs : ∀ i, i < 7 → s0.slabs i = 0)
    (hlog : s0.page_log = []) (hsrc : InitPagesOK env s0) :
    ∀ k, k ≤ 7 → ∀ i, i < k →
      SlabOK (init_mm_upto env s0 k).mem ((init_mm_upto env s0 k).slabs i) i ∧
      ((init_mm_upto env s0 k).slabs i, 1) ∈ live_blocks (init_mm_upto env s0 k).page_log ∧
      read64 (init_mm_upto env s0 k).mem ((init_mm_upto env s0 k).slabs i + 32) = 0 := by
  intro k
  induction k with
  | zero => intro _ i hi; omega
  | succ k ih =>
    intro hk i hi
    obtain ⟨_, chains, hPI, hne⟩ := init_mm_upto_inv env s0 hslabs hlog hsrc k (by omega)
    have hfresh := hsrc k (by omega)
    have hal := hfresh.2.1
    have hin : env.alloc_pages (init_mm_upto env s0 k).page_log 1 + PAGE_SIZE ≤ 2 ^ 64 := by
      have := hfresh.2.2.1; omega
    obtain ⟨e1, e2, e3, e4, e5, e6, e7, e8, e9⟩ :=
      add_new_slab_spec env (init_mm_upto env s0 k) k (by omega) hal hin
    rw [init_mm_upto_succ, e2, e3, live_blocks_alloc]
    by_cases e : i = k
    · subst e
      rw [Function.update_same]
      exact ⟨e9, List.mem_cons_self _ _, e7⟩
    · rw [Function.update_noteq e]
      obtain ⟨h1, h2, h3⟩ := ih (by omega) i (by omega)
      have hd := hfresh.2.2.2 _ h2
      simp only [PAGE_SIZE] at hd
      refine ⟨SlabOK_congr (fun x hx1 hx2 => e6 x (by omega)) h1, List.mem_cons_of_mem _ h2, ?_⟩
      rw [← h3]
      exact read64_congr (fun x hx1 hx2 => e6 x (by omega))

/-! ## The cases of a `malloc` that returns -/

/-- The three ways in which a `malloc` returns from a state that satisfies the
invariant: page-backed, served by the head slab, or served by a new slab. -/
theorem malloc_cases (env : Env) (st : State) (L : List Nat) (s p : Nat) (st' : State)
    (hI : Inv st L) (hsrc : PageSourceOK env st.page_log)
    (hcall : malloc env st s = Outcome.ok p st') :
    (4032 < s ∧ s ≤ UINT32_MAX - 16 ∧
      FreshBlock st.page_log (env.alloc_pages st.page_log ((16 + s + 4095) / 4096))
        ((16 + s + 4095) / 4096) ∧
      0 < (16 + s + 4095) / 4096 ∧ (16 + s + 4095) / 4096 ≤ 2 ^ 20 ∧
      p = env.alloc_pages st.page_log ((16 + s + 4095) / 4096) + 16 ∧
      st'.page_log = PageEvent.alloc ((16 + s + 4095) / 4096)
        (env.alloc_pages st.page_log ((16 + s + 4095) / 4096)) :: st.page_log ∧
      st'.mem = write32 st.mem (env.alloc_pages st.page_log ((16 + s + 4095) / 4096))
        ((16 + s + 4095) / 4096 * 4096 - 16) ∧
      st'.slabs = st.slabs) ∨
    (∃ i k, map_size_to_idx s = some i ∧ i < 7 ∧ SlabOK st.mem (st.slabs i) i ∧
      builtin_ffsl (read64 st.mem (st.slabs i + 32) ^^^ bitmap_mask i) = k + 1 ∧
      p = st.slabs i + 64 + k * class_size i ∧
      st'.slabs = st.slabs ∧ st'.page_log = st.page_log ∧
      k < class_count i ∧ (read64 st.mem (st.slabs i + 32)).testBit k = false ∧
      (∀ j, j < k → (read64 st.mem (st.slabs i + 32)).testBit j = true) ∧
      (∀ x, x < st.slabs i + 16 ∨ (st.slabs i + 24 ≤ x ∧ x < st.slabs i + 32) ∨
          (st.slabs i + 40 ≤ x ∧ x < st.slabs i + 56) ∨ st.slabs i + 64 ≤ x →
        st'.mem.byte x = st.mem.byte x) ∧
      read64 st'.mem (st.slabs i + 32) = read64 st.mem (st.slabs i + 32) ||| 2 ^ k ∧
      read64 st'.mem (st.slabs i + 16) = (read64 st.mem (st.slabs i + 16) + 1) % 2 ^ 64 ∧
      SlabOK st'.mem (st.slabs i) i) ∨
    (∃ i, map_size_to_idx s = some i ∧ i < 7 ∧ SlabOK st.mem (st.slabs i) i ∧
      builtin_ffsl (read64 st.mem (st.slabs i + 32) ^^^ bitmap_mask i) = 0 ∧
      FreshBlock st.page_log (env.alloc_pages st.page_log 1) 1 ∧
      p = env.alloc_pages st.page_log 1 + 64 ∧
      st'.slabs = Function.update st.slabs i (env.alloc_pages st.page_log 1) ∧
      st'.page_log = PageEvent.alloc 1 (env.alloc_pages st.page_log 1) :: st.page_log ∧
      (∀ x, x < env.alloc_pages st.page_log 1 ∨
          (env.alloc_pages st.page_log 1 + 24 ≤ x ∧ x < env.alloc_pages st.page_log 1 + 32) ∨
          env.alloc_pages st.page_log 1 + 64 ≤ x →
        st'.mem.byte x = st.mem.byte x) ∧
      read64 st'.mem (env.alloc_pages st.page_log 1 + 32) = 1 ∧
      read64 st'.mem (env.alloc_pages st.page_log 1 + 8) = st.slabs i % 2 ^ 64 ∧
      SlabOK st'.mem (env.alloc_pages st.page_log 1) i) := by
  have hl := hI.1
  obtain ⟨hn, hs, _⟩ := malloc_ok_inv env st s p st' hcall
  have hU : UINT32_MAX = 4294967295 := rfl
  by_cases h1 : 4032 < s
  · left
    obtain ⟨st1, hm, hlog, hmem, hslabs, _, _⟩ := malloc_large_spec env st s hn hl h1 hs
    rw [hm] at hcall
    injection hcall with hp hst
    subst hp hst
    have hn0 : 0 < (16 + s + 4095) / 4096 := by omega
    have hn1 : (16 + s + 4095) / 4096 ≤ 2 ^ 20 := by norm_num; omega
    exact ⟨h1, hs, hsrc _ hn0 hn1, hn0, hn1, rfl, hlog, hmem, hslabs⟩
  · right
    obtain ⟨i, hmap⟩ := map_size_to_idx_some s (by omega)
    have hi := (map_size_to_idx_lt s i hmap).1
    have hok := inv_head_ok hI i hi
    cases hf : builtin_ffsl (read64 st.mem (st.slabs i + 32) ^^^ bitmap_mask i) with
    | succ k =>
      left
      obtain ⟨st1, hm, a1, a2, _, _, a5, a6, a7, a8, a9, a10, a11⟩ :=
        malloc_small_head env st s i k hn hl hmap hok hf
      rw [hm] at hcall
      injection hcall with hp hst
      subst hp hst
      exact ⟨i, k, hmap, hi, hok, hf, rfl, a1, a2, a5, a6, a7, a8, a9, a10, a11⟩
    | zero =>
      right
      have hfresh := hsrc 1 (by omega) (by norm_num)
      obtain ⟨st1, hm, a1, a2, _, _, a5, a6, _, a8, a9⟩ :=
        malloc_small_new env st s i hn hl hmap hok hf hfresh.2.1
          (by have := hfresh.2.2.1; omega)
      rw [hm] at hcall
      injection hcall with hp hst
      subst hp hst
      exact ⟨i, hmap, hi, hok, hf, hfresh, rfl, a1, a2, a5, a6, a8, a9⟩

/-- The bitmap word of the slab that `add_new_slab` returns is 0, whatever page
the page source answered with. -/
theorem add_new_slab_bm (env : Env) (st : State) (i : Nat) :
    read64 (add_new_slab env st i).2.mem ((add_new_slab env st i).1 + OFF_BM0) = 0 := by
  simp only [add_new_slab, alloc_pages, OFF_SLAB_SIZE, OFF_LOCK, OFF_BM0, OFF_BM1,
    OFF_SIGNATURE, OFF_NEXT]
  rw [read64_update_checksum_ne _ _ _ (by omega), read64_write64_ne _ _ _ _ (by omega),
    read64_strcpy_ne _ _ _ (by omega), read64_write64_ne _ _ _ _ (by omega),
    read64_write64_same]

theorem malloc_slab_err (env : Env) (st : State) (s : Nat) (hs : s ≤ 4032) :
    (malloc_slab env st s).err? ≠ some Fatal.bad_size ∧
      (malloc_slab env st s).err? ≠ some Fatal.new_slab_full := by
  obtain ⟨i, hmap⟩ := map_size_to_idx_some s hs
  have hi := (map_size_to_idx_lt s i hmap).1
  unfold malloc_slab
  simp only [hmap]
  cases hv : validate_is_slab st.mem (st.slabs i) with
  | some e =>
    simp only [Outcome.err?]
    unfold validate_is_slab at hv
    split_ifs at hv <;> injection hv with hv <;> subst hv <;> simp
  | none =>
    simp only
    split_ifs with h1 h2
    · rw [add_new_slab_bm, ffsl_new_slab i hi] at h2
      omega
    · simp [Outcome.err?]
    · simp [Outcome.err?]

theorem slab_list_null (m : Mem) (fuel : Nat) : slab_list m fuel 0 = [] := by
  cases fuel <;> simp [slab_list]

/-- Following `next` from the first page of a linked chain of non-null pages
walks exactly the chain. -/
theorem slab_list_linked (m : Mem) (l : List Nat) (hl : Linked m l)
    (hnz : ∀ a, a ∈ l → a ≠ 0) (fuel : Nat) :
    slab_list m fuel (l.headD 0) = l.take fuel := by
  induction l generalizing fuel with
  | nil => simp [slab_list_null]
  | cons a rest ih =>
    cases fuel with
    | zero => simp [slab_list]
    | succ n =>
      have ha : a ≠ 0 := hnz a (List.mem_cons_self _ _)
      simp only [List.headD_cons, slab_list, if_neg ha, List.take_succ_cons]
      congr 1
      cases rest with
      | nil =>
        simp only [Linked] at hl
        rw [hl, slab_list_null]
        simp
      | cons b r =>
        simp only [Linked] at hl
        rw [hl.1]
        exact ih hl.2 (fun x hx => hnz x (List.mem_cons_of_mem _ hx)) n

/-- In a well-formed pool the walk from `slabs[i]` is the chain of class `i`. -/
theorem slab_list_pool (m : Mem) (slabs : Nat → Nat) (log : List PageEvent)
    (chains : Nat → List Nat) (hP : Pool m slabs log chains) (i : Nat) (hi : i < 7)
    (fuel : Nat) : slab_list m fuel (slabs i) = (chains i).take fuel := by
  have hh : slabs i = (chains i).headD 0 := by
    cases hc : chains i with
    | nil => simpa using hP.null i hi hc
    | cons a rest => simpa using hP.head i hi a rest hc
  rw [hh]
  apply slab_list_linked m (chains i) (hP.link i hi)
  intro a ha
  have := hP.blocks _ (hP.slab i hi a ha).2
  simp only [BlockOK] at this
  omega

theorem bitmap_mask_testBit (i j : Nat) (hi : i < 7) :
    (bitmap_mask i).testBit j = decide (j < class_count i) := by
  rw [bitmap_mask_eq i hi, Nat.testBit_two_pow_sub_one]

theorem and_not_mask_eq_zero (i bm : Nat) (hi : i < 7) (hbm : bm < 2 ^ class_count i) :
    bm &&& not64 (bitmap_mask i) = 0 := by
  apply Nat.eq_of_testBit_eq
  intro j
  rw [Nat.testBit_and, not64_testBit, bitmap_mask_testBit i j hi, Nat.zero_testBit]
  have hc := class_count_le i hi
  by_cases hj : j < class_count i
  · have : j < 64 := by omega
    simp [hj, this]
  · rw [testBit_of_lt_two_pow hbm (by omega)]
    simp

theorem Outcome.ok_of_val {α : Type} (o : Outcome α) (v : α) (d : State)
    (h : o.val? = some v) : o = Outcome.ok v (o.stateD d) := by
  cases o with
  | ok w s =>
    simp only [Outcome.val?, Option.some.injEq] at h
    subst h
    rfl
  | fatal e s => simp [Outcome.val?] at h
  | undefined => simp [Outcome.val?] at h

theorem deep_free_log : deep_free_state.page_log =
    [PageEvent.alloc 1 32768, PageEvent.alloc 1 28672, PageEvent.alloc 1 24576,
      PageEvent.alloc 1 20480, PageEvent.alloc 1 16384, PageEvent.alloc 1 12288,
      PageEvent.alloc 1 8192, PageEvent.alloc 1 4096] := by decide

theorem deep_free_reach : Reach bump_env deep_free_state [32832] := by
  have h1 : malloc bump_env booted_state 4032 = Outcome.ok 28736 booted_full_state :=
    Outcome.ok_of_val _ _ boot_state (by decide)
  have h2 : malloc bump_env booted_full_state 4032 = Outcome.ok 32832 booted_grown_state :=
    Outcome.ok_of_val _ _ boot_state (by decide)
  have h3 : free bump_env booted_grown_state 28736 = Outcome.ok () deep_free_state :=
    Outcome.ok_of_val _ _ boot_state (by decide)
  have r1 := Reach.malloc booted_state [] 4032 28736 booted_full_state bump_reach_init
    bump_source_ok_init h1
  have hlog : booted_full_state.page_log = (init_mm bump_env boot_state).page_log := by decide
  have r2 := Reach.malloc booted_full_state [28736] 4032 32832 booted_grown_state r1
    (by rw [hlog]; exact bump_source_ok_init) h2
  exact Reach.free booted_grown_state [32832, 28736] 28736 deep_free_state r2
    (Or.inr (by decide)) h3

theorem deep_free_source_ok : PageSourceOK bump_env deep_free_state.page_log := by
  intro n h1 h2
  rw [deep_free_log]
  norm_num at h2
  refine ⟨by simp [bump_env], by simp [bump_env, PAGE_SIZE], by simp [bump_env, PAGE_SIZE]; omega, ?_⟩
  intro blk hblk
  simp only [live_blocks, List.mem_cons, List.mem_singleton, List.not_mem_nil, or_false] at hblk
  right
  rcases hblk with h | h | h | h | h | h | h | h <;> subst h <;> simp [bump_env, PAGE_SIZE]

theorem slab_list_congr (m m' : Mem) (fuel h : Nat)
    (hc : ∀ a, a ∈ slab_list m fuel h → read64 m' (a + OFF_NEXT) = read64 m (a + OFF_NEXT)) :
    slab_list m' fuel h = slab_list m fuel h := by
  induction fuel generalizing h with
  | zero => rfl
  | succ n ih =>
    by_cases h0 : h = 0
    · simp [slab_list, h0]
    · simp only [slab_list, if_neg h0] at hc ⊢
      rw [hc h (List.mem_cons_self _ _)]
      congr 1
      exact ih _ (fun a ha => hc a (List.mem_cons_of_mem _ ha))

/-- A full head slab has no free bit for `malloc`. -/
theorem ffsl_full (i bm : Nat) (hi : i < 7) (hbm : bm < 2 ^ class_count i)
    (hfull : ∀ j, j < class_count i → bm.testBit j = true) :
    builtin_ffsl (bm ^^^ bitmap_mask i) = 0 := by
  rw [builtin_ffsl_zero_iff]
  intro j _
  rw [free_bits_testBit i bm j hi hbm]
  by_cases hj : j < class_count i
  · simp [hfull j hj]
  · simp [hj]

/-- Two different page-aligned addresses are a page apart. -/
theorem pages_apart {a b : Nat} (ha : a % PAGE_SIZE = 0) (hb : b % PAGE_SIZE = 0) (h : a ≠ b) :
    a + PAGE_SIZE ≤ b ∨ b + PAGE_SIZE ≤ a := by
  simp only [PAGE_SIZE] at *
  omega

/-- A `malloc` that returns leaves the header of every slab of the pool as it
was, except the header of the head slab of the class it serves. -/
theorem malloc_frame_slabs (env : Env) (st : State) (L : List Nat) (s p : Nat) (st' : State)
    (hI : Inv st L) (hsrc : PageSourceOK env st.page_log)
    (hcall : malloc env st s = Outcome.ok p st') (j : Nat) (hj : j < 7)
    (fuel a : Nat) (ha : a ∈ slab_list st.mem fuel (st.slabs j))
    (hne : a ≠ st.slabs j ∨ map_size_to_idx s ≠ some j)
    (x : Nat) (hx1 : a ≤ x) (hx2 : x < a + 64) : st'.mem.byte x = st.mem.byte x := by
  have hI0 := hI
  obtain ⟨_, chains, ⟨hP, _⟩, _⟩ := hI
  rw [slab_list_pool st.mem st.slabs st.page_log chains hP j hj] at ha
  obtain ⟨hok, hlive⟩ := hP.slab j hj a (List.mem_of_mem_take ha)
  rcases malloc_cases env st L s p st' hI0 hsrc hcall with
    ⟨_, _, hfr, hn0, _, _, _, hmem, _⟩ |
    ⟨i, k, hmap, hi, hoki, _, _, _, _, _, _, _, hframe, _⟩ |
    ⟨i, hmap, hi, hoki, _, hfr, _, _, _, hframe, _⟩
  · rw [hmem]
    apply write32_byte_out
    have := hfr.2.2.2 (a, 1) hlive
    simp only [PAGE_SIZE] at this
    omega
  · have hah : a ≠ st.slabs i := by
      intro e
      have hij : i = j := SlabOK_class_unique (e ▸ hoki) hok
      subst hij
      rcases hne with h | h
      · exact h e
      · exact h hmap
    have := pages_apart hok.1 hoki.1 hah
    simp only [PAGE_SIZE] at this
    apply hframe
    omega
  · have := hfr.2.2.2 (a, 1) hlive
    simp only [PAGE_SIZE] at this
    apply hframe
    omega

/-- For the classes whose slots fill the page (all but the 32-byte one), an
offset inside the page that passes both checks of `free` is the offset of a
slot. -/
theorem free_bit_idx_lt (i offset : Nat) (h0 : 0 < i) (hi : i < 7) (hoff : offset < 4096)
    (h1 : 64 ≤ offset) (h2 : (offset - 64) % (slab_info_at i).slab_size = 0) :
    free_bit_idx offset (slab_info_at i).slab_size < (slab_info_at i).slab_count := by
  unfold free_bit_idx
  interval_cases i <;> simp only [slab_info_at, slab_info, List.getD_cons_succ,
    List.getD_cons_zero] at h2 ⊢ <;> omega

theorem BlocksDisjoint_symm : Symmetric BlocksDisjoint := by
  intro x y h
  exact Or.symm h

/-- Two different blocks held from the page source do not overlap. -/
theorem Pool_blocks_apart {m : Mem} {slabs : Nat → Nat} {log : List PageEvent}
    {chains : Nat → List Nat} (hP : Pool m slabs log chains) {x y : Nat × Nat}
    (hx : x ∈ live_blocks log) (hy : y ∈ live_blocks log) (hne : x.1 ≠ y.1) :
    x.1 + x.2 * 4096 ≤ y.1 ∨ y.1 + y.2 * 4096 ≤ x.1 := by
  have hxy : x ≠ y := fun e => hne (by rw [e])
  have := List.Pairwise.forall BlocksDisjoint_symm hP.disjoint hx hy hxy
  simpa [BlocksDisjoint, PAGE_SIZE] using this

/-- The usable size of an allocated slot, and where its bytes lie. -/
theorem slot_extent (env : Env) (st : State) (chains : Nat → List Nat)
    (hP : Pool st.mem st.slabs st.page_log chains)
    (hn : env.int_nest_count = 0) (hl : st.malloc_lock = 0)
    (i a k : Nat) (hi : i < 7) (ha : a ∈ chains i) (hk : k < class_count i) :
    malloc_usable_size env st (a + 64 + k * class_size i) = Outcome.ok (class_size i) st ∧
      SlabOK st.mem a i ∧ (a, 1) ∈ live_blocks st.page_log ∧ a % 4096 = 0 ∧
      64 + (k + 1) * class_size i ≤ 4096 ∧ 0 < class_size i := by
  obtain ⟨hok, hlive⟩ := hP.slab i hi a ha
  refine ⟨usable_size_slot env st i a k hn hl hok hk, hok, hlive, ?_, (slot_page_of hok hk).2.2,
    (class_size_pos i hi).1⟩
  simpa [PAGE_SIZE] using hok.1

/-- The usable size of a page-backed region, and where its bytes lie. -/
theorem region_extent (env : Env) (st : State) (chains : Nat → List Nat)
    (hP : Pool st.mem st.slabs st.page_log chains)
    (hn : env.int_nest_count = 0) (hl : st.malloc_lock = 0)
    (b n : Nat) (hb : (b, n) ∈ live_blocks st.page_log)
    (hrd : read32 st.mem (b + OFF_SLAB_SIZE) = n * PAGE_SIZE - sizeof_malloc_region) :
    malloc_usable_size env st (b + 16) = Outcome.ok (n * 4096 - 16) st ∧
      0 < n ∧ b % 4096 = 0 := by
  have hB := hP.blocks _ hb
  simp only [BlockOK, PAGE_SIZE] at hB
  obtain ⟨h1, h2, h3, h4⟩ := hB
  simp only [PAGE_SIZE, sizeof_malloc_region] at hrd
  refine ⟨usable_size_region env st b _ hn hl (by simpa [PAGE_SIZE] using h2) (by omega) hrd
    (by omega), h4, h2⟩

/-- In a well-formed pool two different live pointers have disjoint extents,
each as long as `malloc_usable_size` answers. -/
theorem live_disjoint (env : Env) (st : State) (chains : Nat → List Nat)
    (hP : Pool st.mem st.slabs st.page_log chains)
    (hn : env.int_nest_count = 0) (hl : st.malloc_lock = 0) (p q : Nat)
    (hp : LiveSlot st.mem chains p ∨ LiveRegion st.mem st.page_log p)
    (hq : LiveSlot st.mem chains q ∨ LiveRegion st.mem st.page_log q) (hne : p ≠ q) :
    ∃ vp vq, malloc_usable_size env st p = Outcome.ok vp st ∧
      malloc_usable_size env st q = Outcome.ok vq st ∧ 0 < vp ∧ 0 < vq ∧
      (p + vp ≤ q ∨ q + vq ≤ p) := by
  rcases hp with ⟨i, a, k, hi, ha, hk, hpe, _⟩ | ⟨b, n, hpe, hb, _, hrd⟩
  · obtain ⟨u1, ok1, l1, al1, fit1, pos1⟩ := slot_extent env st chains hP hn hl i a k hi ha hk
    rcases hq with ⟨i', a', k', hi', ha', hk', hqe, _⟩ | ⟨b', n', hqe, hb', _, hrd'⟩
    · obtain ⟨u2, ok2, l2, al2, fit2, pos2⟩ :=
        slot_extent env st chains hP hn hl i' a' k' hi' ha' hk'
      simp only [OFF_DATA] at hpe hqe
      subst hpe hqe
      refine ⟨_, _, u1, u2, pos1, pos2, ?_⟩
      by_cases haa : a = a'
      · subst haa
        have hii : i = i' := SlabOK_class_unique ok1 ok2
        subst hii
        have hkk : k ≠ k' := fun e => hne (by rw [e])
        rcases Nat.lt_or_gt_of_ne hkk with h | h
        · have := Nat.mul_le_mul_right (class_size i) (show k + 1 ≤ k' from h)
          left
          have e : (k + 1) * class_size i = k * class_size i + class_size i := by ring
          omega
        · have := Nat.mul_le_mul_right (class_size i) (show k' + 1 ≤ k from h)
          right
          have e : (k' + 1) * class_size i = k' * class_size i + class_size i := by ring
          omega
      · have := Pool_blocks_apart hP l1 l2 haa
        simp only at this
        have e1 : (k + 1) * class_size i = k * class_size i + class_size i := by ring
        have e2 : (k' + 1) * class_size i' = k' * class_size i' + class_size i' := by ring
        omega
    · obtain ⟨u2, npos, al2⟩ := region_extent env st chains hP hn hl b' n' hb' hrd'
      simp only [OFF_DATA, sizeof_malloc_region] at hpe hqe
      subst hpe hqe
      refine ⟨_, _, u1, u2, pos1, by omega, ?_⟩
      have hab : a ≠ b' := fun e => region_ne_slab ok1 npos hrd' e.symm
      have := Pool_blocks_apart hP l1 hb' hab
      simp only at this
      have e1 : (k + 1) * class_size i = k * class_size i + class_size i := by ring
      omega
  · obtain ⟨u1, npos1, al1⟩ := region_extent env st chains hP hn hl b n hb hrd
    rcases hq with ⟨i', a', k', hi', ha', hk', hqe, _⟩ | ⟨b', n', hqe, hb', _, hrd'⟩
    · obtain ⟨u2, ok2, l2, al2, fit2, pos2⟩ :=
        slot_extent env st chains hP hn hl i' a' k' hi' ha' hk'
      simp only [OFF_DATA, sizeof_malloc_region] at hpe hqe
      subst hpe hqe
      refine ⟨_, _, u1, u2, by omega, pos2, ?_⟩
      have hab : b ≠ a' := region_ne_slab ok2 npos1 hrd
      have := Pool_blocks_apart hP hb l2 hab
      simp only at this
      have e2 : (k' + 1) * class_size i' = k' * class_size i' + class_size i' := by ring
      omega
    · obtain ⟨u2, npos2, al2⟩ := region_extent env st chains hP hn hl b' n' hb' hrd'
      simp only [sizeof_malloc_region] at hpe hqe
      subst hpe hqe
      refine ⟨_, _, u1, u2, by omega, by omega, ?_⟩
      have hab : b ≠ b' := fun e => hne (by rw [e])
      have := Pool_blocks_apart hP hb hb' hab
      simp only at this
      omega

/-- The pointer that `malloc` returns is not one of the live pointers. -/
theorem malloc_not_live (env : Env) (st : State) (L : List Nat) (s p : Nat) (st' : State)
    (hI : Inv st L) (hsrc : PageSourceOK env st.page_log)
    (hcall : malloc env st s = Outcome.ok p st') : p ∉ L := by
  intro hpL
  have hI0 := hI
  obtain ⟨_, chains, ⟨hP, hlive⟩, _⟩ := hI
  have fresh_absurd : ∀ b n off, FreshBlock st.page_log b n → 0 < n → off < 4096 →
      p = b + off → False := by
    intro b n off hfr hn0 hoff hpe
    rcases hlive p hpL with ⟨i', a, k', hi', ha, hk', hqe, _⟩ | ⟨b', n', hqe, hb', _, _⟩
    · obtain ⟨hok, hl1⟩ := hP.slab i' hi' a ha
      have fit := (slot_page_of hok hk').2.2
      have := hfr.2.2.2 (a, 1) hl1
      simp only [PAGE_SIZE] at this
      simp only [OFF_DATA] at hqe
      have e : (k' + 1) * class_size i' = k' * class_size i' + class_size i' := by ring
      have := (class_size_pos i' hi').1
      omega
    · have hB := hP.blocks _ hb'
      simp only [BlockOK, PAGE_SIZE] at hB
      have := hfr.2.2.2 (b', n') hb'
      simp only [PAGE_SIZE, sizeof_malloc_region] at this hqe
      omega
  rcases malloc_cases env st L s p st' hI0 hsrc hcall with
    ⟨_, _, hfr, hn0, _, hpe, _⟩ |
    ⟨i, k, hmap, hi, hoki, hf, hpe, _, _, hk, hbit, _⟩ |
    ⟨i, hmap, hi, hoki, _, hfr, hpe, _⟩
  · exact fresh_absurd _ _ 16 hfr hn0 (by decide) hpe
  · have fit := (slot_page_of hoki hk).2.2
    have hal : st.slabs i % 4096 = 0 := by simpa [PAGE_SIZE] using hoki.1
    have e : (k + 1) * class_size i = k * class_size i + class_size i := by ring
    have pos := (class_size_pos i hi).1
    rcases hlive p hpL with ⟨i', a, k', hi', ha, hk', hqe, hset⟩ | ⟨b', n', hqe, hb', _, hrd⟩
    · obtain ⟨hok, hl1⟩ := hP.slab i' hi' a ha
      have fit' := (slot_page_of hok hk').2.2
      have hal' : a % 4096 = 0 := by simpa [PAGE_SIZE] using hok.1
      have e' : (k' + 1) * class_size i' = k' * class_size i' + class_size i' := by ring
      have pos' := (class_size_pos i' hi').1
      simp only [OFF_DATA] at hqe
      have haa : a = st.slabs i := by omega
      subst haa
      have hii : i' = i := SlabOK_class_unique hok hoki
      subst hii
      have hkk : k' * class_size i' = k * class_size i' := by omega
      have : k' = k := Nat.eq_of_mul_eq_mul_right pos hkk
      subst this
      simp only [OFF_BM0] at hset
      rw [hbit] at hset
      cases hset
    · have hB := hP.blocks _ hb'
      simp only [BlockOK, PAGE_SIZE] at hB
      simp only [sizeof_malloc_region] at hqe
      have hbb : b' = st.slabs i := by omega
      exact region_ne_slab hoki hB.2.2.2 hrd hbb
  · exact fresh_absurd _ _ 64 hfr (by decide) (by decide) hpe

/-- The usable size of the object that `malloc` just returned covers the
request. -/
theorem malloc_usable_after (env : Env) (st : State) (L : List Nat) (s p : Nat) (st' : State)
    (hI : Inv st L) (hsrc : PageSourceOK env st.page_log)
    (hcall : malloc env st s = Outcome.ok p st') :
    ∃ v, malloc_usable_size env st' p = Outcome.ok v st' ∧ s ≤ v ∧ 0 < v := by
  have hI' := inv_malloc env st L s p st' hI hsrc hcall
  obtain ⟨hn, _, _⟩ := malloc_ok_inv env st s p st' hcall
  rcases malloc_cases env st L s p st' hI hsrc hcall with
    ⟨hs1, hs2, hfr, hn0, hn1, hpe, _, hmem, _⟩ |
    ⟨i, k, hmap, hi, _, _, hpe, _, _, hk, _, _, _, _, _, hok'⟩ |
    ⟨i, hmap, hi, _, _, _, hpe, _, _, _, _, _, hok'⟩
  · refine ⟨(16 + s + 4095) / 4096 * 4096 - 16, ?_, by omega, by omega⟩
    rw [hpe]
    have hb := hfr.2.1
    have hb2 := hfr.2.2.1
    simp only [PAGE_SIZE] at hb2
    apply usable_size_region env st' _ _ hn hI'.1 hb (by omega) _ (by omega)
    rw [hmem]
    simp only [OFF_SLAB_SIZE, Nat.add_zero]
    rw [read32_write32_same]
    norm_num at hn1
    omega
  · refine ⟨class_size i, ?_, map_size_to_idx_le s i hmap, (class_size_pos i hi).1⟩
    rw [hpe]
    exact usable_size_slot env st' i _ k hn hI'.1 hok' hk
  · refine ⟨class_size i, ?_, map_size_to_idx_le s i hmap, (class_size_pos i hi).1⟩
    rw [hpe]
    have := usable_size_slot env st' i _ 0 hn hI'.1 hok' (class_count_le i hi).1
    simpa using this

/-! ## Claims -/

/-- C1: for every size `s` with `1 ≤ s ≤ 4032`, `map_size_to_idx s` is the index
`i < 7` of the smallest class that fits. -/
theorem map_size_to_idx_smallest_class (s : Nat) (h1 : 1 ≤ s) (h2 : s ≤ 4032) :
    (∃ i, map_size_to_idx s = some i ∧ i < 7 ∧ s ≤ (slab_info_at i).slab_size ∧
        (0 < i → (slab_info_at (i - 1)).slab_size < s) ∧
        (∀ j, j < 7 → s ≤ (slab_info_at j).slab_size →
          i ≤ j ∧ (slab_info_at i).slab_size ≤ (slab_info_at j).slab_size)) ∧
      (map_size_to_idx 33 = some 1 ∧ map_size_to_idx 65 = some 2 ∧
        map_size_to_idx 193 = some 3 ∧ map_size_to_idx 449 = some 4 ∧
        map_size_to_idx 1009 = some 5 ∧ map_size_to_idx 2017 = some 6) ∧
      (∀ t, 4032 < t → map_size_to_idx t = none) := by
  refine ⟨?_, by decide, ?_⟩
  · unfold map_size_to_idx
    split_ifs
    · refine ⟨0, rfl, by omega, by simp [slab_info_at, slab_info]; omega, by omega, ?_⟩
      intro j hj hs
      interval_cases j <;> simp [slab_info_at, slab_info] at hs ⊢
    · refine ⟨1, rfl, by omega, by simp [slab_info_at, slab_info]; omega,
        by simp [slab_info_at, slab_info]; omega, ?_⟩
      intro j hj hs
      interval_cases j <;> simp [slab_info_at, slab_info] at hs ⊢
      omega
    · refine ⟨2, rfl, by omega, by simp [slab_info_at, slab_info]; omega,
        by simp [slab_info_at, slab_info]; omega, ?_⟩
      intro j hj hs
      interval_cases j <;> simp [slab_info_at, slab_info] at hs ⊢ <;> omega
    · refine ⟨3, rfl, by omega, by simp [slab_info_at, slab_info]; omega,
        by simp [slab_info_at, slab_info]; omega, ?_⟩
      intro j hj hs
      interval_cases j <;> simp [slab_info_at, slab_info] at hs ⊢ <;> omega
    · refine ⟨4, rfl, by omega, by simp [slab_info_at, slab_info]; omega,
        by simp [slab_info_at, slab_info]; omega, ?_⟩
      intro j hj hs
      interval_cases j <;> simp [slab_info_at, slab_info] at hs ⊢ <;> omega
    · refine ⟨5, rfl, by omega, by simp [slab_info_at, slab_info]; omega,
        by simp [slab_info_at, slab_info]; omega, ?_⟩
      intro j hj hs
      interval_cases j <;> simp [slab_info_at, slab_info] at hs ⊢ <;> omega
    · refine ⟨6, rfl, by omega, by simp [slab_info_at, slab_info]; omega,
        by simp [slab_info_at, slab_info]; omega, ?_⟩
      intro j hj hs
      interval_cases j <;> simp [slab_info_at, slab_info] at hs ⊢ <;> omega
  · intro t ht
    unfold map_size_to_idx
    simp only [if_neg (show ¬ t ≤ 32 by omega), if_neg (show ¬ t ≤ 64 by omega),
      if_neg (show ¬ t ≤ 192 by omega), if_neg (show ¬ t ≤ 448 by omega),
      if_neg (show ¬ t ≤ 1008 by omega), if_neg (show ¬ t ≤ 2016 by omega),
      if_neg (show ¬ t ≤ 4032 by omega)]

theorem map_size_to_idx_smallest_class_witness :
    (∃ i, map_size_to_idx 100 = some i ∧ i < 7 ∧ 100 ≤ (slab_info_at i).slab_size ∧
        (0 < i → (slab_info_at (i - 1)).slab_size < 100) ∧
        (∀ j, j < 7 → 100 ≤ (slab_info_at j).slab_size →
          i ≤ j ∧ (slab_info_at i).slab_size ≤ (slab_info_at j).slab_size)) ∧
      (map_size_to_idx 33 = some 1 ∧ map_size_to_idx 65 = some 2 ∧
        map_size_to_idx 193 = some 3 ∧ map_size_to_idx 449 = some 4 ∧
        map_size_to_idx 1009 = some 5 ∧ map_size_to_idx 2017 = some 6) ∧
      (∀ t, 4032 < t → map_size_to_idx t = none) :=
  map_size_to_idx_smallest_class 100 (by decide) (by decide)

/-- C2: in every reachable state, outside interrupt context and with the page
source answering properly, `malloc(s)` for `s ≤ UINT32_MAX - 16` returns a
pointer whose `malloc_usable_size` is at least `s`: the class size when
`s ≤ 4032`, the page-rounded size minus the 16-byte header otherwise. -/
theorem usable_size_of_malloc (env : Env) (st : State) (L : List Nat) (s : Nat)
    (hR : Reach env st L) (hn : env.int_nest_count = 0)
    (hsrc : PageSourceOK env st.page_log) (hs : s ≤ UINT32_MAX - 16) :
    ∃ p st1 v, malloc env st s = Outcome.ok p st1 ∧
      malloc_usable_size env st1 p = Outcome.ok v st1 ∧ s ≤ v ∧
      (s ≤ 4032 → ∃ i, map_size_to_idx s = some i ∧ v = (slab_info_at i).slab_size) ∧
      (4032 < s → v = (16 + s + 4095) / 4096 * 4096 - 16) := by
  have hI := reach_inv env st L hR
  have hl := hI.1
  have hU : UINT32_MAX = 4294967295 := rfl
  by_cases h1 : 4032 < s
  · obtain ⟨st1, hm, hlog, hmem, hslabs, hlock, hirq⟩ := malloc_large_spec env st s hn hl h1 hs
    have hn0 : 0 < (16 + s + 4095) / 4096 := by omega
    have hn1 : (16 + s + 4095) / 4096 ≤ 2 ^ 20 := by norm_num; omega
    obtain ⟨f1, f2, f3, f4⟩ := hsrc _ hn0 hn1
    generalize hb : env.alloc_pages st.page_log ((16 + s + 4095) / 4096) = b at *
    generalize hnn : (16 + s + 4095) / 4096 = n at *
    simp only [PAGE_SIZE] at f2 f3
    have hrd : read32 st1.mem (b + OFF_SLAB_SIZE) = n * 4096 - 16 := by
      simp only [OFF_SLAB_SIZE, Nat.add_zero]
      rw [hmem, read32_write32_same]
      exact Nat.mod_eq_of_lt (by norm_num at hn1; omega)
    refine ⟨b + 16, st1, n * 4096 - 16, hm, ?_, by omega, fun h => by omega, fun _ => rfl⟩
    exact usable_size_region env st1 b _ hn hlock f2 (by omega) hrd (by omega)
  · obtain ⟨i, hmap⟩ := map_size_to_idx_some s (by omega)
    have hi := (map_size_to_idx_lt s i hmap).1
    have hle := map_size_to_idx_le s i hmap
    have hok := inv_head_ok hI i hi
    cases hf : builtin_ffsl (read64 st.mem (st.slabs i + 32) ^^^ bitmap_mask i) with
    | succ k =>
      obtain ⟨st1, hm, _, _, hlock, _, hk, _, _, _, _, _, hok1⟩ :=
        malloc_small_head env st s i k hn hl hmap hok hf
      exact ⟨_, st1, class_size i, hm, usable_size_slot env st1 i _ k hn hlock hok1 hk, hle,
        fun _ => ⟨i, hmap, rfl⟩, fun h => absurd h h1⟩
    | zero =>
      obtain ⟨f1, f2, f3, f4⟩ := hsrc 1 (by omega) (by norm_num)
      obtain ⟨st1, hm, _, _, hlock, _, _, _, _, _, hok1⟩ :=
        malloc_small_new env st s i hn hl hmap hok hf f2 (by omega)
      have hus := usable_size_slot env st1 i _ 0 hn hlock hok1 (class_count_le i hi).1
      simp only [Nat.zero_mul, Nat.add_zero] at hus
      exact ⟨_, st1, class_size i, hm, hus, hle,
        fun _ => ⟨i, hmap, rfl⟩, fun h => absurd h h1⟩

theorem usable_size_of_malloc_witness :
    ∃ p st1 v, malloc bump_env (init_mm bump_env boot_state) 100 = Outcome.ok p st1 ∧
      malloc_usable_size bump_env st1 p = Outcome.ok v st1 ∧ 100 ≤ v ∧
      (100 ≤ 4032 → ∃ i, map_size_to_idx 100 = some i ∧ v = (slab_info_at i).slab_size) ∧
      (4032 < 100 → v = (16 + 100 + 4095) / 4096 * 4096 - 16) :=
  usable_size_of_malloc bump_env (init_mm bump_env boot_state) [] 100 bump_reach_init rfl
    bump_source_ok_init (by decide)

/-- C3 (amended): in every reachable state, `malloc(s)` for `s ≤ 4032` followed
by `free` of the returned pointer succeeds and increments the `free_cnt` word of
the originating slab page by one (mod 2^64).  When the head slab of the class
has a free slot, that head is the originating slab and its bitmap is again what
it was before the `malloc`; when the head slab is full, the originating slab is
the page newly taken from the page source and its bitmap is 0 after the `free`. -/
theorem malloc_free_roundtrip (env : Env) (st : State) (L : List Nat) (s : Nat)
    (hR : Reach env st L) (hn : env.int_nest_count = 0)
    (hsrc : PageSourceOK env st.page_log) (hs : s ≤ 4032) :
    ∃ i p st1 st2, map_size_to_idx s = some i ∧ malloc env st s = Outcome.ok p st1 ∧
      free env st1 p = Outcome.ok () st2 ∧
      read64 st2.mem (page_of p + OFF_FREE_CNT) =
        (read64 st.mem (page_of p + OFF_FREE_CNT) + 1) % 2 ^ 64 ∧
      (builtin_ffsl (read64 st.mem (st.slabs i + OFF_BM0) ^^^ bitmap_mask i) ≠ 0 →
        page_of p = st.slabs i ∧
        read64 st2.mem (page_of p + OFF_BM0) = read64 st.mem (page_of p + OFF_BM0)) ∧
      (builtin_ffsl (read64 st.mem (st.slabs i + OFF_BM0) ^^^ bitmap_mask i) = 0 →
        page_of p = env.alloc_pages st.page_log 1 ∧
        read64 st2.mem (page_of p + OFF_BM0) = 0) := by
  have hI := reach_inv env st L hR
  have hl := hI.1
  obtain ⟨i, hmap⟩ := map_size_to_idx_some s hs
  have hi := (map_size_to_idx_lt s i hmap).1
  have hok := inv_head_ok hI i hi
  simp only [OFF_BM0, OFF_FREE_CNT]
  cases hf : builtin_ffsl (read64 st.mem (st.slabs i + 32) ^^^ bitmap_mask i) with
  | succ k =>
    obtain ⟨st1, hm, _, _, hlock, _, hk, hb, _, hfr, hbm, _, hok1⟩ :=
      malloc_small_head env st s i k hn hl hmap hok hf
    have hk64 : k < 64 := by have := class_count_le i hi; omega
    have hbm64 : read64 st.mem (st.slabs i + 32) < 2 ^ 64 := by
      have := read64_lt st.mem (st.slabs i + 32); norm_num; omega
    have hb1 : (read64 st1.mem (st.slabs i + 32)).testBit k = true := by
      rw [hbm, testBit_or_bit]; simp
    obtain ⟨m', f1, _, f3, f4, _⟩ :=
      free_slab_spec (critical_enter st1) i (st.slabs i) k hok1 hk hb1
    have hfree := free_slot_eq env st1 i (st.slabs i) k hn hlock hok1 hk m' f1
    obtain ⟨hpo, _, _⟩ := slot_page_of hok1 hk
    refine ⟨i, _, st1, _, hmap, hm, hfree, ?_, ?_, ?_⟩
    · rw [hpo]
      show read64 m' _ = _
      rw [f4]
      congr 2
      exact read64_congr (fun x hx1 hx2 => hfr x (by omega))
    · intro _
      rw [hpo]
      refine ⟨rfl, ?_⟩
      show read64 m' _ = _
      rw [f3]
      show read64 st1.mem (st.slabs i + 32) &&& not64 (2 ^ k) = _
      rw [hbm]
      exact or_bit_and_not_bit _ k hbm64 hk64 hb
    · intro h; omega
  | zero =>
    obtain ⟨q1, q2, q3, q4⟩ := hsrc 1 (by omega) (by norm_num)
    obtain ⟨st1, hm, _, _, hlock, _, hfr, hbm, _, _, hok1⟩ :=
      malloc_small_new env st s i hn hl hmap hok hf q2 (by omega)
    have hc0 := (class_count_le i hi).1
    have hb1 : (read64 st1.mem (env.alloc_pages st.page_log 1 + 32)).testBit 0 = true := by
      rw [hbm]; decide
    obtain ⟨m', f1, _, f3, f4, _⟩ :=
      free_slab_spec (critical_enter st1) i (env.alloc_pages st.page_log 1) 0 hok1 hc0 hb1
    have hfree := free_slot_eq env st1 i (env.alloc_pages st.page_log 1) 0 hn hlock hok1 hc0
      m' f1
    obtain ⟨hpo, _, _⟩ := slot_page_of hok1 hc0
    simp only [Nat.zero_mul, Nat.add_zero] at hfree hpo
    refine ⟨i, _, st1, _, hmap, hm, hfree, ?_, ?_, ?_⟩
    · rw [hpo]
      show read64 m' _ = _
      rw [f4]
      congr 2
      exact read64_congr (fun x hx1 hx2 => hfr x (by omega))
    · intro h; exact absurd hf h
    · intro _
      rw [hpo]
      refine ⟨rfl, ?_⟩
      show read64 m' _ = _
      rw [f3]
      show read64 st1.mem (env.alloc_pages st.page_log 1 + 32) &&& not64 (2 ^ 0) = _
      rw [hbm]
      decide

theorem malloc_free_roundtrip_witness :
    ∃ i p st1 st2, map_size_to_idx 100 = some i ∧
      malloc bump_env (init_mm bump_env boot_state) 100 = Outcome.ok p st1 ∧
      free bump_env st1 p = Outcome.ok () st2 ∧
      read64 st2.mem (page_of p + OFF_FREE_CNT) =
        (read64 (init_mm bump_env boot_state).mem (page_of p + OFF_FREE_CNT) + 1) % 2 ^ 64 ∧
      (builtin_ffsl (read64 (init_mm bump_env boot_state).mem
          ((init_mm bump_env boot_state).slabs i + OFF_BM0) ^^^ bitmap_mask i) ≠ 0 →
        page_of p = (init_mm bump_env boot_state).slabs i ∧
        read64 st2.mem (page_of p + OFF_BM0) =
          read64 (init_mm bump_env boot_state).mem (page_of p + OFF_BM0)) ∧
      (builtin_ffsl (read64 (init_mm bump_env boot_state).mem
          ((init_mm bump_env boot_state).slabs i + OFF_BM0) ^^^ bitmap_mask i) = 0 →
        page_of p = bump_env.alloc_pages (init_mm bump_env boot_state).page_log 1 ∧
        read64 st2.mem (page_of p + OFF_BM0) = 0) :=
  malloc_free_roundtrip bump_env (init_mm bump_env boot_state) [] 100 bump_reach_init rfl
    bump_source_ok_init (by decide)

/-- C3 as stated fails: after `init_mm` and one `malloc(4032)` the head slab of
class 6 is full, so the next `malloc(4032)` is served by a slab newly created at
page 32768; the bitmap word of that page was all ones before the call and is 0
after `malloc` and `free`. -/
theorem roundtrip_new_slab_bitmap_differs :
    Reach bump_env booted_full_state [28736] ∧
      PageSourceOK bump_env booted_full_state.page_log ∧ bump_env.int_nest_count = 0 ∧
      ∃ st1 st2, malloc bump_env booted_full_state 4032 = Outcome.ok 32832 st1 ∧
        free bump_env st1 32832 = Outcome.ok () st2 ∧ page_of 32832 = 32768 ∧
        read64 booted_full_state.mem (32768 + OFF_BM0) = 18446744073709551615 ∧
        read64 st2.mem (32768 + OFF_BM0) = 0 := by
  obtain ⟨st_b, hm1, hfull, hsl, hlog, hlock, hfr, hbm, hok1⟩ := booted_full_facts
  rw [hfull]
  have hsrc : PageSourceOK bump_env st_b.page_log := by
    rw [hlog]; exact bump_source_ok_init
  have hslab6 : st_b.slabs 6 = 28672 := by rw [hsl]; decide
  have hP : bump_env.alloc_pages st_b.page_log 1 = 32768 := by
    rw [hlog]; decide
  have hf : builtin_ffsl (read64 st_b.mem (st_b.slabs 6 + 32) ^^^ bitmap_mask 6) = 0 := by
    rw [hslab6, hbm]; decide
  obtain ⟨st_c, hm2, _, _, hlock2, _, _, hbm2, _, _, hok2⟩ :=
    malloc_small_new bump_env st_b 4032 6 rfl hlock (by decide) (by rw [hslab6]; exact hok1)
      hf (by rw [hP]; decide) (by rw [hP]; decide)
  rw [hP] at hm2 hbm2 hok2
  have hb1 : (read64 st_c.mem (32768 + 32)).testBit 0 = true := by rw [hbm2]; decide
  obtain ⟨m', f1, _, f3, _, _⟩ :=
    free_slab_spec (critical_enter st_c) 6 32768 0 hok2 (by decide) hb1
  have hfree := free_slot_eq bump_env st_c 6 32768 0 rfl hlock2 hok2 (by decide) m' f1
  refine ⟨Reach.malloc booted_state [] 4032 28736 st_b bump_reach_init bump_source_ok_init hm1,
    hsrc, rfl, st_c, _, hm2, hfree, by decide, ?_, ?_⟩
  · have : read64 st_b.mem (32768 + OFF_BM0) = read64 booted_state.mem (32768 + OFF_BM0) :=
      read64_congr (fun x hx1 hx2 => hfr x (by simp only [OFF_BM0] at hx1; omega))
    rw [this]
    decide
  · show read64 m' (32768 + 32) = 0
    rw [f3]
    show read64 st_c.mem (32768 + 32) &&& not64 (2 ^ 0) = 0
    rw [hbm2]
    decide

/-- C4: starting right after `init_mm`, with the page source answering
properly, `slab_count + 1` consecutive `malloc` calls of sizes of class `i`
all return; the first `slab_count` of them leave the page log as it was (no slab
is created), the last one takes exactly one page from the page source for a new
slab, which becomes the list head; and the `slab_count + 1` object ranges of
`slab_size` bytes are pairwise disjoint. -/
theorem exhaustion_growth (env : Env) (s0 : State) (i : Nat) (sizes : List Nat) (s_last : Nat)
    (hslabs : ∀ j, j < 7 → s0.slabs j = 0) (hlog : s0.page_log = [])
    (hinit : InitPagesOK env s0) (hn : env.int_nest_count = 0)
    (hfresh : FreshBlock (init_mm env s0).page_log
      (env.alloc_pages (init_mm env s0).page_log 1) 1)
    (hi : i < 7) (hlen : sizes.length = (slab_info_at i).slab_count)
    (hmap : ∀ s, s ∈ sizes → map_size_to_idx s = some i)
    (hlast : map_size_to_idx s_last = some i) :
    ∃ ps st_n p st',
      malloc_seq env (init_mm env s0) sizes = Outcome.ok ps st_n ∧
      st_n.page_log = (init_mm env s0).page_log ∧ st_n.slabs = (init_mm env s0).slabs ∧
      malloc env st_n s_last = Outcome.ok p st' ∧
      st'.page_log = PageEvent.alloc 1 (env.alloc_pages (init_mm env s0).page_log 1) ::
        (init_mm env s0).page_log ∧
      st'.slabs i = env.alloc_pages (init_mm env s0).page_log 1 ∧
      malloc_seq env (init_mm env s0) (sizes ++ [s_last]) = Outcome.ok (ps ++ [p]) st' ∧
      (ps ++ [p]).length = (slab_info_at i).slab_count + 1 ∧
      (ps ++ [p]).Pairwise (RangesDisjoint (slab_info_at i).slab_size) := by
  have hI := inv_init env s0 hslabs hlog hinit
  obtain ⟨hok, hlive, hbm⟩ := init_heads env s0 hslabs hlog hinit 7 (le_refl _) i hi
  rw [← init_mm_eq_upto] at hok hlive hbm
  generalize hst : init_mm env s0 = st at *
  generalize ha : st.slabs i = a at *
  have hcnt : sizes.length = class_count i := hlen
  obtain ⟨st_n, hseq, hl_n, hsl_n, hlog_n, hok_n, hbm_n, hfr_n⟩ :=
    fill_slab env i a hn sizes st 0 hmap (by omega) hI.1 ha hok (by rw [hbm]; rfl)
  simp only [Nat.zero_add] at hseq hbm_n
  have hf : builtin_ffsl (read64 st_n.mem (st_n.slabs i + 32) ^^^ bitmap_mask i) = 0 := by
    rw [hsl_n, ha, hbm_n, ffsl_filled i _ hi (by omega), if_pos hcnt]
  obtain ⟨st', hm, hsl', hlog', _, _, _, _, _, _, hok'⟩ :=
    malloc_small_new env st_n s_last i hn hl_n hlast (by rw [hsl_n, ha]; exact hok_n) hf
      (by rw [hlog_n]; exact hfresh.2.1)
      (by rw [hlog_n]; have := hfresh.2.2.1; omega)
  rw [hlog_n] at hm hsl' hlog' hok'
  generalize hP : env.alloc_pages st.page_log 1 = P at *
  have hseq2 : malloc_seq env st_n [s_last] = Outcome.ok [P + 64] st' :=
    malloc_seq_cons env st_n s_last [] _ st' [] st' hm rfl
  refine ⟨_, st_n, _, st', hseq, hlog_n, hsl_n, hm, hlog', by rw [hsl', Function.update_same],
    malloc_seq_append env sizes st [s_last] _ st_n _ st' hseq hseq2, ?_, ?_⟩
  · simp only [List.length_append, List.length_map, List.length_range, List.length_singleton]
    rw [hlen]
  · have hfit := class_fits_page i hi
    have hsz := class_size_pos i hi
    have hd := hfresh.2.2.2 _ hlive
    have ha1 := hok.1
    have hP1 := hfresh.2.1
    simp only [PAGE_SIZE] at hd ha1 hP1
    show List.Pairwise (RangesDisjoint (class_size i)) _
    rw [List.pairwise_append]
    refine ⟨?_, List.pairwise_singleton _ _, ?_⟩
    · rw [List.pairwise_map]
      apply List.Pairwise.imp _ (List.pairwise_lt_range sizes.length)
      intro j j' hjj
      left
      have : (j + 1) * class_size i ≤ j' * class_size i := Nat.mul_le_mul_right _ hjj
      have e : (j + 1) * class_size i = j * class_size i + class_size i := by ring
      omega
    · intro x hx y hy
      rw [List.mem_singleton] at hy
      subst hy
      rw [List.mem_map] at hx
      obtain ⟨j, hj, hx⟩ := hx
      rw [List.mem_range] at hj
      subst hx
      have h1 : (j + 1) * class_size i ≤ class_count i * class_size i :=
        Nat.mul_le_mul_right _ (by omega)
      have e : (j + 1) * class_size i = j * class_size i + class_size i := by ring
      have e2 : class_count i * class_size i = class_size i * class_count i := Nat.mul_comm _ _
      unfold RangesDisjoint
      omega

theorem exhaustion_growth_witness :
    ∃ ps st_n p st',
      malloc_seq bump_env (init_mm bump_env boot_state) [2000, 2016] = Outcome.ok ps st_n ∧
      st_n.page_log = (init_mm bump_env boot_state).page_log ∧
      st_n.slabs = (init_mm bump_env boot_state).slabs ∧
      malloc bump_env st_n 1500 = Outcome.ok p st' ∧
      st'.page_log = PageEvent.alloc 1
        (bump_env.alloc_pages (init_mm bump_env boot_state).page_log 1) ::
          (init_mm bump_env boot_state).page_log ∧
      st'.slabs 5 = bump_env.alloc_pages (init_mm bump_env boot_state).page_log 1 ∧
      malloc_seq bump_env (init_mm bump_env boot_state) ([2000, 2016] ++ [1500]) =
        Outcome.ok (ps ++ [p]) st' ∧
      (ps ++ [p]).length = (slab_info_at 5).slab_count + 1 ∧
      (ps ++ [p]).Pairwise (RangesDisjoint (slab_info_at 5).slab_size) :=
  exhaustion_growth bump_env boot_state 5 [2000, 2016] 1500 (fun _ _ => rfl) rfl
    bump_init_pages_ok rfl (bump_source_ok_init 1 (by decide) (by decide)) (by decide)
    (by decide) (by decide) (by decide)

/-- The rejections of `free` that the code does make: for a non-null pointer `p`
into a page whose header is a valid slab header, `free(p)` halts in `koops` when
the page offset is below 64, when `offset - 64` is not a multiple of the slab
size, or when the slot index is below 64 and the bitmap bit of the slot is
clear; memory (bitmap, counters and checksum included), list heads and page log
are then as they were at the call.  In particular a second `free(p)` right
after a `free(p)` that returned halts in `koops`. -/
theorem free_rejects_invalid (env : Env) (st : State) (p : Nat) (hp : p ≠ 0)
    (hslab : region_is_slab st.mem (page_of p) = true)
    (hv : validate_is_slab st.mem (page_of p) = none) :
    ((p - page_of p < 64 ∨
        (0 < read32 st.mem (page_of p + OFF_SLAB_SIZE) ∧
          (p - page_of p - 64) % read32 st.mem (page_of p + OFF_SLAB_SIZE) ≠ 0) ∨
        (0 < read32 st.mem (page_of p + OFF_SLAB_SIZE) ∧
          free_bit_idx (p - page_of p) (read32 st.mem (page_of p + OFF_SLAB_SIZE)) < 64 ∧
          (read64 st.mem (page_of p + OFF_BM0)).testBit
            (free_bit_idx (p - page_of p) (read32 st.mem (page_of p + OFF_SLAB_SIZE))) = false)) →
      ∃ e st', free env st p = Outcome.fatal e st' ∧ st'.mem = st.mem ∧
        st'.slabs = st.slabs ∧ st'.page_log = st.page_log) ∧
    (∀ st1, free env st p = Outcome.ok () st1 →
      ∃ e st2, free env st1 p = Outcome.fatal e st2 ∧ st2.mem = st1.mem ∧
        st2.slabs = st1.slabs ∧ st2.page_log = st1.page_log) := by
  have key : ∀ (s : State), region_is_slab s.mem (page_of p) = true →
      validate_is_slab s.mem (page_of p) = none →
      (p - page_of p < 64 ∨
        (0 < read32 s.mem (page_of p + OFF_SLAB_SIZE) ∧
          (p - page_of p - 64) % read32 s.mem (page_of p + OFF_SLAB_SIZE) ≠ 0) ∨
        (0 < read32 s.mem (page_of p + OFF_SLAB_SIZE) ∧
          free_bit_idx (p - page_of p) (read32 s.mem (page_of p + OFF_SLAB_SIZE)) < 64 ∧
          (read64 s.mem (page_of p + OFF_BM0)).testBit
            (free_bit_idx (p - page_of p) (read32 s.mem (page_of p + OFF_SLAB_SIZE))) = false)) →
      ∃ e st', free env s p = Outcome.fatal e st' ∧ st'.mem = s.mem ∧
        st'.slabs = s.slabs ∧ st'.page_log = s.page_log := by
    intro s hs hvs hcase
    have hv1 : validate_is_slab (critical_enter s).mem (page_of p) = none := hvs
    obtain ⟨c1, c2, c3⟩ := free_slab_fatal (critical_enter s) p (page_of p) hv1
    simp only [critical_enter_mem] at c1 c2 c3
    by_cases h1 : p - page_of p < 64
    · exact free_fatal_of_slab env s p _ hp hs (c1 h1)
    · rcases hcase with h | ⟨h2, h3⟩ | ⟨h2, h4, h5⟩
      · exact absurd h h1
      · exact free_fatal_of_slab env s p _ hp hs (c2 (by omega) h2 h3)
      · by_cases h3 : (p - page_of p - 64) % read32 s.mem (page_of p + OFF_SLAB_SIZE) = 0
        · exact free_fatal_of_slab env s p _ hp hs (c3 (by omega) h2 h3 h4 h5)
        · exact free_fatal_of_slab env s p _ hp hs (c2 (by omega) h2 h3)
  refine ⟨key st hslab hv, ?_⟩
  intro st1 hfree
  obtain ⟨hn, hl⟩ := free_ok_inv env st p st1 hp hfree
  rw [free_eq env st p hp hn hl, if_neg (by rw [hslab]; decide)] at hfree
  cases hfs : free_slab (critical_enter st) p (page_of p) with
  | undefined => rw [hfs] at hfree; cases hfree
  | fatal e s => rw [hfs] at hfree; cases hfree
  | ok u s =>
    rw [hfs] at hfree
    simp only at hfree
    split_ifs at hfree with hlk
    injection hfree with _ hst1
    obtain ⟨_, _, hss, hidx, _, _, _, _⟩ := free_slab_ok_inv _ p (page_of p) s hfs
    obtain ⟨a1, a2, a3⟩ := free_slab_ok_after _ p (page_of p) s (page_of_le p) hfs
    simp only [critical_enter_mem] at a2 a3 hss hidx
    have hmem1 : st1.mem = s.mem := by rw [← hst1]; rfl
    apply key st1
    · rw [hmem1]
      simp only [region_is_slab, a2]
      exact hslab
    · rw [hmem1]
      exact validate_is_slab_eq_none.mpr a1
    · right; right
      rw [hmem1, a2]
      exact ⟨hss, hidx, a3⟩

theorem free_rejects_invalid_witness :
    ∃ e st', free bump_env booted_state 4160 = Outcome.fatal e st' ∧
      st'.mem = booted_state.mem ∧ st'.slabs = booted_state.slabs ∧
      st'.page_log = booted_state.page_log :=
  (free_rejects_invalid bump_env booted_state 4160 (by decide) (by decide) (by decide)).1
    (Or.inr (Or.inr ⟨by decide, by decide, by decide⟩))

/-- C5 fails on the code: after `init_mm` and one `malloc(32)`, which returns
4160 (slot 0 of the class-0 slab at 4096), the pointer 6208 lies in that valid
slab page at offset 2112.  It passes both offset checks of `free`, the slot
index computed for it is 64 and the bitmap has no bit set there, yet
`free(6208)` does not halt in `koops`: it goes on to the shift by 64, which is
undefined, with bit 0 of the bitmap (the live object 4160) set. -/
theorem free_unallocated_not_rejected :
    (malloc bump_env booted_state 32).val? = some 4160 ∧
      page_of 6208 = 4096 ∧
      region_is_slab booted_small_state.mem (page_of 6208) = true ∧
      validate_is_slab booted_small_state.mem (page_of 6208) = none ∧
      SlabOK booted_small_state.mem 4096 0 ∧
      64 ≤ 6208 - page_of 6208 ∧
      (6208 - page_of 6208 - 64) % read32 booted_small_state.mem (4096 + OFF_SLAB_SIZE) = 0 ∧
      free_bit_idx (6208 - page_of 6208)
        (read32 booted_small_state.mem (4096 + OFF_SLAB_SIZE)) = 64 ∧
      (read64 booted_small_state.mem (4096 + OFF_BM0)).testBit 64 = false ∧
      (read64 booted_small_state.mem (4096 + OFF_BM0)).testBit 0 = true ∧
      (free bump_env booted_small_state 6208).err? = none ∧
      (free bump_env booted_small_state 6208).isUndefined = true := by
  refine ⟨by decide, by decide, by decide, by decide, by decide, by decide, by decide,
    by decide, by decide, by decide, by decide, by decide⟩

/-- C6 (amended): when a valid slab header is corrupted within its checksummed
bytes 0..55 (one bit flipped, or the signature altered), the next `malloc` that
uses the slab as list head halts in `koops`; the next `free` and the next
`malloc_usable_size` of a non-null pointer into the page halt in `koops`
provided the `slab_size` field still reads at most 4032, so that
`region_is_slab` still takes the page for a slab. -/
theorem corruption_detected (m m' : Mem) (a : Nat) (hok : HeaderOK m a)
    (hc : HeaderCorrupted m m' a) :
    (∀ (env : Env) (st : State) (s i : Nat), st.mem = m' → map_size_to_idx s = some i →
      st.slabs i = a → ∃ e st', malloc env st s = Outcome.fatal e st') ∧
    (∀ (env : Env) (st : State) (p : Nat), st.mem = m' → p ≠ 0 → page_of p = a →
      region_is_slab m' a = true →
      (∃ e st', free env st p = Outcome.fatal e st') ∧
      (∃ e st', malloc_usable_size env st p = Outcome.fatal e st')) := by
  have hv := corrupted_not_valid m m' a hok hc
  constructor
  · intro env st s i hm hmap hsl
    exact malloc_fatal_of_invalid env st s i hmap (by rw [hm, hsl]; exact hv)
  · intro env st p hm hp hpg hris
    exact ⟨free_fatal_of_invalid env st p hp (by rw [hm, hpg]; exact hris)
        (by rw [hm, hpg]; exact hv),
      usable_size_fatal_of_invalid env st p hp (by rw [hm, hpg]; exact hris)
        (by rw [hm, hpg]; exact hv)⟩

theorem corruption_detected_witness :
    (∀ (env : Env) (st : State) (s i : Nat),
      st.mem = flip_bit booted_state.mem 4128 0 → map_size_to_idx s = some i →
      st.slabs i = 4096 → ∃ e st', malloc env st s = Outcome.fatal e st') ∧
    (∀ (env : Env) (st : State) (p : Nat),
      st.mem = flip_bit booted_state.mem 4128 0 → p ≠ 0 → page_of p = 4096 →
      region_is_slab (flip_bit booted_state.mem 4128 0) 4096 = true →
      (∃ e st', free env st p = Outcome.fatal e st') ∧
      (∃ e st', malloc_usable_size env st p = Outcome.fatal e st')) :=
  corruption_detected booted_state.mem (flip_bit booted_state.mem 4128 0) 4096
    (by unfold HeaderOK; decide) (Or.inl ⟨32, 0, by decide, by decide, rfl⟩)

/-- C6 as stated fails: flipping bit 12 of `slab_size` in the valid head slab of
class 0 makes the field read 4128, so `free` and `malloc_usable_size` of the
slot pointer 4160 take the page for a page-backed region and return without
validating the header. -/
theorem corrupted_slab_size_not_detected :
    HeaderOK booted_state.mem 4096 ∧
      HeaderCorrupted booted_state.mem corrupted_state.mem 4096 ∧
      page_of 4160 = 4096 ∧ read32 corrupted_state.mem 4096 = 4128 ∧
      (free bump_env corrupted_state 4160).isOk = true ∧
      (malloc_usable_size bump_env corrupted_state 4160).val? = some 4128 :=
  ⟨by unfold HeaderOK; decide, Or.inl ⟨1, 4, by decide, by decide, rfl⟩, by decide, by decide,
    by decide, by decide⟩

/-- C7 (amended): called from interrupt context, `malloc`, `free` of a non-null
pointer and `malloc_usable_size` halt in `koops` before anything is modified;
the state at the halt is the state at the call. -/
theorem interrupt_context_rejected (env : Env) (st : State) (hn : 0 < env.int_nest_count) :
    (∀ size, malloc env st size = Outcome.fatal Fatal.in_interrupt st) ∧
      (∀ ptr, ptr ≠ 0 → free env st ptr = Outcome.fatal Fatal.in_interrupt st) ∧
      (∀ ptr, malloc_usable_size env st ptr = Outcome.fatal Fatal.in_interrupt st) := by
  refine ⟨fun size => malloc_in_interrupt env st size hn, ?_, ?_⟩
  · intro ptr hp
    unfold free
    rw [if_neg hp, if_pos hn]
  · intro ptr
    unfold malloc_usable_size
    rw [if_pos hn]

theorem interrupt_context_rejected_witness :
    (∀ size, malloc bump_env_in_interrupt boot_state size =
        Outcome.fatal Fatal.in_interrupt boot_state) ∧
      (∀ ptr, ptr ≠ 0 → free bump_env_in_interrupt boot_state ptr =
        Outcome.fatal Fatal.in_interrupt boot_state) ∧
      (∀ ptr, malloc_usable_size bump_env_in_interrupt boot_state ptr =
        Outcome.fatal Fatal.in_interrupt boot_state) :=
  interrupt_context_rejected bump_env_in_interrupt boot_state (by decide)

/-- C7 as stated fails: with interrupt nesting depth 1, `free(NULL)` returns
normally instead of halting. -/
theorem free_null_in_interrupt_returns :
    0 < bump_env_in_interrupt.int_nest_count ∧
      free bump_env_in_interrupt boot_state 0 = Outcome.ok () boot_state :=
  ⟨by decide, rfl⟩

/-- C8 (amended): outside interrupt context `malloc_usable_size(NULL)` returns 0
and leaves the state as it was. -/
theorem malloc_usable_size_null (env : Env) (st : State) (hn : env.int_nest_count = 0) :
    malloc_usable_size env st 0 = Outcome.ok 0 st := by
  unfold malloc_usable_size
  rw [if_neg (by omega), if_pos rfl]

theorem malloc_usable_size_null_witness :
    malloc_usable_size bump_env boot_state 0 = Outcome.ok 0 boot_state :=
  malloc_usable_size_null bump_env boot_state rfl

/-- C8 as stated fails: with interrupt nesting depth 1,
`malloc_usable_size(NULL)` halts in `koops`. -/
theorem malloc_usable_size_null_in_interrupt_fatal :
    0 < bump_env_in_interrupt.int_nest_count ∧
      malloc_usable_size bump_env_in_interrupt boot_state 0 =
        Outcome.fatal Fatal.in_interrupt boot_state :=
  ⟨by decide, rfl⟩

/-- C9: outside interrupt context, with the lock free and the page source
answering properly (as in every reachable state), `malloc(s)` for
`4032 < s ≤ UINT32_MAX - 16` asks the page source for exactly
`n = ceil((16 + s) / 4096)` pages, stores `n * 4096 - 16` (which is at least `s`
and fits 32 bits) in the header of the block, returns the address 16 bytes into
the block, and changes neither `slabs[]` nor any byte outside the four bytes of
that header field, hence no byte of any block already held from the page
source; and when the head slab of class 6 is well-formed, `malloc(4032)` returns
slot 0 of the head slab of class 6 and asks the page source for at most one
single page. -/
theorem malloc_large_request (env : Env) (st : State) (s : Nat)
    (hn : env.int_nest_count = 0) (hl : st.malloc_lock = 0)
    (hsrc : PageSourceOK env st.page_log) (hok : SlabOK st.mem (st.slabs 6) 6)
    (h1 : 4032 < s) (h2 : s ≤ UINT32_MAX - 16) :
    (∃ st', malloc env st s =
        Outcome.ok (env.alloc_pages st.page_log ((16 + s + 4095) / 4096) + 16) st' ∧
      st'.page_log = PageEvent.alloc ((16 + s + 4095) / 4096)
        (env.alloc_pages st.page_log ((16 + s + 4095) / 4096)) :: st.page_log ∧
      16 + s ≤ (16 + s + 4095) / 4096 * 4096 ∧
      (16 + s + 4095) / 4096 * 4096 < 16 + s + 4096 ∧
      read32 st'.mem (env.alloc_pages st.page_log ((16 + s + 4095) / 4096) + OFF_SLAB_SIZE) =
        (16 + s + 4095) / 4096 * 4096 - 16 ∧
      (16 + s + 4095) / 4096 * 4096 - 16 < 2 ^ 32 ∧
      s ≤ (16 + s + 4095) / 4096 * 4096 - 16 ∧
      st'.slabs = st.slabs ∧
      (∀ x, x < env.alloc_pages st.page_log ((16 + s + 4095) / 4096) ∨
          env.alloc_pages st.page_log ((16 + s + 4095) / 4096) + 4 ≤ x →
        st'.mem.byte x = st.mem.byte x) ∧
      (∀ blk, blk ∈ live_blocks st.page_log →
        ∀ x, blk.1 ≤ x → x < blk.1 + blk.2 * PAGE_SIZE → st'.mem.byte x = st.mem.byte x)) ∧
    (∃ p st', malloc env st 4032 = Outcome.ok p st' ∧ p = st'.slabs 6 + 64 ∧
      (st'.page_log = st.page_log ∨
        st'.page_log = PageEvent.alloc 1 (env.alloc_pages st.page_log 1) :: st.page_log)) := by
  have hU : UINT32_MAX = 4294967295 := rfl
  constructor
  · obtain ⟨st1, hm, hlog, hmem, hslabs, hlock, hirq⟩ := malloc_large_spec env st s hn hl h1 h2
    have hn0 : 0 < (16 + s + 4095) / 4096 := by omega
    have hn1 : (16 + s + 4095) / 4096 ≤ 2 ^ 20 := by norm_num; omega
    obtain ⟨f1, f2, f3, f4⟩ := hsrc _ hn0 hn1
    generalize hb : env.alloc_pages st.page_log ((16 + s + 4095) / 4096) = b at *
    have hframe : ∀ x, x < b ∨ b + 4 ≤ x → st1.mem.byte x = st.mem.byte x := by
      intro x hx
      rw [hmem, write32_byte_out _ _ _ _ hx]
    refine ⟨st1, hm, hlog, by omega, by omega, ?_, by norm_num; omega, by omega, hslabs, hframe,
      ?_⟩
    · simp only [OFF_SLAB_SIZE, Nat.add_zero]
      rw [hmem, read32_write32_same]
      exact Nat.mod_eq_of_lt (by omega)
    · intro blk hblk x hx1 hx2
      have := f4 blk hblk
      simp only [PAGE_SIZE] at this hx2
      exact hframe x (by omega)
  · have hmap : map_size_to_idx 4032 = some 6 := by decide
    cases hf : builtin_ffsl (read64 st.mem (st.slabs 6 + 32) ^^^ bitmap_mask 6) with
    | succ k =>
      obtain ⟨st1, hm, hsl, hlog, _, _, hk, _⟩ :=
        malloc_small_head env st 4032 6 k hn hl hmap hok hf
      have hk0 : k = 0 := by
        have : class_count 6 = 1 := by decide
        omega
      subst hk0
      refine ⟨_, st1, hm, ?_, Or.inl hlog⟩
      rw [hsl]
      simp
    | zero =>
      obtain ⟨f1, f2, f3, f4⟩ := hsrc 1 (by omega) (by norm_num)
      obtain ⟨st1, hm, hsl, hlog, _⟩ :=
        malloc_small_new env st 4032 6 hn hl hmap hok hf f2 (by omega)
      refine ⟨_, st1, hm, ?_, Or.inr hlog⟩
      rw [hsl, Function.update_same]

theorem malloc_large_request_witness :
    (∃ st', malloc bump_env booted_state 5000 =
        Outcome.ok (bump_env.alloc_pages booted_state.page_log
          ((16 + 5000 + 4095) / 4096) + 16) st' ∧
      st'.page_log = PageEvent.alloc ((16 + 5000 + 4095) / 4096)
        (bump_env.alloc_pages booted_state.page_log
          ((16 + 5000 + 4095) / 4096)) :: booted_state.page_log ∧
      16 + 5000 ≤ (16 + 5000 + 4095) / 4096 * 4096 ∧
      (16 + 5000 + 4095) / 4096 * 4096 < 16 + 5000 + 4096 ∧
      read32 st'.mem (bump_env.alloc_pages booted_state.page_log
          ((16 + 5000 + 4095) / 4096) + OFF_SLAB_SIZE) =
        (16 + 5000 + 4095) / 4096 * 4096 - 16 ∧
      (16 + 5000 + 4095) / 4096 * 4096 - 16 < 2 ^ 32 ∧
      5000 ≤ (16 + 5000 + 4095) / 4096 * 4096 - 16 ∧
      st'.slabs = booted_state.slabs ∧
      (∀ x, x < bump_env.alloc_pages booted_state.page_log ((16 + 5000 + 4095) / 4096) ∨
          bump_env.alloc_pages booted_state.page_log ((16 + 5000 + 4095) / 4096) + 4 ≤ x →
        st'.mem.byte x = booted_state.mem.byte x) ∧
      (∀ blk, blk ∈ live_blocks booted_state.page_log →
        ∀ x, blk.1 ≤ x → x < blk.1 + blk.2 * PAGE_SIZE →
          st'.mem.byte x = booted_state.mem.byte x)) ∧
    (∃ p st', malloc bump_env booted_state 4032 = Outcome.ok p st' ∧
      p = st'.slabs 6 + 64 ∧
      (st'.page_log = booted_state.page_log ∨
        st'.page_log = PageEvent.alloc 1 (bump_env.alloc_pages booted_state.page_log 1) ::
          booted_state.page_log)) :=
  malloc_large_request bump_env booted_state 5000 rfl (by decide) bump_source_ok_init
    (by decide) (by decide) (by decide)

/-- C10: a page-backed `malloc(s)` that got `n` pages at the page-aligned block
`b` is classified as page-backed by `free`, which gives back exactly `b` and `n`. -/
theorem malloc_free_large (env : Env) (st : State) (s : Nat)
    (hn : env.int_nest_count = 0) (hl : st.malloc_lock = 0)
    (h1 : 4032 < s) (h2 : s ≤ UINT32_MAX - 16)
    (hb : env.alloc_pages st.page_log ((16 + s + 4095) / 4096) % PAGE_SIZE = 0)
    (hb2 : env.alloc_pages st.page_log ((16 + s + 4095) / 4096) + 16 < 2 ^ 64) :
    ∃ st1 st2,
      malloc env st s =
        Outcome.ok (env.alloc_pages st.page_log ((16 + s + 4095) / 4096) + 16) st1 ∧
      st1.page_log = PageEvent.alloc ((16 + s + 4095) / 4096)
        (env.alloc_pages st.page_log ((16 + s + 4095) / 4096)) :: st.page_log ∧
      page_of (env.alloc_pages st.page_log ((16 + s + 4095) / 4096) + 16) =
        env.alloc_pages st.page_log ((16 + s + 4095) / 4096) ∧
      4032 < read32 st1.mem (env.alloc_pages st.page_log ((16 + s + 4095) / 4096)) ∧
      region_is_slab st1.mem
        (page_of (env.alloc_pages st.page_log ((16 + s + 4095) / 4096) + 16)) = false ∧
      free env st1 (env.alloc_pages st.page_log ((16 + s + 4095) / 4096) + 16) =
        Outcome.ok () st2 ∧
      st2.page_log = PageEvent.free (env.alloc_pages st.page_log ((16 + s + 4095) / 4096))
        ((16 + s + 4095) / 4096) :: st1.page_log := by
  obtain ⟨st1, hm, hlog, hmem, hslabs, hlock, hirq⟩ := malloc_large_spec env st s hn hl h1 h2
  have hU : UINT32_MAX = 4294967295 := rfl
  generalize hbdef : env.alloc_pages st.page_log ((16 + s + 4095) / 4096) = b at *
  generalize hndef : (16 + s + 4095) / 4096 = n at *
  have hpo : page_of (b + 16) = b := page_of_add b 16 hb (by omega) hb2
  have hrd : read32 st1.mem b = n * 4096 - 16 := by
    rw [hmem, read32_write32_same, Nat.mod_eq_of_lt (by omega)]
  have hris : region_is_slab st1.mem (page_of (b + 16)) = false := by
    rw [hpo]
    simp only [region_is_slab, OFF_SLAB_SIZE, Nat.add_zero, hrd, MAX_SLAB_SIZE]
    simp only [decide_eq_false_iff_not]
    omega
  have hl1 := critical_enter_lock st1 hlock
  refine ⟨st1, critical_leave st1.irq_enabled (free_pages (critical_enter st1) b n),
    hm, hlog, hpo, by omega, hris, ?_, rfl⟩
  rw [free_eq env st1 (b + 16) (by omega) hn hlock, if_pos hris, hpo]
  have hpg : (read32 st1.mem (b + OFF_SLAB_SIZE) + sizeof_malloc_region) / PAGE_SIZE = n := by
    simp only [OFF_SLAB_SIZE, Nat.add_zero, hrd, sizeof_malloc_region, PAGE_SIZE]
    omega
  rw [hpg]
  have : (free_pages (critical_enter st1) b n).malloc_lock = 1 := hl1
  simp only [this, ne_eq, not_true_eq_false, if_false]

theorem malloc_free_large_witness :
    ∃ st1 st2,
      malloc bump_env boot_state 5000 =
        Outcome.ok (bump_env.alloc_pages boot_state.page_log ((16 + 5000 + 4095) / 4096) + 16)
          st1 ∧
      st1.page_log = PageEvent.alloc ((16 + 5000 + 4095) / 4096)
        (bump_env.alloc_pages boot_state.page_log ((16 + 5000 + 4095) / 4096)) ::
          boot_state.page_log ∧
      page_of (bump_env.alloc_pages boot_state.page_log ((16 + 5000 + 4095) / 4096) + 16) =
        bump_env.alloc_pages boot_state.page_log ((16 + 5000 + 4095) / 4096) ∧
      4032 < read32 st1.mem
        (bump_env.alloc_pages boot_state.page_log ((16 + 5000 + 4095) / 4096)) ∧
      region_is_slab st1.mem
        (page_of (bump_env.alloc_pages boot_state.page_log ((16 + 5000 + 4095) / 4096) + 16))
          = false ∧
      free bump_env st1
          (bump_env.alloc_pages boot_state.page_log ((16 + 5000 + 4095) / 4096) + 16) =
        Outcome.ok () st2 ∧
      st2.page_log = PageEvent.free
        (bump_env.alloc_pages boot_state.page_log ((16 + 5000 + 4095) / 4096))
        ((16 + 5000 + 4095) / 4096) :: st1.page_log :=
  malloc_free_large bump_env boot_state 5000 rfl rfl (by decide) (by decide) (by decide)
    (by decide)

/-- C12: every class of `slab_info` fits a page after the 64-byte header,
`slab_size * slab_count + 64 ≤ 4096`, with equality for every class but the
32-byte one (where the sum is 2112); so every slot `j < slab_count` occupies
`[64 + j * slab_size, 64 + (j + 1) * slab_size)` inside the page, after the
header. -/
theorem slab_geometry (c : slab_block_info) (hc : c ∈ slab_info) :
    c.slab_size * c.slab_count + 64 ≤ 4096 ∧
      (c.slab_size ≠ 32 → c.slab_size * c.slab_count + 64 = 4096) ∧
      (c.slab_size = 32 → c.slab_size * c.slab_count + 64 = 2112) ∧
      (∀ j, j < c.slab_count →
        64 ≤ 64 + j * c.slab_size ∧ 64 + (j + 1) * c.slab_size ≤ 4096) := by
  have hfit : c.slab_size * c.slab_count + 64 ≤ 4096 ∧
      (c.slab_size ≠ 32 → c.slab_size * c.slab_count + 64 = 4096) ∧
      (c.slab_size = 32 → c.slab_size * c.slab_count + 64 = 2112) := by
    simp only [slab_info, List.mem_cons, List.mem_singleton, List.not_mem_nil, or_false] at hc
    rcases hc with h | h | h | h | h | h | h <;> subst h <;> decide
  refine ⟨hfit.1, hfit.2.1, hfit.2.2, ?_⟩
  intro j hj
  refine ⟨by omega, ?_⟩
  have h1 : (j + 1) * c.slab_size ≤ c.slab_count * c.slab_size :=
    Nat.mul_le_mul_right _ (by omega)
  have h2 : c.slab_count * c.slab_size = c.slab_size * c.slab_count := Nat.mul_comm _ _
  have := hfit.1
  omega

theorem slab_geometry_witness :
    192 * 21 + 64 ≤ 4096 ∧
      ((192 : Nat) ≠ 32 → 192 * 21 + 64 = 4096) ∧
      ((192 : Nat) = 32 → 192 * 21 + 64 = 2112) ∧
      (∀ j, j < 21 → 64 ≤ 64 + j * 192 ∧ 64 + (j + 1) * 192 ≤ 4096) :=
  slab_geometry ⟨192, 21⟩ (by decide)

/-- C11: in a reachable state, with the page source returning page-aligned
blocks, every pointer returned by `malloc` is a multiple of 16: a slab object
sits at `page + 64 + k * slab_size` with the page 4096-aligned and every
`slab_size` of the table a multiple of 16, and page-backed data sits 16 bytes
into a 4096-aligned block. -/
theorem malloc_result_aligned (env : Env) (st : State) (L : List Nat) (s p : Nat)
    (st' : State) (hR : Reach env st L) (hsrc : PageSourceOK env st.page_log)
    (hcall : malloc env st s = Outcome.ok p st') :
    p % 16 = 0 ∧ (∀ i, i < 7 → (slab_info_at i).slab_size % 16 = 0) ∧
      (s ≤ 4032 → ∃ i a k, map_size_to_idx s = some i ∧ a % 4096 = 0 ∧
        k < (slab_info_at i).slab_count ∧ p = a + 64 + k * (slab_info_at i).slab_size) ∧
      (4032 < s → ∃ b, b % 4096 = 0 ∧ p = b + 16) := by
  have hI := reach_inv env st L hR
  have hmul : ∀ i k, i < 7 → (k * class_size i) % 16 = 0 := by
    intro i k hi
    rw [Nat.mul_mod, class_size_mod16 i hi]
    simp
  rcases malloc_cases env st L s p st' hI hsrc hcall with
    ⟨h1, _, hfresh, _, _, hp, _⟩ | ⟨i, k, hmap, hi, hok, _, hp, _, _, hk, _⟩ |
    ⟨i, hmap, hi, _, _, hfresh, hp, _, _, _, _, _, hok⟩
  · have hb := hfresh.2.1
    simp only [PAGE_SIZE] at hb
    exact ⟨by omega, fun i hi => class_size_mod16 i hi, fun h => by omega,
      fun _ => ⟨_, hb, hp⟩⟩
  · have ha := hok.1
    simp only [PAGE_SIZE] at ha
    have := hmul i k hi
    have hs := (map_size_to_idx_lt s i hmap).2
    exact ⟨by omega, fun i hi => class_size_mod16 i hi,
      fun _ => ⟨i, st.slabs i, k, hmap, ha, hk, hp⟩, fun h => by omega⟩
  · have ha := hok.1
    simp only [PAGE_SIZE] at ha
    have hs := (map_size_to_idx_lt s i hmap).2
    exact ⟨by omega, fun i hi => class_size_mod16 i hi,
      fun _ => ⟨i, env.alloc_pages st.page_log 1, 0, hmap, ha, (class_count_le i hi).1,
        by rw [hp]; simp⟩, fun h => by omega⟩

theorem malloc_result_aligned_witness :
    28736 % 16 = 0 ∧ (∀ i, i < 7 → (slab_info_at i).slab_size % 16 = 0) ∧
      (4032 ≤ 4032 → ∃ i a k, map_size_to_idx 4032 = some i ∧ a % 4096 = 0 ∧
        k < (slab_info_at i).slab_count ∧ 28736 = a + 64 + k * (slab_info_at i).slab_size) ∧
      (4032 < 4032 → ∃ b, b % 4096 = 0 ∧ 28736 = b + 16) := by
  obtain ⟨st_b, hm, _⟩ := booted_full_facts
  exact malloc_result_aligned bump_env booted_state [] 4032 28736 st_b bump_reach_init
    bump_source_ok_init hm

/-- C13: outside interrupt context and with `malloc_lock` not 0, `malloc`,
`free` of a non-null pointer and `malloc_usable_size` of a non-null pointer halt
in `koops`; and an entry point that returns from a state with `malloc_lock = 0`
returns with `malloc_lock = 0`. -/
theorem lock_discipline (env env0 : Env) (st st0 : State)
    (hn : env.int_nest_count = 0) (hl : st.malloc_lock ≠ 0) (hl0 : st0.malloc_lock = 0) :
    ((∀ s, ∃ e st', malloc env st s = Outcome.fatal e st') ∧
      (∀ p, p ≠ 0 → ∃ e st', free env st p = Outcome.fatal e st') ∧
      (∀ p, p ≠ 0 → ∃ e st', malloc_usable_size env st p = Outcome.fatal e st')) ∧
    ((∀ s p st', malloc env0 st0 s = Outcome.ok p st' → st'.malloc_lock = 0) ∧
      (∀ p st', free env0 st0 p = Outcome.ok () st' → st'.malloc_lock = 0) ∧
      (∀ p v st', malloc_usable_size env0 st0 p = Outcome.ok v st' →
        st'.malloc_lock = 0)) := by
  constructor
  · have hl1 : (atomic_fetch_add_lock (local_irq_save st).2).1 ≠ 0 := hl
    refine ⟨?_, ?_, ?_⟩
    · intro s
      unfold malloc
      rw [if_neg (by decide), if_neg (by omega)]
      by_cases hs : s > UINT32_MAX - sizeof_malloc_region
      · rw [if_pos hs]; exact ⟨_, _, rfl⟩
      · rw [if_neg hs]
        simp only [hl1, ne_eq, not_false_eq_true, if_true]
        exact ⟨_, _, rfl⟩
    · intro p hp
      unfold free
      rw [if_neg hp, if_neg (by omega)]
      simp only [hl1, ne_eq, not_false_eq_true, if_true]
      exact ⟨_, _, rfl⟩
    · intro p hp
      unfold malloc_usable_size
      rw [if_neg (by omega), if_neg hp]
      simp only [hl1, ne_eq, not_false_eq_true, if_true]
      exact ⟨_, _, rfl⟩
  · refine ⟨?_, ?_, ?_⟩
    · intro s p st' h
      obtain ⟨hn0, hs, _⟩ := malloc_ok_inv env0 st0 s p st' h
      rw [malloc_eq env0 st0 s hn0 hl0 hs] at h
      split at h
      · cases h
      · cases h
      · split_ifs at h with hlk
        injection h with _ hst
        rw [← hst]
        exact critical_leave_lock _ _ (by simpa using hlk)
    · intro p st' h
      by_cases hp : p = 0
      · subst hp
        unfold free at h
        rw [if_pos rfl] at h
        injection h with _ hst
        rw [← hst]; exact hl0
      · obtain ⟨hn0, _⟩ := free_ok_inv env0 st0 p st' hp h
        rw [free_eq env0 st0 p hp hn0 hl0] at h
        split at h
        · cases h
        · cases h
        · split_ifs at h with hlk
          injection h with _ hst
          rw [← hst]
          exact critical_leave_lock _ _ (by simpa using hlk)
    · intro p v st' h
      rw [malloc_usable_size_ok_inv env0 st0 p v st' hl0 h]
      exact hl0

theorem lock_discipline_witness :
    ((∀ s, ∃ e st', malloc bump_env locked_state s = Outcome.fatal e st') ∧
      (∀ p, p ≠ 0 → ∃ e st', free bump_env locked_state p = Outcome.fatal e st') ∧
      (∀ p, p ≠ 0 → ∃ e st', malloc_usable_size bump_env locked_state p =
        Outcome.fatal e st')) ∧
    ((∀ s p st', malloc bump_env booted_state s = Outcome.ok p st' → st'.malloc_lock = 0) ∧
      (∀ p st', free bump_env booted_state p = Outcome.ok () st' → st'.malloc_lock = 0) ∧
      (∀ p v st', malloc_usable_size bump_env booted_state p = Outcome.ok v st' →
        st'.malloc_lock = 0)) :=
  lock_discipline bump_env bump_env locked_state booted_state rfl (by decide) (by decide)

/-- C17: `malloc` never halts in the `bad size` branch of `map_size_to_idx` nor
in the `new slab has filled up` branch, for any size and any state: the mapping
is only reached with `s ≤ 4032`, where it is defined, and right after
`add_new_slab(i)` the free bits `0 ^ bitmap_mask(i)` are non-zero for every
class `i < 7`. -/
theorem malloc_unreachable_branches (env : Env) (st : State) (s : Nat) :
    (malloc env st s).err? ≠ some Fatal.bad_size ∧
      (malloc env st s).err? ≠ some Fatal.new_slab_full ∧
      (s ≤ 4032 → map_size_to_idx s ≠ none) ∧
      (∀ i, i < 7 →
        read64 (add_new_slab env st i).2.mem ((add_new_slab env st i).1 + OFF_BM0) ^^^
            bitmap_mask i ≠ 0 ∧
          builtin_ffsl (read64 (add_new_slab env st i).2.mem
            ((add_new_slab env st i).1 + OFF_BM0) ^^^ bitmap_mask i) ≠ 0) := by
  have hmain : (malloc env st s).err? ≠ some Fatal.bad_size ∧
      (malloc env st s).err? ≠ some Fatal.new_slab_full := by
    unfold malloc
    rw [if_neg (by decide)]
    by_cases h1 : env.int_nest_count > 0
    · rw [if_pos h1]; simp [Outcome.err?]
    rw [if_neg h1]
    by_cases h2 : s > UINT32_MAX - sizeof_malloc_region
    · rw [if_pos h2]; simp [Outcome.err?]
    rw [if_neg h2]
    simp only
    by_cases h3 : (atomic_fetch_add_lock (local_irq_save st).2).1 ≠ 0
    · rw [if_pos h3]; simp [Outcome.err?]
    rw [if_neg h3]
    by_cases h4 : s > MAX_SLAB_SIZE
    · rw [if_pos h4]
      simp only
      split_ifs <;> simp [Outcome.err?]
    · rw [if_neg h4]
      have hs : s ≤ 4032 := by simp only [MAX_SLAB_SIZE] at h4; omega
      have := malloc_slab_err env (atomic_fetch_add_lock (local_irq_save st).2).2 s hs
      cases hb : malloc_slab env (atomic_fetch_add_lock (local_irq_save st).2).2 s with
      | undefined => simp [Outcome.err?]
      | fatal e s1 =>
        rw [hb] at this
        simpa [Outcome.err?] using this
      | ok v s1 =>
        simp only
        split_ifs <;> simp [Outcome.err?]
  refine ⟨hmain.1, hmain.2, ?_, ?_⟩
  · intro hs h
    obtain ⟨i, hmap⟩ := map_size_to_idx_some s hs
    rw [hmap] at h
    cases h
  · intro i hi
    rw [add_new_slab_bm]
    constructor
    · interval_cases i <;> decide
    · rw [ffsl_new_slab i hi]
      omega

theorem malloc_unreachable_branches_witness :
    (malloc bump_env booted_state 100).err? ≠ some Fatal.bad_size ∧
      (malloc bump_env booted_state 100).err? ≠ some Fatal.new_slab_full ∧
      map_size_to_idx 100 ≠ none ∧
      (read64 (add_new_slab bump_env booted_state 3).2.mem
            ((add_new_slab bump_env booted_state 3).1 + OFF_BM0) ^^^ bitmap_mask 3 ≠ 0 ∧
        builtin_ffsl (read64 (add_new_slab bump_env booted_state 3).2.mem
          ((add_new_slab bump_env booted_state 3).1 + OFF_BM0) ^^^ bitmap_mask 3) ≠ 0) :=
  ⟨(malloc_unreachable_branches bump_env booted_state 100).1,
    (malloc_unreachable_branches bump_env booted_state 100).2.1,
    (malloc_unreachable_branches bump_env booted_state 100).2.2.1 (by decide),
    (malloc_unreachable_branches bump_env booted_state 100).2.2.2 3 (by decide)⟩

/-- C20 fails on the code: in the booted state the pointer 6208 lies in the
valid class-0 slab page 4096 at offset 2112, which passes both checks of `free`
(`2112 ≥ 64` and `(2112 - 64) % 32 = 0`), yet the slot index computed is 64,
not below the slot count 64 of the class, and the shift by it is undefined. -/
theorem free_upper_half_slot_index :
    page_of 6208 = 4096 ∧ SlabOK booted_state.mem 4096 0 ∧
      64 ≤ 6208 - page_of 6208 ∧
      (6208 - page_of 6208 - 64) % read32 booted_state.mem (4096 + OFF_SLAB_SIZE) = 0 ∧
      free_bit_idx (6208 - page_of 6208) (read32 booted_state.mem (4096 + OFF_SLAB_SIZE)) = 64 ∧
      (slab_info_at 0).slab_count = 64 ∧
      (free bump_env booted_state 6208).isUndefined = true := by
  refine ⟨by decide, by decide, by decide, by decide, by decide, by decide, by decide⟩

/-- C14: in every state reached from `init_mm` by calls of `malloc`, `free` and
`malloc_usable_size` that return, the walk from each `slabs[i]` through `next`
ends at a null pointer after at least one slab, and every slab header on it has
the signature "MALLOC", `slab_size` equal to `slab_info[i].slab_size`, a stored
checksum equal to `compute_checksum`, and passes `validate_is_slab`. -/
theorem header_consistency (env : Env) (st : State) (L : List Nat) (hR : Reach env st L)
    (i : Nat) (hi : i < 7) :
    (∃ n, 0 < n ∧ (slab_list st.mem n (st.slabs i)).length = n ∧
      ∀ fuel, n ≤ fuel → slab_list st.mem fuel (st.slabs i) = slab_list st.mem n (st.slabs i)) ∧
    ∀ fuel a, a ∈ slab_list st.mem fuel (st.slabs i) →
      strcmp_MALLOC_eq st.mem (a + OFF_SIGNATURE) = true ∧
      read32 st.mem (a + OFF_SLAB_SIZE) = (slab_info_at i).slab_size ∧
      read64 st.mem (a + OFF_CHECKSUM) = compute_checksum st.mem a ∧
      compute_checksum st.mem a =
        read64 st.mem a ^^^ read64 st.mem (a + 8) ^^^ read64 st.mem (a + 16) ^^^
          read64 st.mem (a + 24) ^^^ read64 st.mem (a + 32) ^^^ read64 st.mem (a + 40) ^^^
          read64 st.mem (a + 48) ∧
      validate_is_slab st.mem a = none := by
  obtain ⟨_, chains, ⟨hP, _⟩, hne⟩ := reach_inv env st L hR
  have hw := slab_list_pool st.mem st.slabs st.page_log chains hP i hi
  constructor
  · refine ⟨(chains i).length, ?_, ?_, ?_⟩
    · exact List.length_pos.mpr (hne i hi)
    · rw [hw]; simp
    · intro fuel hf
      rw [hw, hw, List.take_of_length_le hf, List.take_of_length_le (le_refl _)]
  · intro fuel a ha
    rw [hw] at ha
    obtain ⟨_, _, _, hsz, hok, _⟩ := (hP.slab i hi a (List.mem_of_mem_take ha)).1
    refine ⟨hok.1, hsz, hok.2.symm, ?_, validate_is_slab_eq_none.mpr hok⟩
    rw [compute_checksum_eq, Nat.zero_xor, Nat.add_zero]

theorem header_consistency_witness :
    (∃ n, 0 < n ∧ (slab_list booted_state.mem n (booted_state.slabs 2)).length = n ∧
      ∀ fuel, n ≤ fuel → slab_list booted_state.mem fuel (booted_state.slabs 2) =
        slab_list booted_state.mem n (booted_state.slabs 2)) ∧
    ∀ fuel a, a ∈ slab_list booted_state.mem fuel (booted_state.slabs 2) →
      strcmp_MALLOC_eq booted_state.mem (a + OFF_SIGNATURE) = true ∧
      read32 booted_state.mem (a + OFF_SLAB_SIZE) = (slab_info_at 2).slab_size ∧
      read64 booted_state.mem (a + OFF_CHECKSUM) = compute_checksum booted_state.mem a ∧
      compute_checksum booted_state.mem a =
        read64 booted_state.mem a ^^^ read64 booted_state.mem (a + 8) ^^^
          read64 booted_state.mem (a + 16) ^^^ read64 booted_state.mem (a + 24) ^^^
          read64 booted_state.mem (a + 32) ^^^ read64 booted_state.mem (a + 40) ^^^
          read64 booted_state.mem (a + 48) ∧
      validate_is_slab booted_state.mem a = none :=
  header_consistency bump_env booted_state [] bump_reach_init 2 (by decide)

/-- C15: in a reachable state, outside interrupt context, for a size `s` of class
`i` whose head slab `H = slabs[i]` has a clear bit below `slab_count`, `malloc(s)`
returns `H + 64 + b * slab_size` where `b` is the lowest index whose bit is clear
in the bitmap of `H`; afterwards the bitmap of `H` is the old one with bit `b`
set and every other bit as before, `malloc_cnt` of `H` is one more (modulo 2^64),
`free_cnt` of `H` is as before, and `slabs[]` is unchanged. -/
theorem malloc_head_lowest_bit (env : Env) (st : State) (L : List Nat) (s i j : Nat)
    (hR : Reach env st L) (hn : env.int_nest_count = 0)
    (hmap : map_size_to_idx s = some i)
    (hj : j < (slab_info_at i).slab_count)
    (hclear : (read64 st.mem (st.slabs i + OFF_BM0)).testBit j = false) :
    ∃ b st', malloc env st s =
        Outcome.ok (st.slabs i + OFF_DATA + b * (slab_info_at i).slab_size) st' ∧
      b < (slab_info_at i).slab_count ∧
      (read64 st.mem (st.slabs i + OFF_BM0)).testBit b = false ∧
      (∀ t, t < b → (read64 st.mem (st.slabs i + OFF_BM0)).testBit t = true) ∧
      (∀ t, (read64 st'.mem (st.slabs i + OFF_BM0)).testBit t =
        ((read64 st.mem (st.slabs i + OFF_BM0)).testBit t || decide (t = b))) ∧
      read64 st'.mem (st.slabs i + OFF_MALLOC_CNT) =
        (read64 st.mem (st.slabs i + OFF_MALLOC_CNT) + 1) % 2 ^ 64 ∧
      read64 st'.mem (st.slabs i + OFF_FREE_CNT) =
        read64 st.mem (st.slabs i + OFF_FREE_CNT) ∧
      st'.slabs = st.slabs := by
  have hI := reach_inv env st L hR
  have hi := (map_size_to_idx_lt s i hmap).1
  have hok := inv_head_ok hI i hi
  have hc := class_count_le i hi
  have hj' : j < class_count i := hj
  have hne : builtin_ffsl (read64 st.mem (st.slabs i + 32) ^^^ bitmap_mask i) ≠ 0 := by
    intro h0
    have := ffsl_free_bits_zero i _ hi hok.2.2.2.2.2 h0 j hj'
    simp only [OFF_BM0] at this hclear
    rw [hclear] at this
    cases this
  obtain ⟨k, hk⟩ := Nat.exists_eq_succ_of_ne_zero hne
  obtain ⟨st1, h1, h2, _, _, _, h6, h7, h8, h9, h10, h11, _⟩ :=
    malloc_small_head env st s i k hn hI.1 hmap hok hk
  refine ⟨k, st1, h1, h6, h7, h8, ?_, h11, ?_, h2⟩
  · intro t
    simp only [OFF_BM0]
    rw [h10, testBit_or_bit]
    congr 1
    exact decide_eq_decide.mpr ⟨fun h => h.symm, fun h => h.symm⟩
  · simp only [OFF_FREE_CNT]
    exact read64_congr (fun x hx1 hx2 => h9 x (Or.inr (Or.inl ⟨hx1, hx2⟩)))

theorem malloc_head_lowest_bit_witness :
    ∃ b st', malloc bump_env booted_state 100 =
        Outcome.ok (booted_state.slabs 2 + OFF_DATA + b * (slab_info_at 2).slab_size) st' ∧
      b < (slab_info_at 2).slab_count ∧
      (read64 booted_state.mem (booted_state.slabs 2 + OFF_BM0)).testBit b = false ∧
      (∀ t, t < b → (read64 booted_state.mem (booted_state.slabs 2 + OFF_BM0)).testBit t = true) ∧
      (∀ t, (read64 st'.mem (booted_state.slabs 2 + OFF_BM0)).testBit t =
        ((read64 booted_state.mem (booted_state.slabs 2 + OFF_BM0)).testBit t ||
          decide (t = b))) ∧
      read64 st'.mem (booted_state.slabs 2 + OFF_MALLOC_CNT) =
        (read64 booted_state.mem (booted_state.slabs 2 + OFF_MALLOC_CNT) + 1) % 2 ^ 64 ∧
      read64 st'.mem (booted_state.slabs 2 + OFF_FREE_CNT) =
        read64 booted_state.mem (booted_state.slabs 2 + OFF_FREE_CNT) ∧
      st'.slabs = booted_state.slabs :=
  malloc_head_lowest_bit bump_env booted_state [] 100 2 0 bump_reach_init rfl (by decide)
    (by decide) (by decide)

/-- C16: `bitmap_mask(i)` has exactly the bits below `slab_info[i].slab_count`
set (for class 0 it is `2^64 - 1`); in a reachable state every slab on the list
of class `i` has `allocation_bm[0] & ~bitmap_mask(i) = 0`, and its free bits
`allocation_bm[0] ^ bitmap_mask(i)` have no bit at or above `slab_count` and
have bit `j` set exactly when `j < slab_count` and bit `j` of the bitmap is
clear. -/
theorem bitmap_within_mask (env : Env) (st : State) (L : List Nat) (hR : Reach env st L)
    (i : Nat) (hi : i < 7) :
    (∀ j, (bitmap_mask i).testBit j = decide (j < (slab_info_at i).slab_count)) ∧
    bitmap_mask i = 2 ^ (slab_info_at i).slab_count - 1 ∧
    bitmap_mask 0 = 0xffffffffffffffff ∧
    st.slabs i ∈ slab_list st.mem 1 (st.slabs i) ∧
    ∀ fuel a, a ∈ slab_list st.mem fuel (st.slabs i) →
      read64 st.mem (a + OFF_BM0) &&& not64 (bitmap_mask i) = 0 ∧
      (∀ j, (slab_info_at i).slab_count ≤ j →
        (read64 st.mem (a + OFF_BM0) ^^^ bitmap_mask i).testBit j = false) ∧
      (∀ j, (read64 st.mem (a + OFF_BM0) ^^^ bitmap_mask i).testBit j = true ↔
        j < (slab_info_at i).slab_count ∧
          (read64 st.mem (a + OFF_BM0)).testBit j = false) := by
  obtain ⟨_, chains, ⟨hP, _⟩, hne⟩ := reach_inv env st L hR
  have hw := slab_list_pool st.mem st.slabs st.page_log chains hP i hi
  refine ⟨fun j => bitmap_mask_testBit i j hi, bitmap_mask_eq i hi, by decide, ?_, ?_⟩
  · obtain ⟨a, rest, hc⟩ := List.exists_cons_of_ne_nil (hne i hi)
    rw [hw, hc, hP.head i hi a rest hc]
    simp
  · intro fuel a ha
    rw [hw] at ha
    have hbm := (hP.slab i hi a (List.mem_of_mem_take ha)).1.2.2.2.2.2
    refine ⟨and_not_mask_eq_zero i _ hi hbm, ?_, ?_⟩
    · intro j hj
      rw [free_bits_testBit i _ j hi hbm]
      have : ¬ j < class_count i := by
        simp only [class_count]; omega
      simp [this]
    · intro j
      rw [free_bits_testBit i _ j hi hbm]
      simp [class_count]

theorem bitmap_within_mask_witness :
    (∀ j, (bitmap_mask 1).testBit j = decide (j < (slab_info_at 1).slab_count)) ∧
    bitmap_mask 1 = 2 ^ (slab_info_at 1).slab_count - 1 ∧
    bitmap_mask 0 = 0xffffffffffffffff ∧
    booted_state.slabs 1 ∈ slab_list booted_state.mem 1 (booted_state.slabs 1) ∧
    ∀ fuel a, a ∈ slab_list booted_state.mem fuel (booted_state.slabs 1) →
      read64 booted_state.mem (a + OFF_BM0) &&& not64 (bitmap_mask 1) = 0 ∧
      (∀ j, (slab_info_at 1).slab_count ≤ j →
        (read64 booted_state.mem (a + OFF_BM0) ^^^ bitmap_mask 1).testBit j = false) ∧
      (∀ j, (read64 booted_state.mem (a + OFF_BM0) ^^^ bitmap_mask 1).testBit j = true ↔
        j < (slab_info_at 1).slab_count ∧
          (read64 booted_state.mem (a + OFF_BM0)).testBit j = false) :=
  bitmap_within_mask bump_env booted_state [] bump_reach_init 1 (by decide)

/-- C18: in a reachable state whose head slab of class `i` is full, outside
interrupt context and with the page source answering properly, `malloc` of a
size of class `i` takes a page `P` from the page source, makes it the head of
`slabs[i]` with `next` the old head, so that the list is `P` followed by the old
list, and returns slot 0 of `P` (`P + 64`, bitmap of `P` equal to 1), whatever
the bitmaps of the other slabs of the list; every page of the old list is as it
was.  And a `malloc` that returns, of any size, leaves the 64-byte header
(bitmap, counters and checksum included) of every slab that is not the head of
its list as it was. -/
theorem malloc_head_only (env : Env) (st : State) (L : List Nat) (s : Nat)
    (hR : Reach env st L) (hsrc : PageSourceOK env st.page_log)
    (hn : env.int_nest_count = 0) :
    (∀ i, map_size_to_idx s = some i →
      (∀ j, j < (slab_info_at i).slab_count →
        (read64 st.mem (st.slabs i + OFF_BM0)).testBit j = true) →
      ∃ st', malloc env st s = Outcome.ok
          (env.alloc_pages st.page_log 1 + OFF_DATA + 0 * (slab_info_at i).slab_size) st' ∧
        st'.slabs i = env.alloc_pages st.page_log 1 ∧
        (∀ j, j ≠ i → st'.slabs j = st.slabs j) ∧
        st'.page_log = PageEvent.alloc 1 (env.alloc_pages st.page_log 1) :: st.page_log ∧
        (∀ fuel, env.alloc_pages st.page_log 1 ∉ slab_list st.mem fuel (st.slabs i)) ∧
        read64 st'.mem (env.alloc_pages st.page_log 1 + OFF_NEXT) = st.slabs i ∧
        read64 st'.mem (env.alloc_pages st.page_log 1 + OFF_BM0) = 1 ∧
        (∀ fuel, slab_list st'.mem (fuel + 1) (st'.slabs i) =
          env.alloc_pages st.page_log 1 :: slab_list st.mem fuel (st.slabs i)) ∧
        (∀ fuel a, a ∈ slab_list st.mem fuel (st.slabs i) →
          ∀ x, a ≤ x → x < a + PAGE_SIZE → st'.mem.byte x = st.mem.byte x)) ∧
    (∀ p st', malloc env st s = Outcome.ok p st' →
      ∀ j, j < 7 → ∀ fuel a, a ∈ slab_list st.mem fuel (st.slabs j) →
        a ≠ st.slabs j ∨ map_size_to_idx s ≠ some j →
        (∀ x, a ≤ x → x < a + 64 → st'.mem.byte x = st.mem.byte x) ∧
        read64 st'.mem (a + OFF_BM0) = read64 st.mem (a + OFF_BM0) ∧
        read64 st'.mem (a + OFF_MALLOC_CNT) = read64 st.mem (a + OFF_MALLOC_CNT) ∧
        read64 st'.mem (a + OFF_FREE_CNT) = read64 st.mem (a + OFF_FREE_CNT) ∧
        read64 st'.mem (a + OFF_CHECKSUM) = read64 st.mem (a + OFF_CHECKSUM)) := by
  have hI := reach_inv env st L hR
  constructor
  · intro i hmap hfull
    have hi := (map_size_to_idx_lt s i hmap).1
    have hok := inv_head_ok hI i hi
    have hfr := hsrc 1 (by decide) (by decide)
    have hf := ffsl_full i _ hi hok.2.2.2.2.2 hfull
    obtain ⟨st1, h1, h2, h3, _, _, h6, h7, _, h9, _⟩ :=
      malloc_small_new env st s i hn hI.1 hmap hok hf hfr.2.1 (by simpa using hfr.2.2.1)
    obtain ⟨_, chains, ⟨hP, _⟩, _⟩ := hI
    have hw := slab_list_pool st.mem st.slabs st.page_log chains hP i hi
    have hapart : ∀ fuel a, a ∈ slab_list st.mem fuel (st.slabs i) →
        env.alloc_pages st.page_log 1 + 4096 ≤ a ∨ a + 4096 ≤ env.alloc_pages st.page_log 1 := by
      intro fuel a ha
      rw [hw] at ha
      have := hfr.2.2.2 (a, 1) (hP.slab i hi a (List.mem_of_mem_take ha)).2
      simpa [PAGE_SIZE] using this
    have hold : st.slabs i < 2 ^ 64 := by
      have := hok.2.1
      simp only [PAGE_SIZE] at this
      omega
    have hnext : read64 st1.mem (env.alloc_pages st.page_log 1 + 8) = st.slabs i := by
      rw [h9, Nat.mod_eq_of_lt hold]
    have hhead : st1.slabs i = env.alloc_pages st.page_log 1 := by
      rw [h2]; simp
    refine ⟨st1, by simpa [OFF_DATA] using h1, hhead, ?_, h3, ?_, hnext, h7, ?_, ?_⟩
    · intro j hj
      rw [h2, Function.update_noteq hj]
    · intro fuel hmem
      have := hapart fuel _ hmem
      omega
    · intro fuel
      rw [hhead]
      have hP0 : env.alloc_pages st.page_log 1 ≠ 0 := by
        have := hfr.1
        omega
      simp only [slab_list, if_neg hP0, OFF_NEXT]
      rw [hnext]
      congr 1
      apply slab_list_congr
      intro a ha
      have := hapart fuel a ha
      simp only [OFF_NEXT]
      exact read64_congr (fun x _ _ => h6 x (by omega))
    · intro fuel a ha x hx1 hx2
      have := hapart fuel a ha
      simp only [PAGE_SIZE] at hx2
      exact h6 x (by omega)
  · intro p st' hcall j hj fuel a ha hne
    have hb := malloc_frame_slabs env st L s p st' hI hsrc hcall j hj fuel a ha hne
    refine ⟨hb, ?_, ?_, ?_, ?_⟩
    · exact read64_congr (fun x h1 h2 => hb x (by simp only [OFF_BM0] at h1; omega)
        (by simp only [OFF_BM0] at h2; omega))
    · exact read64_congr (fun x h1 h2 => hb x (by simp only [OFF_MALLOC_CNT] at h1; omega)
        (by simp only [OFF_MALLOC_CNT] at h2; omega))
    · exact read64_congr (fun x h1 h2 => hb x (by simp only [OFF_FREE_CNT] at h1; omega)
        (by simp only [OFF_FREE_CNT] at h2; omega))
    · exact read64_congr (fun x h1 h2 => hb x (by simp only [OFF_CHECKSUM] at h1; omega)
        (by simp only [OFF_CHECKSUM] at h2; omega))

theorem malloc_head_only_witness :
    28672 ∈ slab_list deep_free_state.mem 2 (deep_free_state.slabs 6) ∧
    28672 ≠ deep_free_state.slabs 6 ∧
    (read64 deep_free_state.mem (28672 + OFF_BM0)).testBit 0 = false ∧
    ∃ st', malloc bump_env deep_free_state 4032 = Outcome.ok
        (bump_env.alloc_pages deep_free_state.page_log 1 + OFF_DATA +
          0 * (slab_info_at 6).slab_size) st' ∧
      st'.slabs 6 = bump_env.alloc_pages deep_free_state.page_log 1 ∧
      (∀ j, j ≠ 6 → st'.slabs j = deep_free_state.slabs j) ∧
      st'.page_log = PageEvent.alloc 1 (bump_env.alloc_pages deep_free_state.page_log 1) ::
        deep_free_state.page_log ∧
      (∀ fuel, bump_env.alloc_pages deep_free_state.page_log 1 ∉
        slab_list deep_free_state.mem fuel (deep_free_state.slabs 6)) ∧
      read64 st'.mem (bump_env.alloc_pages deep_free_state.page_log 1 + OFF_NEXT) =
        deep_free_state.slabs 6 ∧
      read64 st'.mem (bump_env.alloc_pages deep_free_state.page_log 1 + OFF_BM0) = 1 ∧
      (∀ fuel, slab_list st'.mem (fuel + 1) (st'.slabs 6) =
        bump_env.alloc_pages deep_free_state.page_log 1 ::
          slab_list deep_free_state.mem fuel (deep_free_state.slabs 6)) ∧
      (∀ fuel a, a ∈ slab_list deep_free_state.mem fuel (deep_free_state.slabs 6) →
        ∀ x, a ≤ x → x < a + PAGE_SIZE → st'.mem.byte x = deep_free_state.mem.byte x) :=
  ⟨by decide, by decide, by decide,
    (malloc_head_only bump_env deep_free_state [32832] 4032 deep_free_reach
      deep_free_source_ok rfl).1 6 (by decide)
      (fun j hj => by
        have hc : (slab_info_at 6).slab_count = 1 := by decide
        have h0 : j = 0 := by omega
        subst h0
        decide)⟩

/-- C19: when `malloc(s)` returns `p` in a reachable state whose live pointers
(returned by `malloc` and not passed to `free` since) are `L`, with the page
source handing out fresh blocks, `p` is not in `L`, and the bytes
`[p, p + usable_size(p))`, at least `s` of them, are disjoint from the bytes
`[q, q + usable_size(q))` of every `q` in `L`, the sizes being what
`malloc_usable_size` answers in the state after the call. -/
theorem no_double_allocation (env : Env) (st : State) (L : List Nat) (s p : Nat)
    (st' : State) (hR : Reach env st L) (hsrc : PageSourceOK env st.page_log)
    (hcall : malloc env st s = Outcome.ok p st') :
    p ∉ L ∧ ∃ vp, malloc_usable_size env st' p = Outcome.ok vp st' ∧ s ≤ vp ∧ 0 < vp ∧
      ∀ q, q ∈ L → ∃ vq, malloc_usable_size env st' q = Outcome.ok vq st' ∧ 0 < vq ∧
        (p + vp ≤ q ∨ q + vq ≤ p) := by
  have hI := reach_inv env st L hR
  have hnew := malloc_not_live env st L s p st' hI hsrc hcall
  obtain ⟨vp, hvp, hsv, hpos⟩ := malloc_usable_after env st L s p st' hI hsrc hcall
  obtain ⟨hn, _, _⟩ := malloc_ok_inv env st s p st' hcall
  obtain ⟨hl', chains, ⟨hP, hlive⟩, _⟩ := inv_malloc env st L s p st' hI hsrc hcall
  have hpl := hlive p (List.mem_cons_self _ _)
  refine ⟨hnew, vp, hvp, hsv, hpos, ?_⟩
  intro q hq
  have hne : p ≠ q := fun e => hnew (e ▸ hq)
  obtain ⟨v1, vq, e1, e2, _, h2, hd⟩ :=
    live_disjoint env st' chains hP hn hl' p q hpl (hlive q (List.mem_cons_of_mem _ hq)) hne
  rw [hvp] at e1
  injection e1 with e1 _
  subst e1
  exact ⟨vq, e2, h2, hd⟩

theorem no_double_allocation_witness :
    36928 ∉ [32832] ∧
      ∃ vp, malloc_usable_size bump_env
          ((malloc bump_env deep_free_state 4032).stateD boot_state) 36928 =
            Outcome.ok vp ((malloc bump_env deep_free_state 4032).stateD boot_state) ∧
        4032 ≤ vp ∧ 0 < vp ∧
        ∀ q, q ∈ [32832] → ∃ vq, malloc_usable_size bump_env
            ((malloc bump_env deep_free_state 4032).stateD boot_state) q =
              Outcome.ok vq ((malloc bump_env deep_free_state 4032).stateD boot_state) ∧
          0 < vq ∧ (36928 + vp ≤ q ∨ q + vq ≤ 36928) :=
  no_double_allocation bump_env deep_free_state [32832] 4032 36928
    ((malloc bump_env deep_free_state 4032).stateD boot_state) deep_free_reach
    deep_free_source_ok (Outcome.ok_of_val _ _ boot_state (by decide))

end Malloc
